import Mathlib

/-!
A verification development for the cooperative scheduler

Shallow embedding of `packages/scheduler/src/SchedulerMinHeap.js`,
`packages/scheduler/src/SchedulerPriorities.js` and
`packages/scheduler/src/forks/Scheduler.js`.

Conventions of the embedding

* JavaScript numbers are modelled as integers (`Int`), with exact arithmetic.
* A JavaScript array is a `List`; an out-of-range read `heap[i]` is `none`.
* A function that mutates its arguments returns the mutated values.
* `while` loops are structural recursions on a fuel argument; every loop whose
  number of iterations is bounded by its input gets that bound as its fuel.
* Object identity (`===`) is equality of values: two occurrences of equal
  values stand for the same object.
-/

set_option autoImplicit false

namespace SchedulerMinHeap

/-- The Flow type `Node = {id: number, sortIndex: number, ...}`: the bound of
the type parameter `T` of the heap functions. -/
class Node (T : Type) where
  id : T → Int
  sortIndex : T → Int

/-- The Flow type `Heap<T: Node> = Array<T>`. -/
abbrev Heap (T : Type) := List T

/-- The function `compare(a, b)`: compare sort index first, then task id. -/
def compare {T : Type} [Node T] (a b : T) : Int :=
  let diff := Node.sortIndex a - Node.sortIndex b
  if diff ≠ 0 then diff else Node.id a - Node.id b

/-- The loop of `siftUp(heap, node, i)`; `index` is the loop variable. -/
def siftUpLoop {T : Type} [Node T] : Nat → Heap T → T → Nat → Heap T
  | 0, heap, _, _ => heap
  | fuel + 1, heap, node, index =>
    if index > 0 then
      let parentIndex := (index - 1) / 2
      match heap[parentIndex]? with
      | some parent =>
        if compare parent node > 0 then
          -- The parent is larger. Swap positions.
          siftUpLoop fuel ((heap.set parentIndex node).set index parent) node parentIndex
        else
          -- The parent is smaller. Exit.
          heap
      | none => heap
    else heap

/-- The function `siftUp(heap, node, i)`. The index strictly decreases at each
iteration, so `i` iterations are enough. -/
def siftUp {T : Type} [Node T] (heap : Heap T) (node : T) (i : Nat) : Heap T :=
  siftUpLoop i heap node i

/-- The loop of `siftDown(heap, node, i)`; `index` is the loop variable. -/
def siftDownLoop {T : Type} [Node T] : Nat → Heap T → T → Nat → Heap T
  | 0, heap, _, _ => heap
  | fuel + 1, heap, node, index =>
    let length := heap.length
    let halfLength := length / 2
    if index < halfLength then
      let leftIndex := (index + 1) * 2 - 1
      let rightIndex := leftIndex + 1
      match heap[leftIndex]?, heap[rightIndex]? with
      | some left, some right =>
        -- here rightIndex < length
        if compare left node < 0 then
          if compare right left < 0 then
            siftDownLoop fuel ((heap.set index right).set rightIndex node) node rightIndex
          else
            siftDownLoop fuel ((heap.set index left).set leftIndex node) node leftIndex
        else if compare right node < 0 then
          siftDownLoop fuel ((heap.set index right).set rightIndex node) node rightIndex
        else
          -- Neither child is smaller. Exit.
          heap
      | some left, none =>
        -- here rightIndex >= length
        if compare left node < 0 then
          siftDownLoop fuel ((heap.set index left).set leftIndex node) node leftIndex
        else
          heap
      | none, _ => heap
    else heap

/-- The function `siftDown(heap, node, i)`. The index strictly increases at
each iteration and stays below the length, so `length` iterations are enough. -/
def siftDown {T : Type} [Node T] (heap : Heap T) (node : T) (i : Nat) : Heap T :=
  siftDownLoop heap.length heap node i

/-- The function `push(heap, node)`; returns the array after the call. -/
def push {T : Type} [Node T] (heap : Heap T) (node : T) : Heap T :=
  let index := heap.length
  siftUp (heap ++ [node]) node index

/-- The function `peek(heap)`. -/
def peek {T : Type} (heap : Heap T) : Option T :=
  if heap.length = 0 then none else heap[0]?

/-- The function `pop(heap)`; returns the result and the array after the call. -/
def pop {T : Type} [DecidableEq T] [Node T] (heap : Heap T) : Option T × Heap T :=
  match heap[0]?, heap.getLast? with
  | some first, some last =>
    let heap1 := heap.dropLast
    if last ≠ first then
      (some first, siftDown (heap1.set 0 last) last 0)
    else
      (some first, heap1)
  | _, _ => (none, heap)

/-- The node at index `i` compares `<=` the node at index `j`, when both
indices are in range. -/
def LeAt {T : Type} [Node T] (heap : Heap T) (i j : Nat) : Prop :=
  ∀ a b, heap[i]? = some a → heap[j]? = some b → compare a b ≤ 0

instance {T : Type} [Node T] (heap : Heap T) (i j : Nat) : Decidable (LeAt heap i j) :=
  match hi : heap[i]?, hj : heap[j]? with
  | some a, some b =>
    decidable_of_iff (compare a b ≤ 0) (by unfold LeAt; simp [hi, hj])
  | none, _ => isTrue (by unfold LeAt; simp [hi])
  | some _, none => isTrue (by unfold LeAt; simp [hj])

/-- The heap invariant: each node at index `i` compares `<=` its children at
indices `2i+1` and `2i+2` under `compare`. -/
def IsHeap {T : Type} [Node T] (heap : Heap T) : Prop :=
  ∀ i, i < heap.length → LeAt heap i (2 * i + 1) ∧ LeAt heap i (2 * i + 2)

instance {T : Type} [Node T] (heap : Heap T) : Decidable (IsHeap heap) :=
  Nat.decidableBallLT _ _

/-- The heap invariant stated from the children: each node other than the root
is above its parent. -/
def ParentLe {T : Type} [Node T] (heap : Heap T) : Prop :=
  ∀ j, 0 < j → LeAt heap ((j - 1) / 2) j

/-- The invariant of the loop of `siftUp`: the heap invariant holds everywhere
except between `index` and its parent, and the parent of `index` is below the
children of `index`. -/
def UpInv {T : Type} [Node T] (heap : Heap T) (index : Nat) : Prop :=
  (∀ j, 0 < j → j ≠ index → LeAt heap ((j - 1) / 2) j) ∧
  (∀ j, 0 < j → (j - 1) / 2 = index → 0 < index → LeAt heap ((index - 1) / 2) j)

/-- The invariant of the loop of `siftDown`: the heap invariant holds everywhere
except between `index` and its children, and the parent of `index` is below the
children of `index`. -/
def DownInv {T : Type} [Node T] (heap : Heap T) (index : Nat) : Prop :=
  (∀ j, 0 < j → (j - 1) / 2 ≠ index → LeAt heap ((j - 1) / 2) j) ∧
  (∀ j, 0 < j → (j - 1) / 2 = index → 0 < index → LeAt heap ((index - 1) / 2) j)

/-- A plain heap node: the two fields the heap reads, and a tag standing for
the remaining fields of the object. -/
structure PlainNode where
  id : Int
  sortIndex : Int
  tag : Nat
  deriving DecidableEq, Repr

instance : Node PlainNode where
  id := PlainNode.id
  sortIndex := PlainNode.sortIndex

/-- An operation on a heap. -/
inductive HeapOp (T : Type) where
  | push (node : T)
  | pop

/-- One operation, applied to the array and to the collection of the current
elements: those pushed and not yet popped. -/
def applyOp {T : Type} [DecidableEq T] [Node T] (st : Heap T × List T) :
    HeapOp T → Heap T × List T
  | .push node => (push st.1 node, node :: st.2)
  | .pop =>
    match (pop st.1).1 with
    | some first => ((pop st.1).2, st.2.erase first)
    | none => ((pop st.1).2, st.2)

/-- A sequence of operations applied to an initially empty heap. -/
def runOps {T : Type} [DecidableEq T] [Node T] (ops : List (HeapOp T)) : Heap T × List T :=
  ops.foldl applyOp ([], [])

/-- The nodes pushed one by one into an empty heap. -/
def pushAll {T : Type} [Node T] (nodes : List T) : Heap T :=
  nodes.foldl push []

/-- The loop that pops until `pop` returns null; the nodes popped, in order. -/
def popAllLoop {T : Type} [DecidableEq T] [Node T] : Nat → Heap T → List T
  | 0, _ => []
  | fuel + 1, heap =>
    match pop heap with
    | (some first, heap1) => first :: popAllLoop fuel heap1
    | (none, _) => []

/-- Pop until `pop` returns null. Each `pop` that returns a node shortens the
array by one, so `length` iterations are enough. -/
def popAll {T : Type} [DecidableEq T] [Node T] (heap : Heap T) : List T :=
  popAllLoop heap.length heap

end SchedulerMinHeap

namespace SchedulerPriorities

/-- The type `PriorityLevel`. The scheduler receives priority levels from its
callers unchecked, so a level is any number. -/
abbrev PriorityLevel := Int

def NoPriority : PriorityLevel := 0
def ImmediatePriority : PriorityLevel := 1
def UserBlockingPriority : PriorityLevel := 2
def NormalPriority : PriorityLevel := 3
def LowPriority : PriorityLevel := 4
def IdlePriority : PriorityLevel := 5

end SchedulerPriorities

namespace Scheduler

open SchedulerMinHeap SchedulerPriorities

/-- The constants imported from `../SchedulerFeatureFlags`, a module that is not
among the sources: they are parameters of the embedding. -/
structure SchedulerFeatureFlags where
  enableProfiling : Bool
  frameYieldMs : Int
  userBlockingPriorityTimeout : Int
  lowPriorityTimeout : Int
  normalPriorityTimeout : Int
  enableRequestPaint : Bool
  enableAlwaysYieldScheduler : Bool

/-- A callback is a reference to a function of the caller. What a call of it
does is given by a `Callbacks` environment. -/
abbrev Callback := Nat

/-- The type `Task`. A task object is identified by its `id`, which
`unstable_scheduleCallback` takes from an incrementing counter: a write to a
field of a task object is a write to every copy of that task in the state
(see `updateTask`). `isQueued` is the optional field used by profiling. -/
structure Task where
  id : Int
  callback : Option Callback
  priorityLevel : PriorityLevel
  startTime : Int
  expirationTime : Int
  sortIndex : Int
  isQueued : Option Bool
  deriving DecidableEq, Repr

instance : Node Task where
  id := Task.id
  sortIndex := Task.sortIndex

/-- One callback invocation `callback(didUserCallbackTimeout)` made by
`workLoop` for the task `task`. -/
structure Invocation where
  task : Int
  callback : Callback
  didUserCallbackTimeout : Bool
  deriving DecidableEq, Repr

/-- `var maxSigned31BitInt = 1073741823`. -/
def maxSigned31BitInt : Int := 1073741823

/-- The module-level variables of `Scheduler.js`, followed by the part of the
host the module talks to: the clock read by `getCurrentTime()`, the timers
created by `localSetTimeout` and not yet fired or cleared (handle and delay),
the number of pending `schedulePerformWorkUntilDeadline()` requests, the
number of `console.error` calls, and the record of the callback invocations
made so far (oldest first). -/
structure State where
  taskQueue : Heap Task
  timerQueue : Heap Task
  taskIdCounter : Int
  currentTask : Option Task
  currentPriorityLevel : PriorityLevel
  isPerformingWork : Bool
  isHostCallbackScheduled : Bool
  isHostTimeoutScheduled : Bool
  needsPaint : Bool
  isMessageLoopRunning : Bool
  taskTimeoutID : Int
  frameInterval : Int
  startTime : Int
  currentTime : Int
  hostTimeouts : List (Int × Int)
  nextTimeoutID : Int
  scheduledPerformWork : Nat
  consoleErrors : Nat
  invoked : List Invocation
  deriving DecidableEq, Repr

/-- The module state right after the module is loaded, at clock reading `now`. -/
def init (flags : SchedulerFeatureFlags) (now : Int) : State :=
  { taskQueue := [], timerQueue := [], taskIdCounter := 1, currentTask := none,
    currentPriorityLevel := NormalPriority, isPerformingWork := false,
    isHostCallbackScheduled := false, isHostTimeoutScheduled := false,
    needsPaint := false, isMessageLoopRunning := false, taskTimeoutID := -1,
    frameInterval := flags.frameYieldMs, startTime := -1, currentTime := now,
    hostTimeouts := [], nextTimeoutID := 0, scheduledPerformWork := 0,
    consoleErrors := 0, invoked := [] }

/-- What a callback does during one call, as far as the scheduler can see:
time passes and the scheduler is called back. -/
inductive Step where
  | elapse (ms : Nat)
  | scheduleCallback (priorityLevel : PriorityLevel) (callback : Callback)
      (options : Option Int)
  | cancelCallback (task : Int)
  | requestPaint
  deriving DecidableEq, Repr

/-- How a callback call ends: it returns something that is not a function, it
returns a continuation, or it throws. -/
inductive CallbackResult where
  | done
  | continuation (callback : Callback)
  | throw (error : Nat)
  deriving DecidableEq, Repr

/-- One call of a callback: the steps it takes, then how it ends. -/
structure Behaviour where
  steps : List Step
  result : CallbackResult
  deriving DecidableEq, Repr

/-- The behaviour of the callbacks: what the call `callback(didTimeout)` does
when it is made in a given scheduler state. -/
abbrev Callbacks := Callback → Bool → State → Behaviour

/-- How a call of `workLoop` or `flushWork` ends. `outOfFuel` is a run whose
loop was cut by the fuel of the embedding. -/
inductive Completion where
  | returned (hasMoreWork : Bool)
  | threw (error : Nat)
  | outOfFuel
  deriving DecidableEq, Repr

/-- A write `task.field = value` through a reference to the task object with
identifier `id`: every copy of the task in the state is updated. -/
def updateTask (s : State) (id : Int) (f : Task → Task) : State :=
  { s with
    taskQueue := s.taskQueue.map (fun t => if t.id = id then f t else t)
    timerQueue := s.timerQueue.map (fun t => if t.id = id then f t else t)
    currentTask := s.currentTask.map (fun t => if t.id = id then f t else t) }

/-- The function `requestHostCallback()`. -/
def requestHostCallback (s : State) : State :=
  if !s.isMessageLoopRunning then
    { s with isMessageLoopRunning := true,
             scheduledPerformWork := s.scheduledPerformWork + 1 }
  else s

/-- The function `requestHostTimeout(callback, ms)`; the callback is always
`handleTimeout`. -/
def requestHostTimeout (s : State) (ms : Int) : State :=
  { s with taskTimeoutID := s.nextTimeoutID,
           hostTimeouts := s.hostTimeouts ++ [(s.nextTimeoutID, ms)],
           nextTimeoutID := s.nextTimeoutID + 1 }

/-- The function `cancelHostTimeout()`. -/
def cancelHostTimeout (s : State) : State :=
  { s with hostTimeouts := s.hostTimeouts.filter (fun t => t.1 ≠ s.taskTimeoutID),
           taskTimeoutID := -1 }

/-- The loop of `advanceTimers(currentTime)`. -/
def advanceTimersLoop (flags : SchedulerFeatureFlags) : Nat → State → Int → State
  | 0, s, _ => s
  | fuel + 1, s, currentTime =>
    match peek s.timerQueue with
    | none => s
    | some timer =>
      if timer.callback = none then
        -- Timer was cancelled.
        advanceTimersLoop flags fuel { s with timerQueue := (pop s.timerQueue).2 } currentTime
      else if timer.startTime ≤ currentTime then
        -- Timer fired. Transfer to the task queue.
        let s1 := { s with timerQueue := (pop s.timerQueue).2 }
        let timer1 := { timer with sortIndex := timer.expirationTime }
        -- profiling sets isQueued after the push; push does not read the field
        let timer2 := if flags.enableProfiling then { timer1 with isQueued := some true }
          else timer1
        advanceTimersLoop flags fuel { s1 with taskQueue := push s1.taskQueue timer2 } currentTime
      else
        -- Remaining timers are pending.
        s

/-- The function `advanceTimers(currentTime)`. Every iteration that does not
return pops the timer queue, so its length bounds the number of iterations. -/
def advanceTimers (flags : SchedulerFeatureFlags) (s : State) (currentTime : Int) : State :=
  advanceTimersLoop flags s.timerQueue.length s currentTime

/-- The function `handleTimeout(currentTime)`. -/
def handleTimeout (flags : SchedulerFeatureFlags) (s : State) (currentTime : Int) : State :=
  let s1 := advanceTimers flags { s with isHostTimeoutScheduled := false } currentTime
  if !s1.isHostCallbackScheduled then
    if peek s1.taskQueue ≠ none then
      requestHostCallback { s1 with isHostCallbackScheduled := true }
    else
      match peek s1.timerQueue with
      | some firstTimer => requestHostTimeout s1 (firstTimer.startTime - currentTime)
      | none => s1
  else s1

/-- The function `shouldYieldToHost()`. -/
def shouldYieldToHost (flags : SchedulerFeatureFlags) (s : State) : Bool :=
  if !flags.enableAlwaysYieldScheduler && flags.enableRequestPaint && s.needsPaint then
    -- Yield now.
    true
  else
    let timeElapsed := s.currentTime - s.startTime
    if timeElapsed < s.frameInterval then false else true

/-- The function `requestPaint()`. -/
def requestPaint (flags : SchedulerFeatureFlags) (s : State) : State :=
  if flags.enableRequestPaint then { s with needsPaint := true } else s

/-- The computation of the local variable `startTime` of
`unstable_scheduleCallback`. `options` is `some delay` when an options object
with a numeric `delay` is passed and `none` otherwise. -/
def scheduleStartTime (currentTime : Int) (options : Option Int) : Int :=
  match options with
  | some delay => if delay > 0 then currentTime + delay else currentTime
  | none => currentTime

/-- The `switch (priorityLevel)` of `unstable_scheduleCallback`, which computes
the local variable `timeout`. -/
def scheduleTimeout (flags : SchedulerFeatureFlags) (priorityLevel : PriorityLevel) : Int :=
  if priorityLevel = ImmediatePriority then
    -- Times out immediately
    -1
  else if priorityLevel = UserBlockingPriority then
    -- Eventually times out
    flags.userBlockingPriorityTimeout
  else if priorityLevel = IdlePriority then
    -- Never times out
    maxSigned31BitInt
  else if priorityLevel = LowPriority then
    -- Eventually times out
    flags.lowPriorityTimeout
  else
    -- NormalPriority and default: eventually times out
    flags.normalPriorityTimeout

/-- The function `unstable_scheduleCallback(priorityLevel, callback, options)`.
Returns the new task and the state after the call. -/
def unstable_scheduleCallback (flags : SchedulerFeatureFlags) (s : State)
    (priorityLevel : PriorityLevel) (callback : Callback) (options : Option Int) :
    Task × State :=
  let currentTime := s.currentTime
  let startTime := scheduleStartTime currentTime options
  let timeout := scheduleTimeout flags priorityLevel
  let expirationTime := startTime + timeout
  let newTask : Task :=
    { id := s.taskIdCounter, callback := some callback, priorityLevel := priorityLevel,
      startTime := startTime, expirationTime := expirationTime, sortIndex := -1,
      isQueued := if flags.enableProfiling then some false else none }
  let s1 := { s with taskIdCounter := s.taskIdCounter + 1 }
  if startTime > currentTime then
    -- This is a delayed task.
    let newTask1 := { newTask with sortIndex := startTime }
    let s2 := { s1 with timerQueue := push s1.timerQueue newTask1 }
    if peek s2.taskQueue = none ∧ peek s2.timerQueue = some newTask1 then
      -- All tasks are delayed, and this is the task with the earliest delay.
      let s3 := if s2.isHostTimeoutScheduled then cancelHostTimeout s2
        else { s2 with isHostTimeoutScheduled := true }
      (newTask1, requestHostTimeout s3 (startTime - currentTime))
    else (newTask1, s2)
  else
    -- profiling sets isQueued after the push; push does not read the field
    let newTask1 := { newTask with
      sortIndex := expirationTime,
      isQueued := if flags.enableProfiling then some true else none }
    let s2 := { s1 with taskQueue := push s1.taskQueue newTask1 }
    if !s2.isHostCallbackScheduled ∧ !s2.isPerformingWork then
      (newTask1, requestHostCallback { s2 with isHostCallbackScheduled := true })
    else (newTask1, s2)

/-- The function `unstable_cancelCallback(task)`; `task` identifies the task
object. -/
def unstable_cancelCallback (flags : SchedulerFeatureFlags) (s : State) (task : Int) : State :=
  updateTask s task (fun t =>
    { t with
      isQueued := if flags.enableProfiling ∧ t.isQueued = some true then some false
        else t.isQueued,
      callback := none })

/-- The function `unstable_getCurrentPriorityLevel()`. -/
def unstable_getCurrentPriorityLevel (s : State) : PriorityLevel :=
  s.currentPriorityLevel

/-- The effect of one step of a callback on the scheduler. -/
def runStep (flags : SchedulerFeatureFlags) (s : State) : Step → State
  | .elapse ms => { s with currentTime := s.currentTime + ms }
  | .scheduleCallback priorityLevel callback options =>
    (unstable_scheduleCallback flags s priorityLevel callback options).2
  | .cancelCallback task => unstable_cancelCallback flags s task
  | .requestPaint => requestPaint flags s

/-- The end of `workLoop`, after its `while` loop: return whether there is
additional work. -/
def workLoopReturn (s : State) (currentTime : Int) : State × Completion :=
  if s.currentTask ≠ none then (s, .returned true)
  else
    match peek s.timerQueue with
    | some firstTimer =>
      (requestHostTimeout s (firstTimer.startTime - currentTime), .returned false)
    | none => (s, .returned false)

/-- The test `currentTask === null || currentTask.expirationTime > currentTime`
made at the end of an iteration when `enableAlwaysYieldScheduler` is set. -/
def nullOrNotExpired (currentTask : Option Task) (currentTime : Int) : Bool :=
  match currentTask with
  | none => true
  | some t => decide (t.expirationTime > currentTime)

/-- The statement `currentTask = peek(taskQueue)` of `workLoop`. -/
def nextTask (s : State) : State :=
  { s with currentTask := peek s.taskQueue }

/-- The statement `pop(taskQueue)` of `workLoop`. -/
def popTask (s : State) : State :=
  { s with taskQueue := (pop s.taskQueue).2 }

/-- The part of an iteration of `workLoop` from `currentTask.callback = null`
to the return of `callback(didUserCallbackTimeout)`: the state after the call
and the way the call ended. The invocation is recorded. -/
def callCallback (flags : SchedulerFeatureFlags) (run : Callbacks) (s : State)
    (currentTask : Task) (callback : Callback) (currentTime : Int) :
    State × CallbackResult :=
  let s1 := updateTask s currentTask.id (fun t => { t with callback := none })
  let s2 := { s1 with currentPriorityLevel := currentTask.priorityLevel }
  let didUserCallbackTimeout : Bool := currentTask.expirationTime ≤ currentTime
  let behaviour := run callback didUserCallbackTimeout s2
  let s3 := { s2 with invoked := s2.invoked ++
    [{ task := currentTask.id, callback := callback,
       didUserCallbackTimeout := didUserCallbackTimeout }] }
  (behaviour.steps.foldl (runStep flags) s3, behaviour.result)

/-- The part of an iteration of `workLoop` that follows a callback which
returned no continuation: the task is popped if it is still the root of the task
queue, and the timers are advanced to the clock reading `currentTime`. -/
def completeTask (flags : SchedulerFeatureFlags) (s : State) (currentTask : Task)
    (currentTime : Int) : State :=
  let s1 := if flags.enableProfiling then
      updateTask s currentTask.id (fun t => { t with isQueued := some false })
    else s
  let s2 := if (peek s1.taskQueue).map Task.id = some currentTask.id then popTask s1 else s1
  advanceTimers flags s2 currentTime

/-- The `while (currentTask !== null)` loop of `workLoop`. -/
def workLoopLoop (flags : SchedulerFeatureFlags) (run : Callbacks) :
    Nat → State → Int → State × Completion
  | 0, s, _ => (s, .outOfFuel)
  | fuel + 1, s, currentTime =>
    match s.currentTask with
    | none => workLoopReturn s currentTime
    | some currentTask =>
      if !flags.enableAlwaysYieldScheduler ∧ currentTask.expirationTime > currentTime
          ∧ shouldYieldToHost flags s then
        -- This currentTask hasn't expired, and we've reached the deadline.
        workLoopReturn s currentTime
      else
        match currentTask.callback with
        | some callback =>
          let r := callCallback flags run s currentTask callback currentTime
          match r.2 with
          | .throw error => (r.1, .threw error)
          | .continuation continuationCallback =>
            -- If a continuation is returned, immediately yield to the main thread
            -- regardless of how much time is left in the current time slice.
            let currentTime1 := r.1.currentTime
            let s5 := updateTask r.1 currentTask.id
              (fun t => { t with callback := some continuationCallback })
            (advanceTimers flags s5 currentTime1, .returned true)
          | .done =>
            let currentTime1 := r.1.currentTime
            let s8 := nextTask (completeTask flags r.1 currentTask currentTime1)
            if flags.enableAlwaysYieldScheduler && nullOrNotExpired s8.currentTask currentTime1 then
              workLoopReturn s8 currentTime1
            else workLoopLoop flags run fuel s8 currentTime1
        | none =>
          let s2 := nextTask (popTask s)
          if flags.enableAlwaysYieldScheduler && nullOrNotExpired s2.currentTask currentTime then
            workLoopReturn s2 currentTime
          else workLoopLoop flags run fuel s2 currentTime

/-- The function `workLoop(initialTime)`, with `fuel` bounding the number of
iterations of its loop. -/
def workLoop (flags : SchedulerFeatureFlags) (run : Callbacks) (fuel : Nat) (s : State)
    (initialTime : Int) : State × Completion :=
  workLoopLoop flags run fuel (nextTask (advanceTimers flags s initialTime)) initialTime

/-- The statements of `flushWork(initialTime)` that precede its `try` block. -/
def flushWorkEntry (s : State) : State :=
  -- We'll need a host callback the next time work is scheduled.
  let s1 := { s with isHostCallbackScheduled := false }
  let s2 := if s1.isHostTimeoutScheduled then
      -- We scheduled a timeout but it's no longer needed. Cancel it.
      cancelHostTimeout { s1 with isHostTimeoutScheduled := false }
    else s1
  { s2 with isPerformingWork := true }

/-- The function `flushWork(initialTime)`. The `finally` block runs when
`workLoop` returns or throws. -/
def flushWork (flags : SchedulerFeatureFlags) (run : Callbacks) (fuel : Nat) (s : State)
    (initialTime : Int) : State × Completion :=
  let s3 := flushWorkEntry s
  let previousPriorityLevel := s3.currentPriorityLevel
  let r := workLoop flags run fuel s3 initialTime
  match r.2 with
  | .outOfFuel => r
  | .threw error =>
    let s4 := if flags.enableProfiling then
        match r.1.currentTask with
        | some t => updateTask r.1 t.id (fun t => { t with isQueued := some false })
        | none => r.1
      else r.1
    ({ s4 with currentTask := none, currentPriorityLevel := previousPriorityLevel,
               isPerformingWork := false }, .threw error)
  | .returned hasMoreWork =>
    ({ r.1 with currentTask := none, currentPriorityLevel := previousPriorityLevel,
                isPerformingWork := false }, .returned hasMoreWork)

/-- The timeout of a priority level in the words of the specification: -1 for
Immediate, 1073741823 for Idle, the configured constants for UserBlocking,
Normal and Low; any unrecognized level is treated as Normal. -/
def timeoutFor (flags : SchedulerFeatureFlags) (priorityLevel : PriorityLevel) : Int :=
  if priorityLevel = ImmediatePriority then -1
  else if priorityLevel = IdlePriority then 1073741823
  else if priorityLevel = UserBlockingPriority then flags.userBlockingPriorityTimeout
  else if priorityLevel = LowPriority then flags.lowPriorityTimeout
  else flags.normalPriorityTimeout

/-- A callback call that makes no call to the scheduler: time passes and
nothing else happens. -/
def Behaviour.Quiet (b : Behaviour) : Prop :=
  ∀ st ∈ b.steps, ∃ ms, st = Step.elapse ms

/-- The object `newTask` of `unstable_scheduleCallback` at the time it is
returned. -/
def scheduleNewTask (flags : SchedulerFeatureFlags) (s : State)
    (priorityLevel : PriorityLevel) (callback : Callback) (options : Option Int) : Task :=
  { id := s.taskIdCounter, callback := some callback, priorityLevel := priorityLevel,
    startTime := scheduleStartTime s.currentTime options,
    expirationTime := scheduleStartTime s.currentTime options + scheduleTimeout flags priorityLevel,
    sortIndex := if scheduleStartTime s.currentTime options > s.currentTime
      then scheduleStartTime s.currentTime options
      else scheduleStartTime s.currentTime options + scheduleTimeout flags priorityLevel,
    isQueued := if flags.enableProfiling then
        (if scheduleStartTime s.currentTime options > s.currentTime then some false else some true)
      else none }

/-- The timer object as `advanceTimers` transfers it to the task queue: its
`sortIndex` is set to its `expirationTime` (and `isQueued` under profiling). -/
def promote (flags : SchedulerFeatureFlags) (timer : Task) : Task :=
  { timer with
    sortIndex := timer.expirationTime,
    isQueued := if flags.enableProfiling then some true else timer.isQueued }

/-- The time a step of a callback takes. -/
def Step.elapsed : Step → Nat
  | .elapse ms => ms
  | _ => 0

/-- The time a callback call takes. -/
def Behaviour.elapsed (b : Behaviour) : Nat :=
  (b.steps.map Step.elapsed).sum

/-- Callbacks that always return a continuation and make no call to the
scheduler. -/
def AlwaysContinues (run : Callbacks) : Prop :=
  ∀ c d st, (run c d st).Quiet ∧ ∃ c', (run c d st).result = CallbackResult.continuation c'

/-- Repeated flushes: `Flushes flags run s cs s'` holds when `s'` is reached from
`s` by `cs.length` calls of `flushWork`, each made when the host does not signal
a yield, and `cs` lists how the calls ended. Between two calls the host may
change anything but the two queues and the record of invocations. -/
inductive Flushes (flags : SchedulerFeatureFlags) (run : Callbacks) (s : State) :
    List Completion → State → Prop where
  | nil : Flushes flags run s [] s
  | snoc (s1 s2 : State) (cs : List Completion) (fuel : Nat) (initialTime : Int) :
      Flushes flags run s cs s1 →
      s2.taskQueue = s1.taskQueue → s2.timerQueue = s1.timerQueue →
      s2.invoked = s1.invoked →
      shouldYieldToHost flags s2 = false → 0 < fuel →
      Flushes flags run s (cs ++ [(flushWork flags run fuel s2 initialTime).2])
        (flushWork flags run fuel s2 initialTime).1

/-- The write `task.callback = c` to the copy `t` of a task, through a reference
to the task with identifier `id`. -/
def setCallback (id : Int) (c : Option Callback) (t : Task) : Task :=
  if t.id = id then { t with callback := c } else t

/-- A call made to the scheduler from outside a callback, or the passing of
time. -/
inductive SchedulerOp where
  | advanceTimers (currentTime : Int)
  | handleTimeout (currentTime : Int)
  | flushWork (fuel : Nat) (initialTime : Int)
  | scheduleCallback (priorityLevel : PriorityLevel) (callback : Callback)
      (options : Option Int)
  | cancelCallback (task : Int)
  | requestPaint
  | elapse (ms : Nat)

/-- The effect of one operation on the scheduler. -/
def applySchedulerOp (flags : SchedulerFeatureFlags) (run : Callbacks) (s : State) :
    SchedulerOp → State
  | .advanceTimers currentTime => advanceTimers flags s currentTime
  | .handleTimeout currentTime => handleTimeout flags s currentTime
  | .flushWork fuel initialTime => (flushWork flags run fuel s initialTime).1
  | .scheduleCallback priorityLevel callback options =>
    (unstable_scheduleCallback flags s priorityLevel callback options).2
  | .cancelCallback task => unstable_cancelCallback flags s task
  | .requestPaint => requestPaint flags s
  | .elapse ms => { s with currentTime := s.currentTime + ms }

/-- A sequence of operations on the scheduler. -/
def runSchedulerOps (flags : SchedulerFeatureFlags) (run : Callbacks)
    (ops : List SchedulerOp) (s : State) : State :=
  ops.foldl (applySchedulerOp flags run) s

/-- The task with identifier `id` is cancelled in the state `s`: every copy of
it has a null callback, and `id` was given out by the counter. With
`inReady = false`, moreover, the task is not in the task queue. -/
def CancelledInv (id : Int) (inReady : Bool) (s : State) : Prop :=
  (∀ t ∈ s.taskQueue, t.id = id → t.callback = none) ∧
  (∀ t ∈ s.timerQueue, t.id = id → t.callback = none) ∧
  (∀ t, s.currentTask = some t → t.id = id → t.callback = none) ∧
  id < s.taskIdCounter ∧
  (inReady = false → ∀ t ∈ s.taskQueue, t.id ≠ id)

/-- The record of invocations of `s'` extends that of `s` by invocations of
tasks other than `id`. -/
def InvokedOthers (id : Int) (s s' : State) : Prop :=
  ∃ new, s'.invoked = s.invoked ++ new ∧ ∀ i ∈ new, i.task ≠ id

/-- The function `forceFrameRate(fps)`, for an integer `fps`; for `fps > 0`
the division is `Math.floor(1000 / fps)`. A rejected value is reported with
`console.error`. -/
def forceFrameRate (flags : SchedulerFeatureFlags) (s : State) (fps : Int) : State :=
  if fps < 0 ∨ fps > 125 then
    { s with consoleErrors := s.consoleErrors + 1 }
  else if fps > 0 then
    { s with frameInterval := 1000 / fps }
  else
    -- reset the framerate
    { s with frameInterval := flags.frameYieldMs }

/-- The `switch (priorityLevel)` of `unstable_runWithPriority`. -/
def runWithPriorityLevel (priorityLevel : PriorityLevel) : PriorityLevel :=
  if priorityLevel = ImmediatePriority ∨ priorityLevel = UserBlockingPriority
      ∨ priorityLevel = NormalPriority ∨ priorityLevel = LowPriority
      ∨ priorityLevel = IdlePriority then priorityLevel
  else NormalPriority

/-- The function `unstable_runWithPriority(priorityLevel, eventHandler)`. The
event handler is any function of the caller: it is run in a scheduler state,
leaves a state, and returns a value (`Except.ok`) or throws (`Except.error`).
The `finally` block runs in both cases. -/
def unstable_runWithPriority {α : Type} (s : State) (priorityLevel : PriorityLevel)
    (eventHandler : State → State × Except Nat α) : State × Except Nat α :=
  let priorityLevel1 := runWithPriorityLevel priorityLevel
  let previousPriorityLevel := s.currentPriorityLevel
  let r := eventHandler { s with currentPriorityLevel := priorityLevel1 }
  ({ r.1 with currentPriorityLevel := previousPriorityLevel }, r.2)

/-- The total number of queued tasks. -/
def queued (s : State) : Nat := s.taskQueue.length + s.timerQueue.length

/-- Between the top of an iteration and any later point of the loop of
`workLoop`: the record of invocations only grows, and as long as it has not
grown the number of queued tasks has not grown. -/
def Progress (a b : State) : Prop :=
  a.invoked <+: b.invoked ∧ (b.invoked = a.invoked → queued b ≤ queued a)

/-- The identifiers of the queued tasks were all given out by the counter. -/
def IdsBelow (s : State) : Prop :=
  ∀ t ∈ s.taskQueue ++ s.timerQueue, t.id < s.taskIdCounter

/-- The identifiers of the queued tasks and of the current task were all given
out by the counter. -/
def IdsBelowCurrent (s : State) : Prop :=
  IdsBelow s ∧ ∀ t, s.currentTask = some t → t.id < s.taskIdCounter

/-- The invariant of the two queues: a task in the timer queue is keyed by its
start time and a task in the task queue by its expiration time, no task is in
both queues or twice in one queue, and both queues are heaps. -/
def WellFormed (s : State) : Prop :=
  (∀ t ∈ s.timerQueue, t.sortIndex = t.startTime) ∧
  (∀ t ∈ s.taskQueue, t.sortIndex = t.expirationTime) ∧
  ((s.taskQueue ++ s.timerQueue).map Task.id).Nodup ∧
  IsHeap s.taskQueue ∧ IsHeap s.timerQueue

/-- The invariant of the scheduler states: the queues are well formed and the
identifiers of the queued tasks were given out by the counter. -/
def SchedulerInv (s : State) : Prop :=
  WellFormed s ∧ IdsBelow s

/-- The invariant of a run of `workLoop` over the tasks `ready` that were in the
task queue when it was called: the tasks `done` have been invoked, in this
order, since the record of invocations was `base`; they come before the tasks of
`ready` still queued; the queued tasks have live callbacks and identifiers in
`all`; and the frame leaves `d` milliseconds to each queued task. -/
def RunInv (flags : SchedulerFeatureFlags) (d : Nat) (ready : List Task) (all : List Int)
    (base : List Invocation) (done : List Task) (s : State) : Prop :=
  SchedulerInv s ∧
  s.currentTask = peek s.taskQueue ∧
  (∀ t ∈ s.taskQueue, t.callback ≠ none) ∧
  List.Perm ready
    (done ++ s.taskQueue.filter (fun t => decide (t.id ∈ ready.map Task.id))) ∧
  (∀ t ∈ s.timerQueue, t.id ∉ ready.map Task.id) ∧
  (∀ t ∈ s.taskQueue ++ s.timerQueue, t.id ∈ all) ∧
  done.Pairwise (fun a b => SchedulerMinHeap.compare a b < 0) ∧
  (∀ a ∈ done, ∀ r ∈ s.taskQueue, r.id ∈ ready.map Task.id →
    SchedulerMinHeap.compare a r < 0) ∧
  (∃ new, s.invoked = base ++ new ∧ (∀ i ∈ new, i.task ∈ all) ∧
    (new.filter (fun i => decide (i.task ∈ ready.map Task.id))).map
        (fun i => (i.task, some i.callback))
      = done.map (fun t => (t.id, t.callback))) ∧
  ¬ (flags.enableRequestPaint = true ∧ s.needsPaint = true) ∧
  s.currentTime + ((d * queued s : Nat) : Int) < s.startTime + s.frameInterval

/-- Submissions one after the other with the same priority level and no delay;
before each submission `tasks[i].1` milliseconds pass on the clock, and
`tasks[i].2` is the callback submitted. -/
def submitAll (flags : SchedulerFeatureFlags) (priorityLevel : PriorityLevel) :
    List (Nat × Callback) → State → State
  | [], s => s
  | (ms, callback) :: rest, s =>
    submitAll flags priorityLevel rest
      (unstable_scheduleCallback flags { s with currentTime := s.currentTime + ms }
        priorityLevel callback none).2

end Scheduler


/-! ## The binary heap -/

namespace SchedulerMinHeap

theorem compare_le_iff {T : Type} [Node T] (a b : T) :
    compare a b ≤ 0 ↔ Node.sortIndex a < Node.sortIndex b ∨
      (Node.sortIndex a = Node.sortIndex b ∧ Node.id a ≤ Node.id b) := by
  unfold compare
  simp only
  split_ifs <;> omega

theorem compare_lt_iff {T : Type} [Node T] (a b : T) :
    compare a b < 0 ↔ Node.sortIndex a < Node.sortIndex b ∨
      (Node.sortIndex a = Node.sortIndex b ∧ Node.id a < Node.id b) := by
  unfold compare
  simp only
  split_ifs <;> omega

theorem compare_gt_iff {T : Type} [Node T] (a b : T) : compare a b > 0 ↔ compare b a < 0 := by
  unfold compare
  simp only
  split_ifs <;> omega

theorem compare_le_trans {T : Type} [Node T] {a b c : T} (hab : compare a b ≤ 0) (hbc : compare b c ≤ 0) :
    compare a c ≤ 0 := by
  rw [compare_le_iff] at *
  omega

theorem compare_lt_trans {T : Type} [Node T] {a b c : T} (hab : compare a b < 0)
    (hbc : compare b c < 0) : compare a c < 0 := by
  rw [compare_lt_iff] at *
  omega

theorem compare_le_of_lt {T : Type} [Node T] {a b : T} (h : compare a b < 0) : compare a b ≤ 0 := by
  omega

theorem compare_le_of_not_lt {T : Type} [Node T] {a b : T} (h : ¬ compare a b < 0) : compare b a ≤ 0 := by
  rw [compare_lt_iff] at h
  rw [compare_le_iff]
  omega

theorem compare_le_of_not_gt {T : Type} [Node T] {a b : T} (h : ¬ compare a b > 0) : compare a b ≤ 0 := by
  omega

theorem compare_self_le {T : Type} [Node T] (a : T) : compare a a ≤ 0 := by
  rw [compare_le_iff]
  omega

/-- Writing `a` at an index that holds `b` gives a permutation up to the
exchange of `a` and `b`. -/
theorem cons_set_perm {T : Type} : ∀ (l : List T) (j : Nat) (a b : T), l[j]? = some b →
    List.Perm (b :: l.set j a) (a :: l)
  | [], _, _, _, h => by simp at h
  | x :: l, 0, a, b, h => by
    simp at h
    subst h
    simpa using List.Perm.swap a x l
  | x :: l, j + 1, a, b, h => by
    simp at h
    have ih := cons_set_perm l j a b h
    simp only [List.set_cons_succ]
    exact (List.Perm.swap x b _).trans (((List.Perm.cons x ih)).trans (List.Perm.swap a x l))

/-- Exchanging the values at two indices gives a permutation. -/
theorem set_set_perm {T : Type} : ∀ (l : List T) (i j : Nat) (a b : T), l[i]? = some a →
    l[j]? = some b → List.Perm ((l.set i b).set j a) l
  | [], _, _, _, _, h, _ => by simp at h
  | x :: l, 0, 0, a, b, hi, hj => by
    simp at hi hj
    subst hi
    simp
  | x :: l, 0, j + 1, a, b, hi, hj => by
    simp at hi hj
    subst hi
    simpa using cons_set_perm l j x b hj
  | x :: l, i + 1, 0, a, b, hi, hj => by
    simp at hi hj
    subst hj
    simpa using cons_set_perm l i x a hi
  | x :: l, i + 1, j + 1, a, b, hi, hj => by
    simp at hi hj
    simpa using set_set_perm l i j a b hi hj

/-- Reading the array after the two writes `heap[p] = x; heap[i] = y`. -/
theorem getElem?_set_set {T : Type} (heap : Heap T) (p i : Nat) (x y : T) (hp : p < heap.length)
    (hi : i < heap.length) (k : Nat) :
    ((heap.set p x).set i y)[k]? =
      if k = i then some y else if k = p then some x else heap[k]? := by
  rw [List.getElem?_set, List.getElem?_set]
  simp only [List.length_set]
  by_cases h1 : i = k
  · subst h1
    simp [hi]
  · by_cases h2 : p = k
    · subst h2
      have : ¬ p = i := fun h => h1 h.symm
      simp [h1, hp, this]
    · have h3 : ¬ k = i := fun h => h1 h.symm
      have h4 : ¬ k = p := fun h => h2 h.symm
      simp [h1, h2, h3, h4]

theorem isHeap_iff_parentLe {T : Type} [Node T] (heap : Heap T) : IsHeap heap ↔ ParentLe heap := by
  constructor
  · intro h j hj a b ha hb
    have hlt : (j - 1) / 2 < heap.length := by
      have := (List.getElem?_eq_some_iff.mp ha).1
      exact this
    have hh := h ((j - 1) / 2) hlt
    have hcase : j = 2 * ((j - 1) / 2) + 1 ∨ j = 2 * ((j - 1) / 2) + 2 := by omega
    rcases hcase with hc | hc
    · exact hh.1 a b ha (hc ▸ hb)
    · exact hh.2 a b ha (hc ▸ hb)
  · intro h i _
    constructor
    · have := h (2 * i + 1) (by omega)
      have e : (2 * i + 1 - 1) / 2 = i := by omega
      rwa [e] at this
    · have := h (2 * i + 2) (by omega)
      have e : (2 * i + 2 - 1) / 2 = i := by omega
      rwa [e] at this

theorem upInv_swap {T : Type} [Node T] (heap : Heap T) (node parent : T) (index : Nat)
    (hidx : 0 < index) (hnode : heap[index]? = some node)
    (hparent : heap[(index - 1) / 2]? = some parent) (hcmp : compare parent node > 0)
    (hinv : UpInv heap index) :
    UpInv ((heap.set ((index - 1) / 2) node).set index parent) ((index - 1) / 2) := by
  have hilt : index < heap.length := (List.getElem?_eq_some_iff.mp hnode).1
  have hplt : (index - 1) / 2 < heap.length := by omega
  have hread := getElem?_set_set heap ((index - 1) / 2) index node parent hplt hilt
  have hlt : compare node parent ≤ 0 := by
    have := (compare_gt_iff parent node).mp hcmp
    omega
  constructor
  · intro j hj hjp a b ha hb
    rw [hread] at ha hb
    by_cases hji : j = index
    · subst hji
      have hne : ¬ (j - 1) / 2 = j := by omega
      simp [hne] at ha hb
      subst ha hb
      exact hlt
    · simp only [hji, hjp, if_false] at hb
      by_cases hk1 : (j - 1) / 2 = index
      · simp only [hk1, if_true, Option.some.injEq] at ha
        subst ha
        exact hinv.2 j hj hk1 hidx _ b hparent hb
      · by_cases hk2 : (j - 1) / 2 = (index - 1) / 2
        · rw [hk2] at ha
          have hne : ¬ (index - 1) / 2 = index := by omega
          simp only [hne, if_true, if_false, Option.some.injEq] at ha
          subst ha
          exact compare_le_trans hlt (hinv.1 j hj hji parent b (hk2 ▸ hparent) hb)
        · simp only [hk1, hk2, if_false] at ha
          exact hinv.1 j hj hji a b ha hb
  · intro j hj hjp hp a b ha hb
    rw [hread] at ha hb
    have h1 : ¬ ((index - 1) / 2 - 1) / 2 = index := by omega
    have h2 : ¬ ((index - 1) / 2 - 1) / 2 = (index - 1) / 2 := by omega
    simp only [h1, h2, if_false] at ha
    have hpp : compare a parent ≤ 0 :=
      hinv.1 ((index - 1) / 2) hp (by omega) a parent ha hparent
    by_cases hji : j = index
    · simp only [hji, if_true, Option.some.injEq] at hb
      subst hb
      exact hpp
    · have h3 : ¬ j = (index - 1) / 2 := by omega
      simp only [hji, h3, if_false] at hb
      exact compare_le_trans hpp (hinv.1 j hj hji parent b (hjp ▸ hparent) hb)

/-- The loop of `siftUp` restores the heap invariant and permutes the array. -/
theorem siftUpLoop_spec {T : Type} [Node T] : ∀ (fuel : Nat) (heap : Heap T) (node : T)
    (index : Nat), index ≤ fuel → heap[index]? = some node → UpInv heap index →
    ParentLe (siftUpLoop fuel heap node index) ∧
      List.Perm (siftUpLoop fuel heap node index) heap := by
  intro fuel
  induction fuel with
  | zero =>
    intro heap node index hf _ hinv
    have h0 : index = 0 := by omega
    subst h0
    refine ⟨?_, List.Perm.refl _⟩
    intro j hj
    exact hinv.1 j hj (by omega)
  | succ fuel ih =>
    intro heap node index hf hnode hinv
    rw [siftUpLoop]
    by_cases hidx : index > 0
    · have hilt : index < heap.length := (List.getElem?_eq_some_iff.mp hnode).1
      have hplt : (index - 1) / 2 < heap.length := by omega
      have hparent : heap[(index - 1) / 2]? = some heap[(index - 1) / 2] :=
        List.getElem?_eq_getElem hplt
      simp only [hidx, if_true, hparent]
      by_cases hcmp : compare heap[(index - 1) / 2] node > 0
      · simp only [hcmp, if_true]
        have hread := getElem?_set_set heap ((index - 1) / 2) index node
          heap[(index - 1) / 2] hplt hilt
        have hne : ¬ (index - 1) / 2 = index := by omega
        have r := ih _ node ((index - 1) / 2) (by omega)
          (by rw [hread]; simp [hne])
          (upInv_swap heap node _ index hidx hnode hparent hcmp hinv)
        exact ⟨r.1, r.2.trans (set_set_perm heap _ index _ node hparent hnode)⟩
      · simp only [hcmp, if_false]
        refine ⟨?_, List.Perm.refl _⟩
        intro j hj
        by_cases hji : j = index
        · subst hji
          intro a b ha hb
          rw [hparent] at ha
          rw [hnode] at hb
          cases ha
          cases hb
          omega
        · exact hinv.1 j hj hji
    · have h0 : index = 0 := by omega
      subst h0
      simp only [gt_iff_lt, lt_self_iff_false, if_false]
      refine ⟨?_, List.Perm.refl _⟩
      intro j hj
      exact hinv.1 j hj (by omega)

/-- After `push` the array is a permutation of the old array and the node. -/
theorem push_perm {T : Type} [Node T] (heap : Heap T) (node : T) (h : IsHeap heap) :
    List.Perm (push heap node) (node :: heap) ∧ IsHeap (push heap node) := by
  have hp := (isHeap_iff_parentLe heap).mp h
  have hnode : (heap ++ [node])[heap.length]? = some node := by simp
  have hinv : UpInv (heap ++ [node]) heap.length := by
    constructor
    · intro j hj hjl a b ha hb
      have hjlt : j < heap.length := by
        have := (List.getElem?_eq_some_iff.mp hb).1
        simp at this
        omega
      rw [List.getElem?_append_left hjlt] at hb
      rw [List.getElem?_append_left (by omega)] at ha
      exact hp j hj a b ha hb
    · intro j hj hjp _ a b _ hb
      have := (List.getElem?_eq_some_iff.mp hb).1
      simp at this
      omega
  have r := siftUpLoop_spec heap.length (heap ++ [node]) node heap.length (le_refl _) hnode hinv
  unfold push siftUp
  refine ⟨r.2.trans ?_, (isHeap_iff_parentLe _).mpr r.1⟩
  exact (List.perm_append_comm : List.Perm (heap ++ [node]) ([node] ++ heap))

theorem downInv_swap {T : Type} [Node T] (heap : Heap T) (node child : T) (index c : Nat)
    (hc : (c - 1) / 2 = index) (hc0 : 0 < c) (hnode : heap[index]? = some node)
    (hchild : heap[c]? = some child) (hcmp : compare child node < 0)
    (hsib : ∀ j, 0 < j → (j - 1) / 2 = index → ∀ b, heap[j]? = some b → compare child b ≤ 0)
    (hinv : DownInv heap index) :
    DownInv ((heap.set index child).set c node) c := by
  have hilt : index < heap.length := (List.getElem?_eq_some_iff.mp hnode).1
  have hclt : c < heap.length := (List.getElem?_eq_some_iff.mp hchild).1
  have hread := getElem?_set_set heap index c child node hilt hclt
  have hic : ¬ index = c := by omega
  constructor
  · intro j hj hjc a b ha hb
    rw [hread] at ha hb
    simp only [hjc, if_false] at ha
    by_cases hj1 : j = c
    · subst hj1
      simp only [if_true, Option.some.injEq] at hb
      simp only [hc, if_true, Option.some.injEq] at ha
      subst ha hb
      omega
    · simp only [hj1, if_false] at hb
      by_cases hj2 : j = index
      · subst hj2
        have hne : ¬ (j - 1) / 2 = j := by omega
        simp only [if_true, Option.some.injEq, hne, if_false] at ha hb
        subst hb
        exact hinv.2 c hc0 hc hj a _ ha hchild
      · simp only [hj2, if_false] at hb
        by_cases hk : (j - 1) / 2 = index
        · simp only [hk, if_true, Option.some.injEq] at ha
          subst ha
          exact hsib j hj hk b hb
        · simp only [hk, if_false] at ha
          exact hinv.1 j hj hk a b ha hb
  · intro j hj hjc _ a b ha hb
    rw [hread] at ha hb
    have h1 : ¬ j = c := by omega
    have h2 : ¬ j = index := by omega
    simp only [hc, hic, if_true, if_false, Option.some.injEq] at ha
    simp only [h1, h2, if_false] at hb
    subst ha
    exact hinv.1 j hj (by omega) _ b (hjc ▸ hchild) hb

/-- When no child of `index` is smaller than the node at `index`, the loop
invariant of `siftDown` gives the heap invariant. -/
theorem parentLe_of_downInv {T : Type} [Node T] (heap : Heap T) (node : T) (index : Nat)
    (hnode : heap[index]? = some node) (hinv : DownInv heap index)
    (hch : ∀ j, 0 < j → (j - 1) / 2 = index → ∀ b, heap[j]? = some b → ¬ compare b node < 0) :
    ParentLe heap := by
  intro j hj
  by_cases hk : (j - 1) / 2 = index
  · intro a b ha hb
    rw [hk, hnode] at ha
    cases ha
    exact compare_le_of_not_lt (hch j hj hk b hb)
  · exact hinv.1 j hj hk

/-- The loop of `siftDown` restores the heap invariant and permutes the array. -/
theorem siftDownLoop_spec {T : Type} [Node T] : ∀ (fuel : Nat) (heap : Heap T) (node : T)
    (index : Nat), heap.length ≤ fuel + index → heap[index]? = some node →
    DownInv heap index →
    ParentLe (siftDownLoop fuel heap node index) ∧
      List.Perm (siftDownLoop fuel heap node index) heap := by
  intro fuel
  induction fuel with
  | zero =>
    intro heap node index hf hnode _
    have := (List.getElem?_eq_some_iff.mp hnode).1
    omega
  | succ fuel ih =>
    intro heap node index hf hnode hinv
    have hilt : index < heap.length := (List.getElem?_eq_some_iff.mp hnode).1
    rw [siftDownLoop]
    simp only
    by_cases hhalf : index < heap.length / 2
    · simp only [hhalf, if_true]
      have hllt : (index + 1) * 2 - 1 < heap.length := by omega
      have hleft : heap[(index + 1) * 2 - 1]? = some heap[(index + 1) * 2 - 1] :=
        List.getElem?_eq_getElem hllt
      -- one swap with the child at index `c`
      have step : ∀ (c : Nat) (child : T), (c - 1) / 2 = index → 0 < c →
          heap[c]? = some child → compare child node < 0 →
          (∀ j, 0 < j → (j - 1) / 2 = index → ∀ b, heap[j]? = some b → compare child b ≤ 0) →
          ParentLe (siftDownLoop fuel ((heap.set index child).set c node) node c) ∧
          List.Perm (siftDownLoop fuel ((heap.set index child).set c node) node c) heap := by
        intro c child hc hc0 hchild hcmp hsib
        have hclt : c < heap.length := (List.getElem?_eq_some_iff.mp hchild).1
        have hread := getElem?_set_set heap index c child node hilt hclt
        have r := ih ((heap.set index child).set c node) node c
          (by simp only [List.length_set]; omega) (by rw [hread]; simp)
          (downInv_swap heap node child index c hc hc0 hnode hchild hcmp hsib hinv)
        exact ⟨r.1, r.2.trans (set_set_perm heap index c node child hnode hchild)⟩
      rw [hleft]
      cases hright : heap[(index + 1) * 2 - 1 + 1]? with
      | some right =>
        simp only
        by_cases hl : compare heap[(index + 1) * 2 - 1] node < 0
        · simp only [hl, if_true]
          by_cases hr : compare right heap[(index + 1) * 2 - 1] < 0
          · simp only [hr, if_true]
            refine step _ right (by omega) (by omega) hright (compare_lt_trans hr hl) ?_
            intro j hj hk b hb
            have hcase : j = (index + 1) * 2 - 1 ∨ j = (index + 1) * 2 - 1 + 1 := by omega
            rcases hcase with e | e
            · rw [e, hleft] at hb
              cases hb
              omega
            · rw [e, hright] at hb
              cases hb
              exact compare_self_le _
          · simp only [hr, if_false]
            refine step _ _ (by omega) (by omega) hleft hl ?_
            intro j hj hk b hb
            have hcase : j = (index + 1) * 2 - 1 ∨ j = (index + 1) * 2 - 1 + 1 := by omega
            rcases hcase with e | e
            · rw [e, hleft] at hb
              cases hb
              exact compare_self_le _
            · rw [e, hright] at hb
              cases hb
              exact compare_le_of_not_lt hr
        · simp only [hl, if_false]
          by_cases hr : compare right node < 0
          · simp only [hr, if_true]
            refine step _ right (by omega) (by omega) hright hr ?_
            intro j hj hk b hb
            have hcase : j = (index + 1) * 2 - 1 ∨ j = (index + 1) * 2 - 1 + 1 := by omega
            rcases hcase with e | e
            · rw [e, hleft] at hb
              cases hb
              exact compare_le_trans (compare_le_of_lt hr) (compare_le_of_not_lt hl)
            · rw [e, hright] at hb
              cases hb
              exact compare_self_le _
          · simp only [hr, if_false]
            refine ⟨parentLe_of_downInv heap node index hnode hinv ?_, List.Perm.refl _⟩
            intro j hj hk b hb
            have hcase : j = (index + 1) * 2 - 1 ∨ j = (index + 1) * 2 - 1 + 1 := by omega
            rcases hcase with e | e
            · rw [e, hleft] at hb
              cases hb
              exact hl
            · rw [e, hright] at hb
              cases hb
              exact hr
      | none =>
        simp only
        have hrge : heap.length ≤ (index + 1) * 2 - 1 + 1 := List.getElem?_eq_none_iff.mp hright
        by_cases hl : compare heap[(index + 1) * 2 - 1] node < 0
        · simp only [hl, if_true]
          refine step _ _ (by omega) (by omega) hleft hl ?_
          intro j hj hk b hb
          have hjlt := (List.getElem?_eq_some_iff.mp hb).1
          have e : j = (index + 1) * 2 - 1 := by omega
          rw [e, hleft] at hb
          cases hb
          exact compare_self_le _
        · simp only [hl, if_false]
          refine ⟨parentLe_of_downInv heap node index hnode hinv ?_, List.Perm.refl _⟩
          intro j hj hk b hb
          have hjlt := (List.getElem?_eq_some_iff.mp hb).1
          have e : j = (index + 1) * 2 - 1 := by omega
          rw [e, hleft] at hb
          cases hb
          exact hl
    · simp only [hhalf, if_false]
      refine ⟨parentLe_of_downInv heap node index hnode hinv ?_, List.Perm.refl _⟩
      intro j hj hk b hb
      have hjlt := (List.getElem?_eq_some_iff.mp hb).1
      omega

/-- Dropping the last element keeps the heap invariant. -/
theorem parentLe_dropLast {T : Type} [Node T] (heap : Heap T) (h : ParentLe heap) :
    ParentLe heap.dropLast := by
  intro j hj a b ha hb
  rw [List.getElem?_dropLast] at ha hb
  split_ifs at ha hb
  exact h j hj a b ha hb

/-- The result of `pop` on an array that is a heap: the root is returned, the
rest is a heap again and holds the other elements. -/
theorem pop_spec {T : Type} [DecidableEq T] [Node T] (heap : Heap T) (first : T)
    (hfirst : heap[0]? = some first) (h : IsHeap heap) :
    (pop heap).1 = some first ∧ List.Perm (first :: (pop heap).2) heap ∧
      IsHeap (pop heap).2 := by
  have hp := (isHeap_iff_parentLe heap).mp h
  have hlen : 0 < heap.length := (List.getElem?_eq_some_iff.mp hfirst).1
  have hne : heap ≠ [] := by
    intro e
    simp [e] at hlen
  have hlast : heap.getLast? = some (heap.getLast hne) := List.getLast?_eq_getLast _ hne
  have hsplit : heap.dropLast ++ [heap.getLast hne] = heap := List.dropLast_append_getLast hne
  have hperm1 : List.Perm (heap.getLast hne :: heap.dropLast) heap := by
    have : List.Perm ([heap.getLast hne] ++ heap.dropLast) (heap.dropLast ++ [heap.getLast hne]) :=
      List.perm_append_comm
    rw [hsplit] at this
    exact this
  unfold pop
  rw [hfirst, hlast]
  simp only
  by_cases hlf : heap.getLast hne = first
  · simp only [hlf, ne_eq, not_true_eq_false, if_false, true_and]
    refine ⟨?_, (isHeap_iff_parentLe _).mpr (parentLe_dropLast heap hp)⟩
    rw [hlf] at hperm1
    exact hperm1
  · simp only [ne_eq, hlf, not_false_eq_true, if_true, true_and]
    have hlen2 : 2 ≤ heap.length := by
      by_contra hcon
      have h1 : heap.length = 1 := by omega
      apply hlf
      have e1 : heap.getLast? = heap[0]? := by
        rw [List.getLast?_eq_getElem?, h1]
      rw [hlast, hfirst] at e1
      exact Option.some.inj e1
    have hd0 : heap.dropLast[0]? = some first := by
      rw [List.getElem?_dropLast, if_pos (by omega)]
      exact hfirst
    have hnode : (heap.dropLast.set 0 (heap.getLast hne))[0]? = some (heap.getLast hne) := by
      rw [List.getElem?_set]
      simp
      omega
    have hinv : DownInv (heap.dropLast.set 0 (heap.getLast hne)) 0 := by
      constructor
      · intro j hj hk a b ha hb
        rw [List.getElem?_set_ne (by omega)] at ha hb
        exact parentLe_dropLast heap hp j hj a b ha hb
      · intro j _ _ h0
        omega
    have r := siftDownLoop_spec (heap.dropLast.set 0 (heap.getLast hne)).length
      (heap.dropLast.set 0 (heap.getLast hne)) (heap.getLast hne) 0 (by omega) hnode hinv
    unfold siftDown
    refine ⟨?_, (isHeap_iff_parentLe _).mpr r.1⟩
    exact ((List.Perm.cons first r.2).trans
      (cons_set_perm heap.dropLast 0 (heap.getLast hne) first hd0)).trans hperm1

theorem pop_nil {T : Type} [DecidableEq T] [Node T] : pop ([] : Heap T) = (none, []) := rfl

/-- The loop of `siftUp` permutes the array, whatever the array is. -/
theorem siftUpLoop_perm {T : Type} [Node T] : ∀ (fuel : Nat) (heap : Heap T) (node : T)
    (index : Nat), heap[index]? = some node →
    List.Perm (siftUpLoop fuel heap node index) heap := by
  intro fuel
  induction fuel with
  | zero => intro heap node index _; exact List.Perm.refl _
  | succ fuel ih =>
    intro heap node index hnode
    rw [siftUpLoop]
    have hilt : index < heap.length := (List.getElem?_eq_some_iff.mp hnode).1
    split_ifs with hidx
    · have hplt : (index - 1) / 2 < heap.length := by omega
      have hparent : heap[(index - 1) / 2]? = some heap[(index - 1) / 2] :=
        List.getElem?_eq_getElem hplt
      simp only [hparent]
      split_ifs with hcmp
      · have hread := getElem?_set_set heap ((index - 1) / 2) index node
          heap[(index - 1) / 2] hplt hilt
        have hne : ¬ (index - 1) / 2 = index := by omega
        exact (ih _ node ((index - 1) / 2) (by rw [hread]; simp [hne])).trans
          (set_set_perm heap _ index _ node hparent hnode)
      · exact List.Perm.refl _
    · exact List.Perm.refl _

/-- After `push` the array holds the old elements and the node, whatever the
array is. -/
theorem push_perm_cons {T : Type} [Node T] (heap : Heap T) (node : T) :
    List.Perm (push heap node) (node :: heap) := by
  unfold push siftUp
  exact (siftUpLoop_perm heap.length (heap ++ [node]) node heap.length (by simp)).trans
    (List.perm_append_comm : List.Perm (heap ++ [node]) ([node] ++ heap))

/-- The loop of `siftDown` permutes the array, whatever the array is. -/
theorem siftDownLoop_perm {T : Type} [Node T] : ∀ (fuel : Nat) (heap : Heap T) (node : T)
    (index : Nat), heap[index]? = some node →
    List.Perm (siftDownLoop fuel heap node index) heap := by
  intro fuel
  induction fuel with
  | zero => intro heap node index _; exact List.Perm.refl _
  | succ fuel ih =>
    intro heap node index hnode
    have hilt : index < heap.length := (List.getElem?_eq_some_iff.mp hnode).1
    have step : ∀ (c : Nat) (child : T), index < c → heap[c]? = some child →
        List.Perm (siftDownLoop fuel ((heap.set index child).set c node) node c) heap := by
      intro c child hc hchild
      have hclt : c < heap.length := (List.getElem?_eq_some_iff.mp hchild).1
      have hread := getElem?_set_set heap index c child node hilt hclt
      exact (ih _ node c (by rw [hread]; simp)).trans
        (set_set_perm heap index c node child hnode hchild)
    rw [siftDownLoop]
    simp only
    split_ifs with hhalf
    · split
      · rename_i left right hl hr
        split_ifs
        · exact step _ right (by omega) hr
        · exact step _ left (by omega) hl
        · exact step _ right (by omega) hr
        · exact List.Perm.refl _
      · rename_i left hl hr
        split_ifs
        · exact step _ left (by omega) hl
        · exact List.Perm.refl _
      · exact List.Perm.refl _
    · exact List.Perm.refl _

/-- The result of `pop` on a non-empty array, whatever the array is: the element
at index 0 is returned and the rest holds the other elements. -/
theorem pop_perm {T : Type} [DecidableEq T] [Node T] (heap : Heap T) (first : T)
    (hfirst : heap[0]? = some first) :
    (pop heap).1 = some first ∧ List.Perm (first :: (pop heap).2) heap := by
  have hlen : 0 < heap.length := (List.getElem?_eq_some_iff.mp hfirst).1
  have hne : heap ≠ [] := by
    intro e
    simp [e] at hlen
  have hlast : heap.getLast? = some (heap.getLast hne) := List.getLast?_eq_getLast _ hne
  have hsplit : heap.dropLast ++ [heap.getLast hne] = heap := List.dropLast_append_getLast hne
  have hperm1 : List.Perm (heap.getLast hne :: heap.dropLast) heap := by
    have : List.Perm ([heap.getLast hne] ++ heap.dropLast) (heap.dropLast ++ [heap.getLast hne]) :=
      List.perm_append_comm
    rw [hsplit] at this
    exact this
  unfold pop
  rw [hfirst, hlast]
  simp only
  by_cases hlf : heap.getLast hne = first
  · simp only [hlf, ne_eq, not_true_eq_false, if_false, true_and]
    rw [hlf] at hperm1
    exact hperm1
  · simp only [ne_eq, hlf, not_false_eq_true, if_true, true_and]
    have hlen2 : 2 ≤ heap.length := by
      by_contra hcon
      have h1 : heap.length = 1 := by omega
      apply hlf
      have e1 : heap.getLast? = heap[0]? := by
        rw [List.getLast?_eq_getElem?, h1]
      rw [hlast, hfirst] at e1
      exact Option.some.inj e1
    have hd0 : heap.dropLast[0]? = some first := by
      rw [List.getElem?_dropLast, if_pos (by omega)]
      exact hfirst
    have hnode : (heap.dropLast.set 0 (heap.getLast hne))[0]? = some (heap.getLast hne) := by
      rw [List.getElem?_set]
      simp
      omega
    unfold siftDown
    exact ((List.Perm.cons first (siftDownLoop_perm _ _ _ 0 hnode)).trans
      (cons_set_perm heap.dropLast 0 (heap.getLast hne) first hd0)).trans hperm1

/-- In a heap the root compares `<=` every element. -/
theorem root_le {T : Type} [Node T] (heap : Heap T) (h : ParentLe heap) :
    ∀ (j : Nat) (a b : T), heap[0]? = some a → heap[j]? = some b → compare a b ≤ 0 := by
  intro j
  induction j using Nat.strong_induction_on with
  | _ j ih =>
    intro a b ha hb
    by_cases hj : j = 0
    · subst hj
      rw [ha] at hb
      cases hb
      exact compare_self_le a
    · have hjlt : j < heap.length := (List.getElem?_eq_some_iff.mp hb).1
      have hplt : (j - 1) / 2 < heap.length := by omega
      have hc : heap[(j - 1) / 2]? = some heap[(j - 1) / 2] := List.getElem?_eq_getElem hplt
      exact compare_le_trans (ih ((j - 1) / 2) (by omega) a _ ha hc)
        (h j (by omega) _ b hc hb)

/-- In a heap the root compares `<=` every member. -/
theorem root_le_mem {T : Type} [Node T] (heap : Heap T) (h : IsHeap heap) (a b : T)
    (ha : heap[0]? = some a) (hb : b ∈ heap) : compare a b ≤ 0 := by
  obtain ⟨j, hj, e⟩ := List.getElem_of_mem hb
  exact root_le heap ((isHeap_iff_parentLe heap).mp h) j a b ha
    (by rw [List.getElem?_eq_getElem hj, e])

theorem peek_eq {T : Type} (heap : Heap T) : peek heap = heap[0]? := by
  unfold peek
  cases heap <;> simp

theorem isHeap_nil {T : Type} [Node T] : IsHeap ([] : Heap T) := by
  intro i hi
  simp at hi

theorem pop_isHeap {T : Type} [DecidableEq T] [Node T] (heap : Heap T) (h : IsHeap heap) :
    IsHeap (pop heap).2 := by
  cases h0 : heap[0]? with
  | none =>
    have : heap = [] := by
      cases heap with
      | nil => rfl
      | cons a l => simp at h0
    subst this
    exact isHeap_nil
  | some first => exact (pop_spec heap first h0 h).2.2

/-- The invariant of a run of operations: the array is a heap and holds the
current elements. -/
theorem applyOp_inv {T : Type} [DecidableEq T] [Node T] (st : Heap T × List T)
    (op : HeapOp T) (h : IsHeap st.1) (hp : List.Perm st.1 st.2) :
    IsHeap (applyOp st op).1 ∧ List.Perm (applyOp st op).1 (applyOp st op).2 := by
  cases op with
  | push node =>
    have r := push_perm st.1 node h
    exact ⟨r.2, r.1.trans (List.Perm.cons node hp)⟩
  | pop =>
    cases h0 : st.1[0]? with
    | none =>
      have he : st.1 = [] := by
        cases hst : st.1 with
        | nil => rfl
        | cons a l => simp [hst] at h0
      simp only [applyOp, he, pop_nil]
      rw [he] at hp
      exact ⟨isHeap_nil, hp⟩
    | some first =>
      have r := pop_spec st.1 first h0 h
      simp only [applyOp, r.1]
      refine ⟨r.2.2, ?_⟩
      have := (r.2.1.trans hp).erase first
      simpa using this

theorem foldl_applyOp_inv {T : Type} [DecidableEq T] [Node T] (ops : List (HeapOp T)) :
    ∀ (st : Heap T × List T), IsHeap st.1 → List.Perm st.1 st.2 →
      IsHeap (ops.foldl applyOp st).1 ∧
        List.Perm (ops.foldl applyOp st).1 (ops.foldl applyOp st).2 := by
  induction ops with
  | nil => intro st h hp; exact ⟨h, hp⟩
  | cons op ops ih =>
    intro st h hp
    have r := applyOp_inv st op h hp
    exact ih _ r.1 r.2

end SchedulerMinHeap

/-! ## Claims on the binary heap -/

namespace SchedulerMinHeap

/-- C1. After every sequence of `push` and `pop` operations applied to an
initially empty heap, `peek` returns null exactly when the collection of the
current elements (pushed and not yet popped) is empty, and otherwise it returns
a current element that compares `<=` every current element (sortIndex
ascending, then id ascending). -/
theorem peek_runOps_minimum {T : Type} [DecidableEq T] [Node T] (ops : List (HeapOp T)) :
    (peek (runOps ops).1 = none ↔ (runOps ops).2 = []) ∧
    ∀ x, peek (runOps ops).1 = some x →
      x ∈ (runOps ops).2 ∧ ∀ y ∈ (runOps ops).2, compare x y ≤ 0 := by
  have r := foldl_applyOp_inv ops (([], []) : Heap T × List T) isHeap_nil (List.Perm.refl _)
  change IsHeap (runOps ops).1 ∧ List.Perm (runOps ops).1 (runOps ops).2 at r
  constructor
  · rw [peek_eq]
    constructor
    · intro h
      have h1 : (runOps ops).1 = [] := by
        cases hst : (runOps ops).1 with
        | nil => rfl
        | cons a l => simp [hst] at h
      have := r.2
      rw [h1] at this
      exact List.Perm.eq_nil this.symm
    · intro h
      have := r.2
      rw [h] at this
      rw [List.Perm.eq_nil this]
      rfl
  · intro x hx
    rw [peek_eq] at hx
    have hmem : x ∈ (runOps ops).1 := List.getElem?_mem hx
    refine ⟨r.2.mem_iff.mp hmem, ?_⟩
    intro y hy
    exact root_le_mem _ r.1 x y hx (r.2.mem_iff.mpr hy)

/-- C2. For every array that satisfies the heap invariant (each node at index
`i` compares `<=` its children at indices `2i+1` and `2i+2`) and every node,
the array after `push(heap, node)` satisfies the heap invariant, and the array
after `pop(heap)` satisfies the heap invariant. -/
theorem push_pop_preserve_isHeap {T : Type} [DecidableEq T] [Node T] (heap : Heap T)
    (node : T) (h : IsHeap heap) :
    IsHeap (push heap node) ∧ IsHeap (pop heap).2 :=
  ⟨(push_perm heap node h).2, pop_isHeap heap h⟩

/-- C2, at a heap of three plain nodes. -/
theorem push_pop_preserve_isHeap_witness :
    IsHeap ([⟨1, 3, 0⟩, ⟨2, 5, 0⟩, ⟨3, 4, 0⟩] : Heap PlainNode) ∧
    (IsHeap (push ([⟨1, 3, 0⟩, ⟨2, 5, 0⟩, ⟨3, 4, 0⟩] : Heap PlainNode) ⟨4, 1, 0⟩) ∧
      IsHeap (pop ([⟨1, 3, 0⟩, ⟨2, 5, 0⟩, ⟨3, 4, 0⟩] : Heap PlainNode)).2) :=
  ⟨by decide, push_pop_preserve_isHeap _ _ (by decide)⟩

end SchedulerMinHeap

/-! ## The scheduler: submission -/

namespace Scheduler

open SchedulerMinHeap SchedulerPriorities

theorem scheduleCallback_fst (flags : SchedulerFeatureFlags) (s : State)
    (priorityLevel : PriorityLevel) (callback : Callback) (options : Option Int) :
    (unstable_scheduleCallback flags s priorityLevel callback options).1 =
      scheduleNewTask flags s priorityLevel callback options := by
  unfold unstable_scheduleCallback scheduleNewTask
  simp only []
  generalize scheduleStartTime s.currentTime options = st
  generalize scheduleTimeout flags priorityLevel = tm
  by_cases h1 : st > s.currentTime
  · simp only [h1, if_true]
    split_ifs <;> rfl
  · simp only [h1, if_false]
    split_ifs <;> rfl

theorem scheduleCallback_queues (flags : SchedulerFeatureFlags) (s : State)
    (priorityLevel : PriorityLevel) (callback : Callback) (options : Option Int) :
    (scheduleStartTime s.currentTime options > s.currentTime →
      (unstable_scheduleCallback flags s priorityLevel callback options).2.timerQueue =
        push s.timerQueue (scheduleNewTask flags s priorityLevel callback options) ∧
      (unstable_scheduleCallback flags s priorityLevel callback options).2.taskQueue =
        s.taskQueue) ∧
    (¬ scheduleStartTime s.currentTime options > s.currentTime →
      (unstable_scheduleCallback flags s priorityLevel callback options).2.taskQueue =
        push s.taskQueue (scheduleNewTask flags s priorityLevel callback options) ∧
      (unstable_scheduleCallback flags s priorityLevel callback options).2.timerQueue =
        s.timerQueue) := by
  unfold unstable_scheduleCallback scheduleNewTask
  simp only []
  generalize scheduleStartTime s.currentTime options = st
  generalize scheduleTimeout flags priorityLevel = tm
  constructor
  · intro h1
    simp only [h1, if_true]
    unfold requestHostTimeout cancelHostTimeout
    split_ifs <;> exact ⟨rfl, rfl⟩
  · intro h1
    simp only [h1, if_false]
    unfold requestHostCallback
    split_ifs <;> exact ⟨rfl, rfl⟩

theorem scheduleTimeout_eq_timeoutFor (flags : SchedulerFeatureFlags)
    (priorityLevel : Int) :
    scheduleTimeout flags priorityLevel = timeoutFor flags priorityLevel := by
  unfold scheduleTimeout timeoutFor maxSigned31BitInt ImmediatePriority UserBlockingPriority
    IdlePriority LowPriority
  split_ifs <;> first | rfl | (exfalso; simp_all)

/-- C5. For every priority level, every clock reading and every numeric delay,
the task returned by `unstable_scheduleCallback` has
`startTime = now + max(delay, 0)` (`startTime = now` when no delay is given)
and `expirationTime = startTime + timeoutFor(priorityLevel)`, where
`timeoutFor` is -1 for Immediate, 1073741823 for Idle and the configured
constants for UserBlocking, Normal and Low. -/
theorem scheduleCallback_times (flags : SchedulerFeatureFlags) (s : State)
    (priorityLevel : PriorityLevel) (callback : Callback) (options : Option Int) :
    (∀ delay, options = some delay →
      (unstable_scheduleCallback flags s priorityLevel callback options).1.startTime
        = s.currentTime + max delay 0) ∧
    (options = none →
      (unstable_scheduleCallback flags s priorityLevel callback options).1.startTime
        = s.currentTime) ∧
    (unstable_scheduleCallback flags s priorityLevel callback options).1.expirationTime
      = (unstable_scheduleCallback flags s priorityLevel callback options).1.startTime
        + timeoutFor flags priorityLevel ∧
    timeoutFor flags ImmediatePriority = -1 ∧
    timeoutFor flags IdlePriority = 1073741823 ∧
    timeoutFor flags UserBlockingPriority = flags.userBlockingPriorityTimeout ∧
    timeoutFor flags NormalPriority = flags.normalPriorityTimeout ∧
    timeoutFor flags LowPriority = flags.lowPriorityTimeout := by
  rw [scheduleCallback_fst]
  refine ⟨?_, ?_, ?_, rfl, rfl, rfl, rfl, rfl⟩
  · intro delay hd
    subst hd
    simp only [scheduleNewTask, scheduleStartTime]
    by_cases h : delay > 0
    · rw [if_pos h, max_eq_left (le_of_lt h)]
    · rw [if_neg h, max_eq_right (by omega), add_zero]
  · intro hd
    subst hd
    rfl
  · simp only [scheduleNewTask, scheduleTimeout_eq_timeoutFor]

/-- C6. For every call of `unstable_scheduleCallback`: if the computed
startTime is greater than the clock reading, the new task has
`sortIndex = startTime`, the timer queue holds exactly its previous elements
plus the new task, and the task queue is unchanged; otherwise the new task has
`sortIndex = expirationTime`, the task queue holds exactly its previous
elements plus the new task, and the timer queue is unchanged. -/
theorem scheduleCallback_queue_effect (flags : SchedulerFeatureFlags) (s : State)
    (priorityLevel : PriorityLevel) (callback : Callback) (options : Option Int) :
    ((unstable_scheduleCallback flags s priorityLevel callback options).1.startTime
        > s.currentTime →
      (unstable_scheduleCallback flags s priorityLevel callback options).1.sortIndex
        = (unstable_scheduleCallback flags s priorityLevel callback options).1.startTime ∧
      List.Perm (unstable_scheduleCallback flags s priorityLevel callback options).2.timerQueue
        ((unstable_scheduleCallback flags s priorityLevel callback options).1 :: s.timerQueue) ∧
      (unstable_scheduleCallback flags s priorityLevel callback options).2.taskQueue
        = s.taskQueue) ∧
    (¬ (unstable_scheduleCallback flags s priorityLevel callback options).1.startTime
        > s.currentTime →
      (unstable_scheduleCallback flags s priorityLevel callback options).1.sortIndex
        = (unstable_scheduleCallback flags s priorityLevel callback options).1.expirationTime ∧
      List.Perm (unstable_scheduleCallback flags s priorityLevel callback options).2.taskQueue
        ((unstable_scheduleCallback flags s priorityLevel callback options).1 :: s.taskQueue) ∧
      (unstable_scheduleCallback flags s priorityLevel callback options).2.timerQueue
        = s.timerQueue) := by
  have hq := scheduleCallback_queues flags s priorityLevel callback options
  rw [scheduleCallback_fst]
  constructor
  · intro h
    have h1 : scheduleStartTime s.currentTime options > s.currentTime := h
    rw [(hq.1 h1).1, (hq.1 h1).2]
    refine ⟨?_, push_perm_cons _ _, rfl⟩
    simp only [scheduleNewTask, h1, if_true]
  · intro h
    have h1 : ¬ scheduleStartTime s.currentTime options > s.currentTime := h
    rw [(hq.2 h1).1, (hq.2 h1).2]
    refine ⟨?_, push_perm_cons _ _, rfl⟩
    simp only [scheduleNewTask, h1, if_false]

end Scheduler

/-! ## The scheduler: timers -/

namespace Scheduler

open SchedulerMinHeap SchedulerPriorities

theorem peek_cases {T : Type} (heap : Heap T) :
    (peek heap = none ∧ heap = []) ∨ ∃ first, peek heap = some first ∧ heap[0]? = some first := by
  rw [peek_eq]
  cases heap with
  | nil => exact Or.inl ⟨rfl, rfl⟩
  | cons a l => exact Or.inr ⟨a, by simp, by simp⟩

/-- One iteration of the loop of `advanceTimers` on a cancelled timer. -/
theorem advanceTimersLoop_cancelled (flags : SchedulerFeatureFlags) (fuel : Nat) (s : State)
    (currentTime : Int) (timer : Task) (hp : peek s.timerQueue = some timer)
    (hc : timer.callback = none) :
    advanceTimersLoop flags (fuel + 1) s currentTime =
      advanceTimersLoop flags fuel { s with timerQueue := (pop s.timerQueue).2 } currentTime := by
  rw [advanceTimersLoop]
  simp only [hp, hc, if_true]

/-- One iteration of the loop of `advanceTimers` on a timer that fired. -/
theorem advanceTimersLoop_fired (flags : SchedulerFeatureFlags) (fuel : Nat) (s : State)
    (currentTime : Int) (timer : Task) (hp : peek s.timerQueue = some timer)
    (hc : timer.callback ≠ none) (ht : timer.startTime ≤ currentTime) :
    advanceTimersLoop flags (fuel + 1) s currentTime =
      advanceTimersLoop flags fuel
        { s with timerQueue := (pop s.timerQueue).2,
                 taskQueue := push s.taskQueue (promote flags timer) } currentTime := by
  rw [advanceTimersLoop]
  simp only [hp, hc, ht, if_true, if_false, promote]
  cases flags.enableProfiling <;> rfl

/-- The loop of `advanceTimers` stops at a pending timer. -/
theorem advanceTimersLoop_pending (flags : SchedulerFeatureFlags) (fuel : Nat) (s : State)
    (currentTime : Int) (timer : Task) (hp : peek s.timerQueue = some timer)
    (hc : timer.callback ≠ none) (ht : ¬ timer.startTime ≤ currentTime) :
    advanceTimersLoop flags (fuel + 1) s currentTime = s := by
  rw [advanceTimersLoop]
  simp only [hp, hc, ht, if_false]

theorem advanceTimersLoop_empty (flags : SchedulerFeatureFlags) (fuel : Nat) (s : State)
    (currentTime : Int) (hp : peek s.timerQueue = none) :
    advanceTimersLoop flags fuel s currentTime = s := by
  cases fuel with
  | zero => rfl
  | succ fuel =>
    rw [advanceTimersLoop]
    simp only [hp]

/-- The loop of `advanceTimers` writes the two queues only. -/
theorem advanceTimersLoop_frame (flags : SchedulerFeatureFlags) (currentTime : Int) :
    ∀ (fuel : Nat) (s : State),
      advanceTimersLoop flags fuel s currentTime =
        { s with taskQueue := (advanceTimersLoop flags fuel s currentTime).taskQueue,
                 timerQueue := (advanceTimersLoop flags fuel s currentTime).timerQueue } := by
  intro fuel
  induction fuel with
  | zero => intro s; rfl
  | succ fuel ih =>
    intro s
    rcases peek_cases s.timerQueue with ⟨hp, _⟩ | ⟨timer, hp, _⟩
    · rw [advanceTimersLoop_empty flags _ s currentTime hp]
    · by_cases hc : timer.callback = none
      · rw [advanceTimersLoop_cancelled flags fuel s currentTime timer hp hc]
        exact (ih _).trans rfl
      · by_cases ht : timer.startTime ≤ currentTime
        · rw [advanceTimersLoop_fired flags fuel s currentTime timer hp hc ht]
          exact (ih _).trans rfl
        · rw [advanceTimersLoop_pending flags fuel s currentTime timer hp hc ht]

/-- What the loop of `advanceTimers` does to the two queues, whatever they
hold: some live timers that are due are transferred, some cancelled timers are
dropped, the others stay. -/
theorem advanceTimersLoop_queues (flags : SchedulerFeatureFlags) (currentTime : Int) :
    ∀ (fuel : Nat) (s : State), ∃ promoted dropped : List Task,
      List.Perm (advanceTimersLoop flags fuel s currentTime).taskQueue
        (promoted.map (promote flags) ++ s.taskQueue) ∧
      List.Perm s.timerQueue
        (promoted ++ (dropped ++ (advanceTimersLoop flags fuel s currentTime).timerQueue)) ∧
      (∀ p ∈ promoted, p.callback ≠ none ∧ p.startTime ≤ currentTime) ∧
      (∀ d ∈ dropped, d.callback = none) := by
  intro fuel
  induction fuel with
  | zero =>
    intro s
    exact ⟨[], [], List.Perm.refl _, List.Perm.refl _, by simp, by simp⟩
  | succ fuel ih =>
    intro s
    rcases peek_cases s.timerQueue with ⟨hp, _⟩ | ⟨timer, hp, h0⟩
    · rw [advanceTimersLoop_empty flags _ s currentTime hp]
      exact ⟨[], [], List.Perm.refl _, List.Perm.refl _, by simp, by simp⟩
    · have hpop := (pop_perm s.timerQueue timer h0).2
      by_cases hc : timer.callback = none
      · rw [advanceTimersLoop_cancelled flags fuel s currentTime timer hp hc]
        obtain ⟨promoted, dropped, h1, h2, h3, h4⟩ :=
          ih { s with timerQueue := (pop s.timerQueue).2 }
        refine ⟨promoted, timer :: dropped, h1, ?_, h3, ?_⟩
        · refine hpop.symm.trans ?_
          refine (List.Perm.cons timer h2).trans ?_
          exact (@List.perm_middle _ timer promoted _).symm
        · intro d hd
          rcases List.mem_cons.mp hd with e | e
          · rw [e]; exact hc
          · exact h4 d e
      · by_cases ht : timer.startTime ≤ currentTime
        · rw [advanceTimersLoop_fired flags fuel s currentTime timer hp hc ht]
          obtain ⟨promoted, dropped, h1, h2, h3, h4⟩ :=
            ih { s with timerQueue := (pop s.timerQueue).2,
                        taskQueue := push s.taskQueue (promote flags timer) }
          refine ⟨timer :: promoted, dropped, ?_, ?_, ?_, h4⟩
          · refine h1.trans ?_
            refine (List.Perm.append_left _ (push_perm_cons s.taskQueue (promote flags timer))).trans ?_
            simp
          · exact hpop.symm.trans (List.Perm.cons timer h2)
          · intro p hp'
            rcases List.mem_cons.mp hp' with e | e
            · rw [e]; exact ⟨hc, ht⟩
            · exact h3 p e
        · rw [advanceTimersLoop_pending flags fuel s currentTime timer hp hc ht]
          exact ⟨[], [], List.Perm.refl _, List.Perm.refl _, by simp, by simp⟩

/-- The loop of `advanceTimers` keeps both queues heaps. -/
theorem advanceTimersLoop_isHeap (flags : SchedulerFeatureFlags) (currentTime : Int) :
    ∀ (fuel : Nat) (s : State),
      (IsHeap s.taskQueue → IsHeap (advanceTimersLoop flags fuel s currentTime).taskQueue) ∧
      (IsHeap s.timerQueue → IsHeap (advanceTimersLoop flags fuel s currentTime).timerQueue) := by
  intro fuel
  induction fuel with
  | zero => intro s; exact ⟨id, id⟩
  | succ fuel ih =>
    intro s
    rcases peek_cases s.timerQueue with ⟨hp, _⟩ | ⟨timer, hp, h0⟩
    · rw [advanceTimersLoop_empty flags _ s currentTime hp]
      exact ⟨id, id⟩
    · by_cases hc : timer.callback = none
      · rw [advanceTimersLoop_cancelled flags fuel s currentTime timer hp hc]
        have r := ih { s with timerQueue := (pop s.timerQueue).2 }
        exact ⟨r.1, fun h => r.2 (pop_isHeap _ h)⟩
      · by_cases ht : timer.startTime ≤ currentTime
        · rw [advanceTimersLoop_fired flags fuel s currentTime timer hp hc ht]
          have r := ih { s with timerQueue := (pop s.timerQueue).2,
                                taskQueue := push s.taskQueue (promote flags timer) }
          exact ⟨fun h => r.1 (push_perm _ _ h).2, fun h => r.2 (pop_isHeap _ h)⟩
        · rw [advanceTimersLoop_pending flags fuel s currentTime timer hp hc ht]
          exact ⟨id, id⟩

/-- With enough fuel and a timer queue that is a heap keyed by `startTime`,
the timers left by the loop of `advanceTimers` are all pending. -/
theorem advanceTimersLoop_remaining (flags : SchedulerFeatureFlags) (currentTime : Int) :
    ∀ (fuel : Nat) (s : State), s.timerQueue.length ≤ fuel → IsHeap s.timerQueue →
      (∀ t ∈ s.timerQueue, t.sortIndex = t.startTime) →
      ∀ t ∈ (advanceTimersLoop flags fuel s currentTime).timerQueue,
        currentTime < t.startTime := by
  intro fuel
  induction fuel with
  | zero =>
    intro s hlen _ _ t ht
    have : s.timerQueue = [] := List.length_eq_zero.mp (by omega)
    simp [advanceTimersLoop, this] at ht
  | succ fuel ih =>
    intro s hlen hheap hkey
    rcases peek_cases s.timerQueue with ⟨hp, he⟩ | ⟨timer, hp, h0⟩
    · rw [advanceTimersLoop_empty flags _ s currentTime hp]
      intro t ht
      simp [he] at ht
    · have hpop := (pop_perm s.timerQueue timer h0).2
      have hlen2 : (pop s.timerQueue).2.length ≤ fuel := by
        have := hpop.length_eq
        simp at this
        omega
      have hkey2 : ∀ t ∈ (pop s.timerQueue).2, t.sortIndex = t.startTime := by
        intro t ht
        exact hkey t (hpop.mem_iff.mp (List.mem_cons_of_mem _ ht))
      by_cases hc : timer.callback = none
      · rw [advanceTimersLoop_cancelled flags fuel s currentTime timer hp hc]
        exact ih { s with timerQueue := (pop s.timerQueue).2 } hlen2 (pop_isHeap _ hheap) hkey2
      · by_cases ht : timer.startTime ≤ currentTime
        · rw [advanceTimersLoop_fired flags fuel s currentTime timer hp hc ht]
          exact ih { s with timerQueue := (pop s.timerQueue).2,
                            taskQueue := push s.taskQueue (promote flags timer) }
            hlen2 (pop_isHeap _ hheap) hkey2
        · rw [advanceTimersLoop_pending flags fuel s currentTime timer hp hc ht]
          intro t htm
          have hle := root_le_mem s.timerQueue hheap timer t h0 htm
          rw [compare_le_iff] at hle
          have htimer := hkey timer (List.getElem?_mem h0)
          have ht2 := hkey t htm
          have e1 : Node.sortIndex timer = timer.sortIndex := rfl
          have e2 : Node.sortIndex t = t.sortIndex := rfl
          rw [e1, e2] at hle
          omega

/-- C8. For every scheduler state in which the timer queue is a heap whose tasks
all have `sortIndex = startTime`, and every time `now`: after
`advanceTimers(now)` the task queue holds its previous tasks plus exactly the
timers that have a callback and `startTime <= now` (with `sortIndex` reset to
`expirationTime`); so a task with a callback that was in the timer queue, and
whose identifier was that of no other queued task, is in the task queue if and
only if its `startTime <= now`; every task still in the timer queue has
`startTime > now`, and the timers with a callback and `startTime > now` are
still in the timer queue. -/
theorem advanceTimers_transfers_due_timers (flags : SchedulerFeatureFlags) (s : State)
    (now : Int) (hheap : IsHeap s.timerQueue)
    (hkey : ∀ t ∈ s.timerQueue, t.sortIndex = t.startTime) :
    List.Perm (advanceTimers flags s now).taskQueue
      ((s.timerQueue.filter (fun t => decide (t.callback ≠ none ∧ t.startTime ≤ now))).map
        (promote flags) ++ s.taskQueue) ∧
    (∀ t ∈ s.timerQueue, t.callback ≠ none →
      (∀ u ∈ s.timerQueue, u.id = t.id → u = t) → (∀ u ∈ s.taskQueue, u.id ≠ t.id) →
      ((∃ u ∈ (advanceTimers flags s now).taskQueue, u.id = t.id) ↔ t.startTime ≤ now)) ∧
    (∀ t ∈ (advanceTimers flags s now).timerQueue, t ∈ s.timerQueue ∧ now < t.startTime) ∧
    (∀ t ∈ s.timerQueue, t.callback ≠ none → now < t.startTime →
      t ∈ (advanceTimers flags s now).timerQueue) := by
  unfold advanceTimers
  obtain ⟨promoted, dropped, h1, h2, h3, h4⟩ :=
    advanceTimersLoop_queues flags now s.timerQueue.length s
  have hrem := advanceTimersLoop_remaining flags now s.timerQueue.length s (le_refl _) hheap hkey
  have hfilter : List.Perm
      (s.timerQueue.filter (fun t => decide (t.callback ≠ none ∧ t.startTime ≤ now)))
      promoted := by
    refine (h2.filter _).trans ?_
    rw [List.filter_append, List.filter_append]
    have e1 : promoted.filter (fun t => decide (t.callback ≠ none ∧ t.startTime ≤ now))
        = promoted := by
      rw [List.filter_eq_self]
      intro a ha
      simpa using h3 a ha
    have e2 : dropped.filter (fun t => decide (t.callback ≠ none ∧ t.startTime ≤ now))
        = [] := by
      rw [List.filter_eq_nil_iff]
      intro a ha
      simp [h4 a ha]
    have e3 : (advanceTimersLoop flags s.timerQueue.length s now).timerQueue.filter
        (fun t => decide (t.callback ≠ none ∧ t.startTime ≤ now)) = [] := by
      rw [List.filter_eq_nil_iff]
      intro a ha
      have := hrem a ha
      simp
      intro _
      omega
    rw [e1, e2, e3]
    simp
  have hperm : List.Perm (advanceTimersLoop flags s.timerQueue.length s now).taskQueue
      ((s.timerQueue.filter (fun t => decide (t.callback ≠ none ∧ t.startTime ≤ now))).map
        (promote flags) ++ s.taskQueue) :=
    h1.trans (List.Perm.append_right _ (hfilter.symm.map _))
  refine ⟨hperm, ?_, ?_, ?_⟩
  · intro t ht hlive huniq hnot
    constructor
    · rintro ⟨u, hu, hid⟩
      rcases List.mem_append.mp (hperm.mem_iff.mp hu) with hm | hm
      · obtain ⟨v, hv, rfl⟩ := List.mem_map.mp hm
        have hv2 := List.mem_filter.mp hv
        have hvt : v = t := huniq v hv2.1 hid
        subst hvt
        have := hv2.2
        simp only [decide_eq_true_eq] at this
        exact this.2
      · exact absurd hid (hnot u hm)
    · intro hdue
      refine ⟨promote flags t, hperm.mem_iff.mpr (List.mem_append_left _ ?_), rfl⟩
      exact List.mem_map.mpr ⟨t, List.mem_filter.mpr ⟨ht, by simpa using ⟨hlive, hdue⟩⟩, rfl⟩
  · intro t ht
    refine ⟨h2.mem_iff.mpr ?_, hrem t ht⟩
    exact List.mem_append_right _ (List.mem_append_right _ ht)
  · intro t ht hlive hpend
    rcases List.mem_append.mp (h2.mem_iff.mp ht) with hm | hm
    · have := (h3 t hm).2
      omega
    · rcases List.mem_append.mp hm with hm | hm
      · exact absurd (h4 t hm) hlive
      · exact hm

/-- C8, at a state with three timers: one due, one cancelled, one pending. -/
theorem advanceTimers_transfers_due_timers_witness :
    List.Perm
      (advanceTimers ⟨false, 5, 250, 10000, 5000, true, false⟩
        { init ⟨false, 5, 250, 10000, 5000, true, false⟩ 0 with
          timerQueue := [⟨1, some 7, 3, 10, 5010, 10, none⟩, ⟨2, none, 3, 20, 5020, 20, none⟩,
            ⟨3, some 9, 3, 30, 5030, 30, none⟩] } 25).taskQueue
      [⟨1, some 7, 3, 10, 5010, 5010, none⟩] ∧
    (advanceTimers ⟨false, 5, 250, 10000, 5000, true, false⟩
        { init ⟨false, 5, 250, 10000, 5000, true, false⟩ 0 with
          timerQueue := [⟨1, some 7, 3, 10, 5010, 10, none⟩, ⟨2, none, 3, 20, 5020, 20, none⟩,
            ⟨3, some 9, 3, 30, 5030, 30, none⟩] } 25).timerQueue
      = [⟨3, some 9, 3, 30, 5030, 30, none⟩] :=
  ⟨(advanceTimers_transfers_due_timers _ _ 25 (by decide) (by decide)).1, by decide⟩

end Scheduler

/-! ## The scheduler: flushWork -/

namespace Scheduler

open SchedulerMinHeap SchedulerPriorities

theorem flushWorkEntry_currentPriorityLevel (s : State) :
    (flushWorkEntry s).currentPriorityLevel = s.currentPriorityLevel := by
  unfold flushWorkEntry cancelHostTimeout
  simp only []
  split_ifs <;> rfl

/-- C10. For every scheduler state and every behaviour of the task callbacks
(returning nothing, returning a continuation, or throwing), after `flushWork`
exits the current priority level equals its value before the flush, the
currently-executing task is null, and `isPerformingWork` is false; `flushWork`
ends the way `workLoop` ends, so an error thrown in `workLoop` propagates to
the caller of `flushWork`. -/
theorem flushWork_restores_context (flags : SchedulerFeatureFlags) (run : Callbacks)
    (fuel : Nat) (s : State) (initialTime : Int)
    (hexit : (flushWork flags run fuel s initialTime).2 ≠ Completion.outOfFuel) :
    (flushWork flags run fuel s initialTime).1.currentPriorityLevel = s.currentPriorityLevel ∧
    (flushWork flags run fuel s initialTime).1.currentTask = none ∧
    (flushWork flags run fuel s initialTime).1.isPerformingWork = false ∧
    (flushWork flags run fuel s initialTime).2
      = (workLoop flags run fuel (flushWorkEntry s) initialTime).2 ∧
    (∀ error, (workLoop flags run fuel (flushWorkEntry s) initialTime).2 = Completion.threw error →
      (flushWork flags run fuel s initialTime).2 = Completion.threw error) := by
  have hprio := flushWorkEntry_currentPriorityLevel s
  unfold flushWork at hexit ⊢
  simp only [] at hexit ⊢
  generalize workLoop flags run fuel (flushWorkEntry s) initialTime = r at hexit ⊢
  obtain ⟨s1, c⟩ := r
  cases c with
  | outOfFuel => exact absurd rfl hexit
  | threw error =>
    refine ⟨hprio, rfl, rfl, rfl, ?_⟩
    intro e he
    exact he
  | returned b =>
    refine ⟨hprio, rfl, rfl, rfl, ?_⟩
    intro e he
    exact he

/-- C10, at a state whose only task has a callback that throws: the flush ends
with the error and the context is restored. -/
theorem flushWork_restores_context_witness :
    (flushWork ⟨false, 5, 250, 10000, 5000, true, false⟩ (fun _ _ _ => ⟨[], .throw 42⟩) 3
        { init ⟨false, 5, 250, 10000, 5000, true, false⟩ 0 with
          taskQueue := [⟨1, some 7, 2, 0, 250, 250, none⟩], currentPriorityLevel := 4 } 0).2
      = Completion.threw 42 ∧
    (flushWork ⟨false, 5, 250, 10000, 5000, true, false⟩ (fun _ _ _ => ⟨[], .throw 42⟩) 3
        { init ⟨false, 5, 250, 10000, 5000, true, false⟩ 0 with
          taskQueue := [⟨1, some 7, 2, 0, 250, 250, none⟩], currentPriorityLevel := 4 }
        0).1.currentPriorityLevel = 4 :=
  ⟨by decide, (flushWork_restores_context _ _ 3 _ 0 (by decide)).1⟩

end Scheduler

/-! ## The scheduler: one iteration of the work loop, continuations -/

namespace Scheduler

open SchedulerMinHeap SchedulerPriorities

/-- Steps that make no call to the scheduler only move the clock. -/
theorem foldl_runStep_quiet (flags : SchedulerFeatureFlags) :
    ∀ (steps : List Step) (s : State), (∀ st ∈ steps, ∃ ms, st = Step.elapse ms) →
      steps.foldl (runStep flags) s =
        { s with currentTime := s.currentTime + ((steps.map Step.elapsed).sum : Nat) } := by
  intro steps
  induction steps with
  | nil => intro s _; simp
  | cons st steps ih =>
    intro s h
    obtain ⟨ms, rfl⟩ := h st (List.mem_cons_self _ _)
    rw [List.foldl_cons, ih _ (fun x hx => h x (List.mem_cons_of_mem _ hx))]
    simp only [runStep, List.map_cons, List.sum_cons, Step.elapsed, Nat.cast_add]
    congr 1
    omega

theorem updateTask_callback_taskQueue (s : State) (id : Int) (c : Option Callback) :
    (updateTask s id (fun t => { t with callback := c })).taskQueue
      = s.taskQueue.map (setCallback id c) := rfl

theorem updateTask_callback_timerQueue (s : State) (id : Int) (c : Option Callback) :
    (updateTask s id (fun t => { t with callback := c })).timerQueue
      = s.timerQueue.map (setCallback id c) := rfl

/-- The state after a callback call, when callbacks make no call to the
scheduler: the callback of the task is null, the invocation is recorded, the
clock has moved forward, nothing else has changed in the queues. -/
theorem callCallback_quiet (flags : SchedulerFeatureFlags) (run : Callbacks)
    (hrun : ∀ c d st, (run c d st).Quiet) (s : State) (t : Task) (cb : Callback) (ct : Int) :
    (callCallback flags run s t cb ct).1.taskQueue = s.taskQueue.map (setCallback t.id none) ∧
    (callCallback flags run s t cb ct).1.timerQueue = s.timerQueue.map (setCallback t.id none) ∧
    (callCallback flags run s t cb ct).1.invoked
      = s.invoked ++ [⟨t.id, cb, decide (t.expirationTime ≤ ct)⟩] ∧
    (∃ n : Nat, (callCallback flags run s t cb ct).1.currentTime = s.currentTime + n) ∧
    (callCallback flags run s t cb ct).1.startTime = s.startTime ∧
    (callCallback flags run s t cb ct).1.frameInterval = s.frameInterval ∧
    (callCallback flags run s t cb ct).1.needsPaint = s.needsPaint ∧
    (callCallback flags run s t cb ct).1.taskIdCounter = s.taskIdCounter := by
  unfold callCallback
  simp only []
  rw [foldl_runStep_quiet flags _ _ (hrun _ _ _)]
  exact ⟨rfl, rfl, rfl, ⟨_, rfl⟩, rfl, rfl, rfl, rfl⟩

theorem advanceTimers_nil (flags : SchedulerFeatureFlags) (s : State) (ct : Int)
    (h : s.timerQueue = []) : advanceTimers flags s ct = s := by
  unfold advanceTimers
  rw [h]
  rfl

theorem flushWorkEntry_queues (s : State) :
    (flushWorkEntry s).taskQueue = s.taskQueue ∧ (flushWorkEntry s).timerQueue = s.timerQueue ∧
    (flushWorkEntry s).invoked = s.invoked ∧ (flushWorkEntry s).currentTime = s.currentTime ∧
    (flushWorkEntry s).startTime = s.startTime ∧
    (flushWorkEntry s).frameInterval = s.frameInterval ∧
    (flushWorkEntry s).needsPaint = s.needsPaint ∧
    (flushWorkEntry s).taskIdCounter = s.taskIdCounter := by
  unfold flushWorkEntry cancelHostTimeout
  simp only []
  split_ifs <;> exact ⟨rfl, rfl, rfl, rfl, rfl, rfl, rfl, rfl⟩

theorem shouldYieldToHost_congr (flags : SchedulerFeatureFlags) (s s' : State)
    (h1 : s'.needsPaint = s.needsPaint) (h2 : s'.currentTime = s.currentTime)
    (h3 : s'.startTime = s.startTime) (h4 : s'.frameInterval = s.frameInterval) :
    shouldYieldToHost flags s' = shouldYieldToHost flags s := by
  unfold shouldYieldToHost
  rw [h1, h2, h3, h4]

/-- An iteration of `workLoop` in which the callback returns a continuation. -/
theorem workLoopLoop_continuation (flags : SchedulerFeatureFlags) (run : Callbacks)
    (fuel : Nat) (s : State) (ct : Int) (t : Task) (cb c' : Callback)
    (hcur : s.currentTask = some t)
    (hgate : ¬ ((!flags.enableAlwaysYieldScheduler) = true ∧ t.expirationTime > ct ∧
      shouldYieldToHost flags s = true))
    (hcb : t.callback = some cb)
    (hres : (callCallback flags run s t cb ct).2 = CallbackResult.continuation c') :
    workLoopLoop flags run (fuel + 1) s ct =
      (advanceTimers flags
        (updateTask (callCallback flags run s t cb ct).1 t.id
          (fun t => { t with callback := some c' }))
        (callCallback flags run s t cb ct).1.currentTime, Completion.returned true) := by
  rw [workLoopLoop]
  simp only [hcur, hcb, hres]
  rw [if_neg hgate]

/-- The result of `flushWork` when `workLoop` returns. -/
theorem flushWork_returned (flags : SchedulerFeatureFlags) (run : Callbacks) (fuel : Nat)
    (s s1 : State) (initialTime : Int) (b : Bool)
    (h : workLoop flags run fuel (flushWorkEntry s) initialTime = (s1, Completion.returned b)) :
    flushWork flags run fuel s initialTime =
      ({ s1 with currentTask := none, currentPriorityLevel := (flushWorkEntry s).currentPriorityLevel,
                 isPerformingWork := false }, Completion.returned b) := by
  unfold flushWork
  simp only [h]

theorem map_setCallback_singleton_self (t : Task) (c c' : Option Callback) :
    ([t].map (setCallback t.id c)).map (setCallback t.id c') = [{ t with callback := c' }] := by
  simp [setCallback]

/-- One flush of a state whose only task returns a continuation. -/
theorem flushWork_continuation (flags : SchedulerFeatureFlags) (run : Callbacks)
    (hrun : AlwaysContinues run) (s : State) (t : Task) (cb : Callback)
    (hq : s.taskQueue = [t]) (htq : s.timerQueue = []) (hcb : t.callback = some cb)
    (fuel : Nat) (hfuel : 0 < fuel) (initialTime : Int)
    (hy : shouldYieldToHost flags s = false) :
    ∃ c' d st, (run cb d st).result = CallbackResult.continuation c' ∧
      (flushWork flags run fuel s initialTime).2 = Completion.returned true ∧
      (flushWork flags run fuel s initialTime).1.taskQueue = [{ t with callback := some c' }] ∧
      (flushWork flags run fuel s initialTime).1.timerQueue = [] ∧
      (flushWork flags run fuel s initialTime).1.invoked = s.invoked ++ [⟨t.id, cb, d⟩] := by
  obtain ⟨hE1, hE2, hE3, hE4, hE5, hE6, hE7, _⟩ := flushWorkEntry_queues s
  cases fuel with
  | zero => omega
  | succ fuel =>
    generalize hs0 : nextTask (flushWorkEntry s) = s0
    have h01 : s0.taskQueue = [t] := by rw [← hs0]; exact hE1.trans hq
    have h02 : s0.timerQueue = [] := by rw [← hs0]; exact hE2.trans htq
    have h03 : s0.invoked = s.invoked := by rw [← hs0]; exact hE3
    have h04 : s0.currentTask = some t := by
      rw [← hs0]
      show peek (flushWorkEntry s).taskQueue = some t
      rw [hE1, hq]
      rfl
    have hy2 : shouldYieldToHost flags s0 = false := by
      rw [← hy, ← hs0]
      exact shouldYieldToHost_congr flags s _ hE7 hE4 hE5 hE6
    have hquiet : ∀ c d st, (run c d st).Quiet := fun c d st => (hrun c d st).1
    obtain ⟨c', hres⟩ : ∃ c', (callCallback flags run s0 t cb initialTime).2
        = CallbackResult.continuation c' := (hrun _ _ _).2
    obtain ⟨hc1, hc2, hc3, _, _⟩ := callCallback_quiet flags run hquiet s0 t cb initialTime
    refine ⟨c', _, _, hres, ?_⟩
    have hwl : workLoop flags run (fuel + 1) (flushWorkEntry s) initialTime =
        (advanceTimers flags
          (updateTask (callCallback flags run s0 t cb initialTime).1 t.id
            (fun t => { t with callback := some c' }))
          (callCallback flags run s0 t cb initialTime).1.currentTime,
          Completion.returned true) := by
      unfold workLoop
      rw [advanceTimers_nil flags _ _ (hE2.trans htq), hs0]
      exact workLoopLoop_continuation flags run fuel s0 initialTime t cb c' h04
        (by simp [hy2]) hcb hres
    rw [flushWork_returned flags run _ s _ initialTime true hwl]
    rw [advanceTimers_nil flags _ _
      (by rw [updateTask_callback_timerQueue, hc2, h02]; rfl)]
    refine ⟨rfl, ?_, ?_, ?_⟩
    · show (updateTask _ t.id _).taskQueue = _
      rw [updateTask_callback_taskQueue, hc1, h01]
      exact map_setCallback_singleton_self t none (some c')
    · show (updateTask _ t.id _).timerQueue = _
      rw [updateTask_callback_timerQueue, hc2, h02]
      rfl
    · show (callCallback flags run s0 t cb initialTime).1.invoked = _
      rw [hc3, h03]

/-- C9. For every scheduler state whose only task is a ready task with a
callback, when callbacks always return a continuation (and make no call to the
scheduler): every flush that starts with the host not signalling a yield
invokes exactly one callback, that of the task, stores the returned
continuation as the callback of the same task (same id, expirationTime and
sortIndex, still alone in the task queue), and returns true; and this holds for
every number of repeated flushes. -/
theorem flushWork_continuation_every_flush (flags : SchedulerFeatureFlags) (run : Callbacks)
    (hrun : AlwaysContinues run) (s : State) (t : Task) (cb : Callback)
    (hq : s.taskQueue = [t]) (htq : s.timerQueue = []) (hcb : t.callback = some cb) :
    (∀ (fuel : Nat) (initialTime : Int), 0 < fuel → shouldYieldToHost flags s = false →
      ∃ c' d st, (run cb d st).result = CallbackResult.continuation c' ∧
        (flushWork flags run fuel s initialTime).2 = Completion.returned true ∧
        (flushWork flags run fuel s initialTime).1.taskQueue = [{ t with callback := some c' }] ∧
        (flushWork flags run fuel s initialTime).1.timerQueue = [] ∧
        (flushWork flags run fuel s initialTime).1.invoked = s.invoked ++ [⟨t.id, cb, d⟩]) ∧
    (∀ (cs : List Completion) (s' : State), Flushes flags run s cs s' →
      (∀ c ∈ cs, c = Completion.returned true) ∧
      (∃ new, s'.invoked = s.invoked ++ new ∧ new.length = cs.length ∧
        ∀ i ∈ new, i.task = t.id) ∧
      (∃ c', s'.taskQueue = [{ t with callback := some c' }]) ∧ s'.timerQueue = []) := by
  constructor
  · intro fuel initialTime hfuel hy
    exact flushWork_continuation flags run hrun s t cb hq htq hcb fuel hfuel initialTime hy
  · intro cs s' h
    induction h with
    | nil =>
      refine ⟨by simp, ⟨[], by simp, rfl, by simp⟩, ⟨cb, ?_⟩, htq⟩
      rw [hq, ← hcb]
    | snoc s1 s2 cs fuel initialTime _ e1 e2 e3 hy hfuel ih =>
      obtain ⟨ih1, ⟨new, ih2, ih3, ih4⟩, ⟨c1, ih5⟩, ih6⟩ := ih
      obtain ⟨c', d, st, _, r1, r2, r3, r4⟩ :=
        flushWork_continuation flags run hrun s2 { t with callback := some c1 } c1
          (e1.trans ih5) (e2.trans ih6) rfl fuel hfuel initialTime hy
      refine ⟨?_, ⟨new ++ [⟨t.id, c1, d⟩], ?_, ?_, ?_⟩, ⟨c', r2⟩, r3⟩
      · intro c hc
        rcases List.mem_append.mp hc with hc | hc
        · exact ih1 c hc
        · rw [List.mem_singleton.mp hc, r1]
      · rw [r4, e3, ih2, List.append_assoc]
      · simp [ih3]
      · intro i hi
        rcases List.mem_append.mp hi with hi | hi
        · exact ih4 i hi
        · rw [List.mem_singleton.mp hi]

/-- C9, at a state with one task whose callback returns a continuation, flushed
twice. -/
theorem flushWork_continuation_every_flush_witness :
    (flushWork ⟨false, 5, 250, 10000, 5000, true, false⟩
        (fun c _ _ => ⟨[.elapse 1], .continuation (c + 1)⟩) 1
        (flushWork ⟨false, 5, 250, 10000, 5000, true, false⟩
          (fun c _ _ => ⟨[.elapse 1], .continuation (c + 1)⟩) 1
          { init ⟨false, 5, 250, 10000, 5000, true, false⟩ 0 with
            taskQueue := [⟨1, some 7, 3, 0, 5000, 5000, none⟩], startTime := 0 } 0).1 1).1.timerQueue
      = [] :=
  ((flushWork_continuation_every_flush ⟨false, 5, 250, 10000, 5000, true, false⟩
      (fun c _ _ => ⟨[.elapse 1], .continuation (c + 1)⟩)
      (fun c _ _ => ⟨fun x hx => ⟨1, List.mem_singleton.mp hx⟩, c + 1, rfl⟩)
      { init ⟨false, 5, 250, 10000, 5000, true, false⟩ 0 with
        taskQueue := [⟨1, some 7, 3, 0, 5000, 5000, none⟩], startTime := 0 }
      ⟨1, some 7, 3, 0, 5000, 5000, none⟩ 7 rfl rfl rfl).2 _ _
    (Flushes.snoc _ _ _ 1 1
      (Flushes.snoc _ _ _ 1 0 Flushes.nil rfl rfl rfl (by decide) (by decide))
      rfl rfl rfl (by decide) (by decide))).2.2.2

end Scheduler

/-! ## The scheduler: degenerate heaps, frame rate, cancellation frame, priority levels -/

namespace Scheduler

open SchedulerMinHeap SchedulerPriorities

/-- C20. On the empty heap `peek` returns null and `pop` returns null, and the
heap is still empty afterwards; on a one-element heap `pop` returns that
element and leaves the heap empty. -/
theorem peek_pop_degenerate {T : Type} [DecidableEq T] [Node T] :
    peek ([] : Heap T) = none ∧ pop ([] : Heap T) = (none, []) ∧
    ∀ a : T, pop [a] = (some a, []) := by
  refine ⟨rfl, rfl, ?_⟩
  intro a
  simp [pop]

/-- C19. For every integer `fps`: if `fps < 0` or `fps > 125`,
`forceFrameRate(fps)` is rejected (an error is logged) and leaves
`frameInterval`, like every other variable of the scheduler, unchanged; if
`1 <= fps <= 125` it sets `frameInterval` to `floor(1000 / fps)`, a value
between 8 and 1000; if `fps = 0` it resets `frameInterval` to `frameYieldMs`. -/
theorem forceFrameRate_spec (flags : SchedulerFeatureFlags) (s : State) (fps : Int) :
    ((fps < 0 ∨ fps > 125) →
      forceFrameRate flags s fps = { s with consoleErrors := s.consoleErrors + 1 } ∧
      (forceFrameRate flags s fps).frameInterval = s.frameInterval) ∧
    ((1 ≤ fps ∧ fps ≤ 125) →
      (forceFrameRate flags s fps).frameInterval = 1000 / fps ∧
      (1000 / fps) * fps ≤ 1000 ∧ 1000 < (1000 / fps + 1) * fps ∧
      8 ≤ (forceFrameRate flags s fps).frameInterval ∧
      (forceFrameRate flags s fps).frameInterval ≤ 1000 ∧
      (forceFrameRate flags s fps).consoleErrors = s.consoleErrors) ∧
    (fps = 0 → (forceFrameRate flags s fps).frameInterval = flags.frameYieldMs ∧
      (forceFrameRate flags s fps).consoleErrors = s.consoleErrors) := by
  refine ⟨?_, ?_, ?_⟩
  · intro h
    unfold forceFrameRate
    rw [if_pos h]
    exact ⟨rfl, rfl⟩
  · intro h
    have h1 : ¬ (fps < 0 ∨ fps > 125) := by omega
    have h2 : fps > 0 := by omega
    have e : forceFrameRate flags s fps = { s with frameInterval := 1000 / fps } := by
      unfold forceFrameRate
      rw [if_neg h1, if_pos h2]
    rw [e]
    have hpos : 0 < fps := h2
    have hlo : 8 ≤ 1000 / fps := by
      rw [Int.le_ediv_iff_mul_le hpos]
      omega
    have hhi : 1000 / fps ≤ 1000 := Int.ediv_le_self _ (by omega)
    have hm1 : (1000 / fps) * fps ≤ 1000 := Int.ediv_mul_le _ (by omega)
    have hm2 : 1000 < (1000 / fps + 1) * fps := Int.lt_ediv_add_one_mul_self _ hpos
    exact ⟨rfl, hm1, hm2, hlo, hhi, rfl⟩
  · intro h
    subst h
    exact ⟨rfl, rfl⟩

theorem setCallback_none_idem (id : Int) (t : Task) :
    setCallback id none (setCallback id none t) = setCallback id none t := by
  unfold setCallback
  by_cases h : t.id = id
  · simp [h]
  · simp [h]

theorem setCallback_none_of_null (id : Int) (t : Task) (h : t.id = id → t.callback = none) :
    setCallback id none t = t := by
  unfold setCallback
  by_cases e : t.id = id
  · rw [if_pos e]
    have := h e
    cases t
    simp_all
  · rw [if_neg e]

/-- The result of `unstable_cancelCallback` when profiling is disabled. -/
theorem cancelCallback_eq (flags : SchedulerFeatureFlags) (s : State) (task : Int)
    (hprof : flags.enableProfiling = false) :
    unstable_cancelCallback flags s task =
      { s with taskQueue := s.taskQueue.map (setCallback task none),
               timerQueue := s.timerQueue.map (setCallback task none),
               currentTask := s.currentTask.map (setCallback task none) } := by
  unfold unstable_cancelCallback updateTask
  have hf : (fun t : Task => if t.id = task then
      { t with isQueued := if flags.enableProfiling = true ∧ t.isQueued = some true
          then some false else t.isQueued, callback := none } else t)
      = setCallback task none := by
    funext t
    unfold setCallback
    simp [hprof]
  simp only [hf]

/-- C15. With profiling disabled, for every scheduler state and every task,
`unstable_cancelCallback(task)` changes nothing except the callback field of
that task, which becomes null: both queues hold the same tasks at the same
array positions, every other field of every task is unchanged, and all other
variables of the scheduler are unchanged; so cancelling a task whose callback
is already null leaves the whole state unchanged, and cancelling twice is
cancelling once. -/
theorem cancelCallback_frame (flags : SchedulerFeatureFlags) (s : State) (task : Int)
    (hprof : flags.enableProfiling = false) :
    unstable_cancelCallback flags s task =
      { s with taskQueue := s.taskQueue.map (setCallback task none),
               timerQueue := s.timerQueue.map (setCallback task none),
               currentTask := s.currentTask.map (setCallback task none) } ∧
    (∀ t : Task, (t.id = task → setCallback task none t = { t with callback := none }) ∧
      (t.id ≠ task → setCallback task none t = t)) ∧
    (∀ (i : Nat) (t : Task), s.taskQueue[i]? = some t →
      (unstable_cancelCallback flags s task).taskQueue[i]? = some (setCallback task none t)) ∧
    (∀ (i : Nat) (t : Task), s.timerQueue[i]? = some t →
      (unstable_cancelCallback flags s task).timerQueue[i]? = some (setCallback task none t)) ∧
    (((∀ t ∈ s.taskQueue, t.id = task → t.callback = none) ∧
      (∀ t ∈ s.timerQueue, t.id = task → t.callback = none) ∧
      (∀ t, s.currentTask = some t → t.id = task → t.callback = none)) →
      unstable_cancelCallback flags s task = s) ∧
    unstable_cancelCallback flags (unstable_cancelCallback flags s task) task
      = unstable_cancelCallback flags s task := by
  have he := cancelCallback_eq flags s task hprof
  refine ⟨he, ?_, ?_, ?_, ?_, ?_⟩
  · intro t
    constructor
    · intro h
      simp [setCallback, h]
    · intro h
      simp [setCallback, h]
  · intro i t hi
    rw [he]
    simp [hi]
  · intro i t hi
    rw [he]
    simp [hi]
  · rintro ⟨h1, h2, h3⟩
    rw [he]
    have e1 : s.taskQueue.map (setCallback task none) = s.taskQueue := by
      conv_rhs => rw [← List.map_id s.taskQueue]
      exact List.map_congr_left (fun t ht => setCallback_none_of_null task t (h1 t ht))
    have e2 : s.timerQueue.map (setCallback task none) = s.timerQueue := by
      conv_rhs => rw [← List.map_id s.timerQueue]
      exact List.map_congr_left (fun t ht => setCallback_none_of_null task t (h2 t ht))
    have e3 : s.currentTask.map (setCallback task none) = s.currentTask := by
      cases hc : s.currentTask with
      | none => rfl
      | some t => simp [setCallback_none_of_null task t (h3 t hc)]
    rw [e1, e2, e3]
  · rw [cancelCallback_eq flags _ task hprof, he]
    simp only [List.map_map, Option.map_map]
    have hc : setCallback task none ∘ setCallback task none = setCallback task none := by
      funext t
      exact setCallback_none_idem task t
    rw [hc]

/-- C15, at a state with two queued tasks, cancelling the second. -/
theorem cancelCallback_frame_witness :
    unstable_cancelCallback ⟨false, 5, 250, 10000, 5000, true, false⟩
        { init ⟨false, 5, 250, 10000, 5000, true, false⟩ 0 with
          taskQueue := [⟨1, some 7, 3, 0, 5000, 5000, none⟩, ⟨2, some 8, 3, 0, 5000, 5000, none⟩] } 2
      = { init ⟨false, 5, 250, 10000, 5000, true, false⟩ 0 with
          taskQueue := [⟨1, some 7, 3, 0, 5000, 5000, none⟩, ⟨2, none, 3, 0, 5000, 5000, none⟩] } :=
  (cancelCallback_frame ⟨false, 5, 250, 10000, 5000, true, false⟩ _ 2 rfl).1

theorem scheduleTimeout_unrecognised (flags : SchedulerFeatureFlags) (priorityLevel : Int)
    (h1 : priorityLevel ≠ ImmediatePriority) (h2 : priorityLevel ≠ UserBlockingPriority)
    (h4 : priorityLevel ≠ LowPriority) (h5 : priorityLevel ≠ IdlePriority) :
    scheduleTimeout flags priorityLevel = flags.normalPriorityTimeout := by
  unfold scheduleTimeout
  rw [if_neg h1, if_neg h2, if_neg h5, if_neg h4]

/-- What `unstable_scheduleCallback` does with a priority value that is not one
of Immediate, UserBlocking, Normal, Low, Idle: the timeout is the Normal one, so
`expirationTime` is `startTime` + the Normal timeout, and the `priorityLevel`
field of the task holds the value that was passed, which is not Normal. -/
theorem scheduleCallback_unrecognised_level (flags : SchedulerFeatureFlags) (s : State)
    (priorityLevel : PriorityLevel) (callback : Callback) (options : Option Int)
    (h1 : priorityLevel ≠ ImmediatePriority) (h2 : priorityLevel ≠ UserBlockingPriority)
    (h3 : priorityLevel ≠ NormalPriority) (h4 : priorityLevel ≠ LowPriority)
    (h5 : priorityLevel ≠ IdlePriority) :
    (unstable_scheduleCallback flags s priorityLevel callback options).1 =
      { (unstable_scheduleCallback flags s NormalPriority callback options).1 with
        priorityLevel := priorityLevel } ∧
    (unstable_scheduleCallback flags s priorityLevel callback options).1.expirationTime =
      (unstable_scheduleCallback flags s priorityLevel callback options).1.startTime
        + flags.normalPriorityTimeout ∧
    (unstable_scheduleCallback flags s priorityLevel callback options).1.priorityLevel
      = priorityLevel ∧
    (unstable_scheduleCallback flags s priorityLevel callback options).1.priorityLevel
      ≠ NormalPriority := by
  have e1 := scheduleTimeout_unrecognised flags priorityLevel h1 h2 h4 h5
  have e2 : scheduleTimeout flags NormalPriority = flags.normalPriorityTimeout := rfl
  rw [scheduleCallback_fst, scheduleCallback_fst]
  simp only [scheduleNewTask, e1, e2]
  exact ⟨trivial, trivial, trivial, h3⟩

/-- C13 fails on the code. Submitted with the level 0 (`NoPriority`, none of the
five levels of the switch), a task gets the Normal timeout but keeps the level 0
in its `priorityLevel` field, so it is not the task that a Normal-priority
submission creates, and `workLoop` makes 0 the current priority level when it
runs the callback; `unstable_runWithPriority`, given the same level, runs its
handler at `NormalPriority`. -/
theorem scheduleCallback_keeps_raw_level :
    (unstable_scheduleCallback ⟨false, 5, 250, 10000, 5000, true, false⟩
        (init ⟨false, 5, 250, 10000, 5000, true, false⟩ 0) NoPriority 9 none).1.priorityLevel
      = NoPriority ∧
    (unstable_scheduleCallback ⟨false, 5, 250, 10000, 5000, true, false⟩
        (init ⟨false, 5, 250, 10000, 5000, true, false⟩ 0) NoPriority 9 none).1.expirationTime
      = 0 + 5000 ∧
    (unstable_scheduleCallback ⟨false, 5, 250, 10000, 5000, true, false⟩
        (init ⟨false, 5, 250, 10000, 5000, true, false⟩ 0) NoPriority 9 none).1
      ≠ (unstable_scheduleCallback ⟨false, 5, 250, 10000, 5000, true, false⟩
        (init ⟨false, 5, 250, 10000, 5000, true, false⟩ 0) NormalPriority 9 none).1 ∧
    (workLoop ⟨false, 5, 250, 10000, 5000, true, false⟩ (fun _ _ _ => ⟨[], .done⟩) 2
      (unstable_scheduleCallback ⟨false, 5, 250, 10000, 5000, true, false⟩
        (init ⟨false, 5, 250, 10000, 5000, true, false⟩ 0) NoPriority 9 none).2
      0).1.currentPriorityLevel = NoPriority ∧
    (workLoop ⟨false, 5, 250, 10000, 5000, true, false⟩ (fun _ _ _ => ⟨[], .done⟩) 2
      (unstable_scheduleCallback ⟨false, 5, 250, 10000, 5000, true, false⟩
        (init ⟨false, 5, 250, 10000, 5000, true, false⟩ 0) NoPriority 9 none).2
      0).1.invoked = [⟨1, 9, false⟩] ∧
    (unstable_runWithPriority (init ⟨false, 5, 250, 10000, 5000, true, false⟩ 0) NoPriority
      (fun st => (st, Except.ok st.currentPriorityLevel))).2 = Except.ok NormalPriority :=
  ⟨by decide, by decide, by decide, by decide, by decide, rfl⟩

theorem runWithPriorityLevel_spec (priorityLevel : Int) :
    ((priorityLevel = ImmediatePriority ∨ priorityLevel = UserBlockingPriority
      ∨ priorityLevel = NormalPriority ∨ priorityLevel = LowPriority
      ∨ priorityLevel = IdlePriority) → runWithPriorityLevel priorityLevel = priorityLevel) ∧
    (¬ (priorityLevel = ImmediatePriority ∨ priorityLevel = UserBlockingPriority
      ∨ priorityLevel = NormalPriority ∨ priorityLevel = LowPriority
      ∨ priorityLevel = IdlePriority) → runWithPriorityLevel priorityLevel = NormalPriority) := by
  unfold runWithPriorityLevel
  constructor
  · intro h
    rw [if_pos h]
  · intro h
    rw [if_neg h]

/-- C18. For every priority level `p`, every function `fn` and every prior
scheduler state, `unstable_runWithPriority(p, fn)` runs `fn` in a state where
`unstable_getCurrentPriorityLevel()` is `p` (Normal when `p` is not one of the
five recognised levels), returns the result of `fn` (or throws what it throws),
and on exit, whether `fn` returns or throws, the current priority level is what
it was before the call. -/
theorem runWithPriority_spec {α : Type} (s : State) (priorityLevel : PriorityLevel)
    (eventHandler : State → State × Except Nat α) :
    (∃ s0 : State, unstable_getCurrentPriorityLevel s0 = runWithPriorityLevel priorityLevel ∧
      s0 = { s with currentPriorityLevel := runWithPriorityLevel priorityLevel } ∧
      (unstable_runWithPriority s priorityLevel eventHandler).2 = (eventHandler s0).2 ∧
      (unstable_runWithPriority s priorityLevel eventHandler).1
        = { (eventHandler s0).1 with currentPriorityLevel := s.currentPriorityLevel }) ∧
    ((priorityLevel = ImmediatePriority ∨ priorityLevel = UserBlockingPriority
      ∨ priorityLevel = NormalPriority ∨ priorityLevel = LowPriority
      ∨ priorityLevel = IdlePriority) → runWithPriorityLevel priorityLevel = priorityLevel) ∧
    (¬ (priorityLevel = ImmediatePriority ∨ priorityLevel = UserBlockingPriority
      ∨ priorityLevel = NormalPriority ∨ priorityLevel = LowPriority
      ∨ priorityLevel = IdlePriority) → runWithPriorityLevel priorityLevel = NormalPriority) ∧
    unstable_getCurrentPriorityLevel (unstable_runWithPriority s priorityLevel eventHandler).1
      = unstable_getCurrentPriorityLevel s :=
  ⟨⟨{ s with currentPriorityLevel := runWithPriorityLevel priorityLevel }, rfl, rfl, rfl, rfl⟩,
    (runWithPriorityLevel_spec priorityLevel).1,
    (runWithPriorityLevel_spec priorityLevel).2, rfl⟩

end Scheduler

/-! ## The scheduler: timed requests to the host -/

namespace Scheduler

open SchedulerMinHeap SchedulerPriorities

/-- C12 fails on the code. Submit a delayed task A (delay 100) and a ready task
C, flush, then submit a delayed task B (delay 50): the timed request made at
the end of `workLoop` for A is still pending (it was made without setting
`isHostTimeoutScheduled`) when `unstable_scheduleCallback` makes a second one
for B, so two timed requests are pending with the host. -/
theorem two_pending_host_timeouts :
    (runSchedulerOps ⟨false, 5, 250, 10000, 5000, true, false⟩ (fun _ _ _ => ⟨[], .done⟩)
      [.scheduleCallback NormalPriority 10 (some 100),
       .scheduleCallback NormalPriority 11 none,
       .flushWork 5 0,
       .scheduleCallback NormalPriority 12 (some 50)]
      (init ⟨false, 5, 250, 10000, 5000, true, false⟩ 0)).hostTimeouts = [(1, 100), (2, 50)] ∧
    (runSchedulerOps ⟨false, 5, 250, 10000, 5000, true, false⟩ (fun _ _ _ => ⟨[], .done⟩)
      [.scheduleCallback NormalPriority 10 (some 100),
       .scheduleCallback NormalPriority 11 none,
       .flushWork 5 0]
      (init ⟨false, 5, 250, 10000, 5000, true, false⟩ 0)).isHostTimeoutScheduled = false ∧
    (runSchedulerOps ⟨false, 5, 250, 10000, 5000, true, false⟩ (fun _ _ _ => ⟨[], .done⟩)
      [.scheduleCallback NormalPriority 10 (some 100),
       .scheduleCallback NormalPriority 11 none,
       .flushWork 5 0]
      (init ⟨false, 5, 250, 10000, 5000, true, false⟩ 0)).hostTimeouts = [(1, 100)] := by
  decide

end Scheduler

/-! ## The scheduler: the work loop and cancellation -/

namespace Scheduler

open SchedulerMinHeap SchedulerPriorities

/-- An induction principle for the loop of `workLoop`. `Inv` holds at the top of
every iteration, `Mid t` after the call of the callback of the task `t`, `Post`
when the loop ends, and `Rel` relates the state at the top of the first
iteration to every later state. -/
theorem workLoopLoop_induction (flags : SchedulerFeatureFlags) (run : Callbacks)
    (Inv : State → Prop) (Mid : Task → State → Prop) (Post : State → Completion → Prop)
    (Rel : State → State → Prop)
    (hrefl : ∀ s, Rel s s) (htrans : ∀ a b c, Rel a b → Rel b c → Rel a c)
    (hfuel : ∀ s, Inv s → Post s Completion.outOfFuel)
    (hreturn : ∀ s ct, Inv s →
      Post (workLoopReturn s ct).1 (workLoopReturn s ct).2 ∧ Rel s (workLoopReturn s ct).1)
    (hcall : ∀ s t cb ct, Inv s → s.currentTask = some t → t.callback = some cb →
      Mid t (callCallback flags run s t cb ct).1 ∧ Rel s (callCallback flags run s t cb ct).1)
    (hthrow : ∀ t s1 e, Mid t s1 → Post s1 (Completion.threw e))
    (hcont : ∀ t s1 c, Mid t s1 →
      Post (advanceTimers flags (updateTask s1 t.id (fun t => { t with callback := some c }))
        s1.currentTime) (Completion.returned true) ∧
      Rel s1 (advanceTimers flags (updateTask s1 t.id (fun t => { t with callback := some c }))
        s1.currentTime))
    (hdone : ∀ t s1, Mid t s1 →
      Inv (nextTask (completeTask flags s1 t s1.currentTime)) ∧
      Rel s1 (nextTask (completeTask flags s1 t s1.currentTime)))
    (hskip : ∀ s t, Inv s → s.currentTask = some t → t.callback = none →
      Inv (nextTask (popTask s)) ∧ Rel s (nextTask (popTask s))) :
    ∀ (fuel : Nat) (s : State) (ct : Int), Inv s →
      Post (workLoopLoop flags run fuel s ct).1 (workLoopLoop flags run fuel s ct).2 ∧
      Rel s (workLoopLoop flags run fuel s ct).1 := by
  intro fuel
  induction fuel with
  | zero =>
    intro s ct hinv
    exact ⟨hfuel s hinv, hrefl s⟩
  | succ fuel ih =>
    intro s ct hinv
    rw [workLoopLoop]
    cases hcur : s.currentTask with
    | none => exact hreturn s ct hinv
    | some t =>
      simp only []
      by_cases hgate : (!flags.enableAlwaysYieldScheduler) = true ∧ t.expirationTime > ct ∧
          shouldYieldToHost flags s = true
      · rw [if_pos hgate]
        exact hreturn s ct hinv
      · rw [if_neg hgate]
        cases hcb : t.callback with
        | none =>
          simp only []
          have hs := hskip s t hinv hcur hcb
          by_cases hy : (flags.enableAlwaysYieldScheduler &&
              nullOrNotExpired (nextTask (popTask s)).currentTask ct) = true
          · rw [if_pos hy]
            have r := hreturn _ ct hs.1
            exact ⟨r.1, htrans _ _ _ hs.2 r.2⟩
          · rw [if_neg hy]
            have r := ih _ ct hs.1
            exact ⟨r.1, htrans _ _ _ hs.2 r.2⟩
        | some cb =>
          simp only []
          have hc := hcall s t cb ct hinv hcur hcb
          cases hres : (callCallback flags run s t cb ct).2 with
          | throw e =>
            simp only []
            exact ⟨hthrow t _ e hc.1, hc.2⟩
          | continuation c =>
            simp only []
            have r := hcont t _ c hc.1
            exact ⟨r.1, htrans _ _ _ hc.2 r.2⟩
          | done =>
            simp only []
            have hd := hdone t _ hc.1
            by_cases hy : (flags.enableAlwaysYieldScheduler &&
                nullOrNotExpired
                  (nextTask (completeTask flags (callCallback flags run s t cb ct).1 t
                    (callCallback flags run s t cb ct).1.currentTime)).currentTask
                  (callCallback flags run s t cb ct).1.currentTime) = true
            · rw [if_pos hy]
              have r := hreturn _ (callCallback flags run s t cb ct).1.currentTime hd.1
              exact ⟨r.1, htrans _ _ _ hc.2 (htrans _ _ _ hd.2 r.2)⟩
            · rw [if_neg hy]
              have r := ih _ (callCallback flags run s t cb ct).1.currentTime hd.1
              exact ⟨r.1, htrans _ _ _ hc.2 (htrans _ _ _ hd.2 r.2)⟩


theorem invokedOthers_refl (id : Int) (s : State) : InvokedOthers id s s :=
  ⟨[], by simp, by simp⟩

theorem invokedOthers_of_eq (id : Int) (s s' : State) (h : s'.invoked = s.invoked) :
    InvokedOthers id s s' :=
  ⟨[], by simp [h], by simp⟩

theorem invokedOthers_trans (id : Int) (s s1 s2 : State) (h1 : InvokedOthers id s s1)
    (h2 : InvokedOthers id s1 s2) : InvokedOthers id s s2 := by
  obtain ⟨n1, e1, p1⟩ := h1
  obtain ⟨n2, e2, p2⟩ := h2
  refine ⟨n1 ++ n2, by rw [e2, e1, List.append_assoc], ?_⟩
  intro i hi
  rcases List.mem_append.mp hi with h | h
  · exact p1 i h
  · exact p2 i h

/-- A write to the task `id'` keeps the task `id` cancelled when it keeps the
identifiers and does not give the task `id` a callback. -/
theorem updateTask_cancelledInv (id : Int) (b : Bool) (s : State) (id' : Int) (f : Task → Task)
    (hfid : ∀ t, (f t).id = t.id)
    (hf : ∀ t, t.id = id' → t.id = id → t.callback = none → (f t).callback = none)
    (h : CancelledInv id b s) : CancelledInv id b (updateTask s id' f) := by
  obtain ⟨h1, h2, h3, h4, h5⟩ := h
  have key : ∀ t : Task, (t.id = id → t.callback = none) →
      (if t.id = id' then f t else t).id = id → (if t.id = id' then f t else t).callback = none := by
    intro t ht
    by_cases e : t.id = id'
    · simp only [e, if_true]
      intro e2
      rw [hfid, e] at e2
      exact hf t e (e.trans e2) (ht (e.trans e2))
    · simp only [e, if_false]
      exact ht
  have keyid : ∀ t : Task, (if t.id = id' then f t else t).id = t.id := by
    intro t
    by_cases e : t.id = id'
    · simp only [e, if_true, hfid]
    · simp only [e, if_false]
  refine ⟨?_, ?_, ?_, h4, ?_⟩
  · intro t ht
    obtain ⟨u, hu, rfl⟩ := List.mem_map.mp ht
    exact key u (h1 u hu)
  · intro t ht
    obtain ⟨u, hu, rfl⟩ := List.mem_map.mp ht
    exact key u (h2 u hu)
  · intro t ht
    simp only [updateTask, Option.map_eq_some'] at ht
    obtain ⟨u, hu, rfl⟩ := ht
    exact key u (h3 u hu)
  · intro hb t ht
    obtain ⟨u, hu, rfl⟩ := List.mem_map.mp ht
    rw [keyid]
    exact h5 hb u hu

theorem updateTask_invoked (s : State) (id' : Int) (f : Task → Task) :
    (updateTask s id' f).invoked = s.invoked := rfl

/-- The fields that `unstable_scheduleCallback` leaves alone, and the counter. -/
theorem scheduleCallback_frame (flags : SchedulerFeatureFlags) (s : State)
    (priorityLevel : PriorityLevel) (callback : Callback) (options : Option Int) :
    (unstable_scheduleCallback flags s priorityLevel callback options).2.invoked = s.invoked ∧
    (unstable_scheduleCallback flags s priorityLevel callback options).2.currentTask
      = s.currentTask ∧
    (unstable_scheduleCallback flags s priorityLevel callback options).2.taskIdCounter
      = s.taskIdCounter + 1 ∧
    (unstable_scheduleCallback flags s priorityLevel callback options).2.currentTime
      = s.currentTime := by
  unfold unstable_scheduleCallback requestHostTimeout cancelHostTimeout requestHostCallback
  simp only []
  split_ifs <;> exact ⟨rfl, rfl, rfl, rfl⟩

theorem scheduleCallback_cancelledInv (flags : SchedulerFeatureFlags) (id : Int) (b : Bool)
    (s : State) (priorityLevel : PriorityLevel) (callback : Callback) (options : Option Int)
    (h : CancelledInv id b s) :
    CancelledInv id b (unstable_scheduleCallback flags s priorityLevel callback options).2 := by
  obtain ⟨h1, h2, h3, h4, h5⟩ := h
  obtain ⟨_, f2, f3, _⟩ := scheduleCallback_frame flags s priorityLevel callback options
  have hq := scheduleCallback_queues flags s priorityLevel callback options
  have hnew : (scheduleNewTask flags s priorityLevel callback options).id ≠ id := by
    show s.taskIdCounter ≠ id
    omega
  refine ⟨?_, ?_, ?_, ?_, ?_⟩
  · intro t ht
    by_cases hd : scheduleStartTime s.currentTime options > s.currentTime
    · rw [(hq.1 hd).2] at ht
      exact h1 t ht
    · rw [(hq.2 hd).1] at ht
      rcases List.mem_cons.mp ((push_perm_cons _ _).mem_iff.mp ht) with e | e
      · intro e2
        rw [e] at e2
        exact absurd e2 hnew
      · exact h1 t e
  · intro t ht
    by_cases hd : scheduleStartTime s.currentTime options > s.currentTime
    · rw [(hq.1 hd).1] at ht
      rcases List.mem_cons.mp ((push_perm_cons _ _).mem_iff.mp ht) with e | e
      · intro e2
        rw [e] at e2
        exact absurd e2 hnew
      · exact h2 t e
    · rw [(hq.2 hd).2] at ht
      exact h2 t ht
  · rw [f2]
    exact h3
  · rw [f3]
    omega
  · intro hb t ht
    by_cases hd : scheduleStartTime s.currentTime options > s.currentTime
    · rw [(hq.1 hd).2] at ht
      exact h5 hb t ht
    · rw [(hq.2 hd).1] at ht
      rcases List.mem_cons.mp ((push_perm_cons _ _).mem_iff.mp ht) with e | e
      · rw [e]
        exact hnew
      · exact h5 hb t e

theorem advanceTimers_cancelledInv (flags : SchedulerFeatureFlags) (id : Int) (b : Bool)
    (s : State) (currentTime : Int) (h : CancelledInv id b s) :
    CancelledInv id b (advanceTimers flags s currentTime) ∧
    (advanceTimers flags s currentTime).invoked = s.invoked := by
  obtain ⟨h1, h2, h3, h4, h5⟩ := h
  unfold advanceTimers
  obtain ⟨promoted, dropped, p1, p2, p3, p4⟩ :=
    advanceTimersLoop_queues flags currentTime s.timerQueue.length s
  have hfr := advanceTimersLoop_frame flags currentTime s.timerQueue.length s
  have hprom : ∀ t ∈ promoted.map (promote flags), t.id ≠ id := by
    intro t ht
    obtain ⟨u, hu, rfl⟩ := List.mem_map.mp ht
    intro e
    have hu2 : u ∈ s.timerQueue := p2.mem_iff.mpr (List.mem_append_left _ hu)
    exact (p3 u hu).1 (h2 u hu2 e)
  refine ⟨⟨?_, ?_, ?_, ?_, ?_⟩, ?_⟩
  · intro t ht
    rcases List.mem_append.mp (p1.mem_iff.mp ht) with e | e
    · intro e2
      exact absurd e2 (hprom t e)
    · exact h1 t e
  · intro t ht
    exact h2 t (p2.mem_iff.mpr (List.mem_append_right _ (List.mem_append_right _ ht)))
  · rw [hfr]
    exact h3
  · rw [hfr]
    exact h4
  · intro hb t ht
    rcases List.mem_append.mp (p1.mem_iff.mp ht) with e | e
    · exact hprom t e
    · exact h5 hb t e
  · rw [hfr]

/-- Replacing the task queue by a part of it keeps the task `id` cancelled. -/
theorem cancelledInv_of_subset (id : Int) (b : Bool) (s s' : State)
    (hq : ∀ t ∈ s'.taskQueue, t ∈ s.taskQueue) (ht : s'.timerQueue = s.timerQueue)
    (hc : ∀ t, s'.currentTask = some t → t.id = id → t.callback = none)
    (hn : s'.taskIdCounter = s.taskIdCounter)
    (h : CancelledInv id b s) : CancelledInv id b s' := by
  obtain ⟨h1, h2, _, h4, h5⟩ := h
  refine ⟨fun t m => h1 t (hq t m), ?_, hc, by rw [hn]; exact h4, fun hb t m => h5 hb t (hq t m)⟩
  rw [ht]
  exact h2

theorem mem_pop {T : Type} [DecidableEq T] [Node T] (heap : Heap T) (t : T)
    (h : t ∈ (pop heap).2) : t ∈ heap := by
  rcases peek_cases heap with ⟨_, he⟩ | ⟨first, _, h0⟩
  · rw [he] at h
    simp [pop_nil] at h
  · exact (pop_perm heap first h0).2.mem_iff.mp (List.mem_cons_of_mem _ h)

theorem mem_of_peek {T : Type} (heap : Heap T) (t : T) (h : peek heap = some t) : t ∈ heap := by
  rw [peek_eq] at h
  exact List.getElem?_mem h


/-- The invariant `CancelledInv` reads the two queues, the current task and the
counter only. -/
theorem cancelledInv_congr (id : Int) (b : Bool) (s s' : State)
    (h1 : s'.taskQueue = s.taskQueue) (h2 : s'.timerQueue = s.timerQueue)
    (h3 : s'.currentTask = s.currentTask) (h4 : s'.taskIdCounter = s.taskIdCounter)
    (h : CancelledInv id b s) : CancelledInv id b s' := by
  unfold CancelledInv at h ⊢
  rw [h1, h2, h3, h4]
  exact h

theorem cancelCallback_cancelledInv (flags : SchedulerFeatureFlags) (id : Int) (b : Bool)
    (s : State) (task : Int) (h : CancelledInv id b s) :
    CancelledInv id b (unstable_cancelCallback flags s task) :=
  updateTask_cancelledInv id b s task _ (fun _ => rfl) (fun _ _ _ _ => rfl) h

theorem requestPaint_fields (flags : SchedulerFeatureFlags) (s : State) :
    (requestPaint flags s).taskQueue = s.taskQueue ∧
    (requestPaint flags s).timerQueue = s.timerQueue ∧
    (requestPaint flags s).currentTask = s.currentTask ∧
    (requestPaint flags s).taskIdCounter = s.taskIdCounter ∧
    (requestPaint flags s).invoked = s.invoked := by
  unfold requestPaint
  split_ifs <;> exact ⟨rfl, rfl, rfl, rfl, rfl⟩

/-- A step of a callback keeps a cancelled task cancelled and invokes nothing. -/
theorem runStep_cancelledInv (flags : SchedulerFeatureFlags) (id : Int) (b : Bool)
    (s : State) (st : Step) (h : CancelledInv id b s) :
    CancelledInv id b (runStep flags s st) ∧ (runStep flags s st).invoked = s.invoked := by
  cases st with
  | elapse ms => exact ⟨cancelledInv_congr id b s _ rfl rfl rfl rfl h, rfl⟩
  | scheduleCallback p cb o =>
    exact ⟨scheduleCallback_cancelledInv flags id b s p cb o h,
      (scheduleCallback_frame flags s p cb o).1⟩
  | cancelCallback task => exact ⟨cancelCallback_cancelledInv flags id b s task h, rfl⟩
  | requestPaint =>
    obtain ⟨e1, e2, e3, e4, e5⟩ := requestPaint_fields flags s
    exact ⟨cancelledInv_congr id b s _ e1 e2 e3 e4 h, e5⟩

theorem foldl_runStep_cancelledInv (flags : SchedulerFeatureFlags) (id : Int) (b : Bool) :
    ∀ (steps : List Step) (s : State), CancelledInv id b s →
      CancelledInv id b (steps.foldl (runStep flags) s) ∧
      (steps.foldl (runStep flags) s).invoked = s.invoked := by
  intro steps
  induction steps with
  | nil => intro s h; exact ⟨h, rfl⟩
  | cons st steps ih =>
    intro s h
    have r := runStep_cancelledInv flags id b s st h
    have r2 := ih _ r.1
    exact ⟨r2.1, r2.2.trans r.2⟩

/-- The call of the callback of another task keeps a cancelled task cancelled;
the one invocation it records is not of the cancelled task. -/
theorem callCallback_cancelledInv (flags : SchedulerFeatureFlags) (run : Callbacks) (id : Int)
    (b : Bool) (s : State) (t : Task) (cb : Callback) (ct : Int) (h : CancelledInv id b s)
    (hcur : s.currentTask = some t) (hcb : t.callback = some cb) :
    (CancelledInv id b (callCallback flags run s t cb ct).1 ∧ t.id ≠ id) ∧
    InvokedOthers id s (callCallback flags run s t cb ct).1 := by
  have hne : t.id ≠ id := by
    intro e
    have := h.2.2.1 t hcur e
    rw [hcb] at this
    cases this
  have h1 : CancelledInv id b (updateTask s t.id (fun t => { t with callback := none })) :=
    updateTask_cancelledInv id b s t.id _ (fun _ => rfl) (fun _ _ _ _ => rfl) h
  unfold callCallback
  simp only []
  have r := foldl_runStep_cancelledInv flags id b
    (run cb (decide (t.expirationTime ≤ ct))
      { updateTask s t.id (fun t => { t with callback := none }) with
        currentPriorityLevel := t.priorityLevel }).steps
    { updateTask s t.id (fun t => { t with callback := none }) with
      currentPriorityLevel := t.priorityLevel,
      invoked := s.invoked ++ [⟨t.id, cb, decide (t.expirationTime ≤ ct)⟩] }
    (cancelledInv_congr id b _ _ rfl rfl rfl rfl h1)
  refine ⟨⟨r.1, hne⟩, [⟨t.id, cb, decide (t.expirationTime ≤ ct)⟩], r.2, ?_⟩
  intro i hi
  rw [List.mem_singleton.mp hi]
  exact hne

theorem nextTask_cancelledInv (id : Int) (b : Bool) (s : State) (h : CancelledInv id b s) :
    CancelledInv id b (nextTask s) := by
  obtain ⟨h1, h2, _, h4, h5⟩ := h
  refine ⟨h1, h2, ?_, h4, h5⟩
  intro t ht
  exact h1 t (mem_of_peek _ t ht)

theorem popTask_cancelledInv (id : Int) (b : Bool) (s : State) (h : CancelledInv id b s) :
    CancelledInv id b (popTask s) :=
  cancelledInv_of_subset id b s (popTask s) (fun t ht => mem_pop _ t ht) rfl h.2.2.1 rfl h

theorem completeTask_cancelledInv (flags : SchedulerFeatureFlags) (id : Int) (b : Bool)
    (s : State) (t : Task) (ct : Int) (h : CancelledInv id b s) :
    CancelledInv id b (completeTask flags s t ct) ∧
    (completeTask flags s t ct).invoked = s.invoked := by
  unfold completeTask
  simp only []
  have h1 : CancelledInv id b (if flags.enableProfiling = true then
      updateTask s t.id (fun t => { t with isQueued := some false }) else s) := by
    split_ifs
    · exact updateTask_cancelledInv id b s t.id _ (fun _ => rfl) (fun _ _ _ hc => hc) h
    · exact h
  have e1 : (if flags.enableProfiling = true then
      updateTask s t.id (fun t => { t with isQueued := some false }) else s).invoked
      = s.invoked := by
    split_ifs <;> rfl
  generalize (if flags.enableProfiling = true then
      updateTask s t.id (fun t => { t with isQueued := some false }) else s) = s1 at h1 e1
  have h2 : CancelledInv id b (if Option.map Task.id (peek s1.taskQueue) = some t.id
      then popTask s1 else s1) := by
    split_ifs
    · exact popTask_cancelledInv id b s1 h1
    · exact h1
  have e2 : (if Option.map Task.id (peek s1.taskQueue) = some t.id
      then popTask s1 else s1).invoked = s1.invoked := by
    split_ifs <;> rfl
  have r := advanceTimers_cancelledInv flags id b _ ct h2
  exact ⟨r.1, r.2.trans (e2.trans e1)⟩

theorem workLoopReturn_fields (s : State) (ct : Int) :
    (workLoopReturn s ct).1.taskQueue = s.taskQueue ∧
    (workLoopReturn s ct).1.timerQueue = s.timerQueue ∧
    (workLoopReturn s ct).1.currentTask = s.currentTask ∧
    (workLoopReturn s ct).1.taskIdCounter = s.taskIdCounter ∧
    (workLoopReturn s ct).1.invoked = s.invoked := by
  unfold workLoopReturn requestHostTimeout
  split_ifs
  · exact ⟨rfl, rfl, rfl, rfl, rfl⟩
  · split <;> exact ⟨rfl, rfl, rfl, rfl, rfl⟩

/-- The loop of `workLoop` keeps a cancelled task cancelled and never invokes
it, whatever the callbacks do and whatever the fuel. -/
theorem workLoopLoop_cancelledInv (flags : SchedulerFeatureFlags) (run : Callbacks) (id : Int)
    (b : Bool) (fuel : Nat) (s : State) (ct : Int) (h : CancelledInv id b s) :
    CancelledInv id b (workLoopLoop flags run fuel s ct).1 ∧
    InvokedOthers id s (workLoopLoop flags run fuel s ct).1 := by
  refine workLoopLoop_induction flags run (CancelledInv id b)
    (fun t s1 => CancelledInv id b s1 ∧ t.id ≠ id) (fun s1 _ => CancelledInv id b s1)
    (InvokedOthers id) (invokedOthers_refl id) (invokedOthers_trans id) (fun _ h => h)
    ?_ ?_ (fun _ _ _ h => h.1) ?_ ?_ ?_ fuel s ct h
  · intro s ct h
    obtain ⟨e1, e2, e3, e4, e5⟩ := workLoopReturn_fields s ct
    exact ⟨cancelledInv_congr id b s _ e1 e2 e3 e4 h, invokedOthers_of_eq id _ _ e5⟩
  · intro s t cb ct h hcur hcb
    exact callCallback_cancelledInv flags run id b s t cb ct h hcur hcb
  · intro t s1 c h
    have h1 : CancelledInv id b (updateTask s1 t.id (fun t => { t with callback := some c })) :=
      updateTask_cancelledInv id b s1 t.id _ (fun _ => rfl)
        (fun u hu hu2 _ => absurd (hu.symm.trans hu2) h.2) h.1
    have r := advanceTimers_cancelledInv flags id b _ s1.currentTime h1
    exact ⟨r.1, invokedOthers_of_eq id _ _ r.2⟩
  · intro t s1 h
    have r := completeTask_cancelledInv flags id b s1 t s1.currentTime h.1
    exact ⟨nextTask_cancelledInv id b _ r.1, invokedOthers_of_eq id _ _ r.2⟩
  · intro s t h _ _
    exact ⟨nextTask_cancelledInv id b _ (popTask_cancelledInv id b s h),
      invokedOthers_of_eq id _ _ rfl⟩

theorem flushWorkEntry_task (s : State) :
    (flushWorkEntry s).currentTask = s.currentTask := by
  unfold flushWorkEntry cancelHostTimeout
  simp only []
  split_ifs <;> rfl

theorem workLoop_cancelledInv (flags : SchedulerFeatureFlags) (run : Callbacks) (id : Int)
    (b : Bool) (fuel : Nat) (s : State) (ct : Int) (h : CancelledInv id b s) :
    CancelledInv id b (workLoop flags run fuel s ct).1 ∧
    InvokedOthers id s (workLoop flags run fuel s ct).1 := by
  unfold workLoop
  have r0 := advanceTimers_cancelledInv flags id b s ct h
  have r := workLoopLoop_cancelledInv flags run id b fuel _ ct
    (nextTask_cancelledInv id b _ r0.1)
  exact ⟨r.1, invokedOthers_trans id _ _ _ (invokedOthers_of_eq id s _ r0.2) r.2⟩

/-- A flush keeps a cancelled task cancelled and never invokes it. -/
theorem flushWork_cancelledInv (flags : SchedulerFeatureFlags) (run : Callbacks) (id : Int)
    (b : Bool) (fuel : Nat) (s : State) (ct : Int) (h : CancelledInv id b s) :
    CancelledInv id b (flushWork flags run fuel s ct).1 ∧
    InvokedOthers id s (flushWork flags run fuel s ct).1 := by
  obtain ⟨e1, e2, e3, _, _, _, _, e4⟩ := flushWorkEntry_queues s
  have h0 : CancelledInv id b (flushWorkEntry s) :=
    cancelledInv_congr id b s _ e1 e2 (flushWorkEntry_task s) e4 h
  have r := workLoop_cancelledInv flags run id b fuel _ ct h0
  have r2 : InvokedOthers id s (workLoop flags run fuel (flushWorkEntry s) ct).1 := by
    obtain ⟨new, hn, hp⟩ := r.2
    exact ⟨new, by rw [hn, e3], hp⟩
  unfold flushWork
  simp only []
  generalize workLoop flags run fuel (flushWorkEntry s) ct = w at r r2
  obtain ⟨s1, c⟩ := w
  cases c with
  | outOfFuel => exact ⟨r.1, r2⟩
  | returned hasMore =>
    simp only []
    obtain ⟨h1, h2, _, h4, h5⟩ := r.1
    exact ⟨⟨h1, h2, (fun t ht => (by cases ht)), h4, h5⟩, r2⟩
  | threw e =>
    simp only []
    have h3 : CancelledInv id b (if flags.enableProfiling = true then
        match s1.currentTask with
        | some t => updateTask s1 t.id (fun t => { t with isQueued := some false })
        | none => s1
      else s1) := by
      split_ifs
      · split
        · exact updateTask_cancelledInv id b s1 _ _ (fun _ => rfl) (fun _ _ _ hc => hc) r.1
        · exact r.1
      · exact r.1
    have e5 : (if flags.enableProfiling = true then
        match s1.currentTask with
        | some t => updateTask s1 t.id (fun t => { t with isQueued := some false })
        | none => s1
      else s1).invoked = s1.invoked := by
      split_ifs
      · split <;> rfl
      · rfl
    obtain ⟨h1, h2, _, h4, h5⟩ := h3
    refine ⟨⟨h1, h2, (fun t ht => (by cases ht)), h4, h5⟩, ?_⟩
    obtain ⟨new, hn, hp⟩ := r2
    exact ⟨new, e5.trans hn, hp⟩

theorem handleTimeout_cancelledInv (flags : SchedulerFeatureFlags) (id : Int) (b : Bool)
    (s : State) (ct : Int) (h : CancelledInv id b s) :
    CancelledInv id b (handleTimeout flags s ct) ∧ (handleTimeout flags s ct).invoked = s.invoked := by
  have r := advanceTimers_cancelledInv flags id b { s with isHostTimeoutScheduled := false } ct
    (cancelledInv_congr id b s _ rfl rfl rfl rfl h)
  unfold handleTimeout
  simp only []
  generalize advanceTimers flags { s with isHostTimeoutScheduled := false } ct = s1 at r
  unfold requestHostCallback requestHostTimeout
  split_ifs
  · exact ⟨cancelledInv_congr id b s1 _ rfl rfl rfl rfl r.1, r.2⟩
  · exact ⟨cancelledInv_congr id b s1 _ rfl rfl rfl rfl r.1, r.2⟩
  · split
    · exact ⟨cancelledInv_congr id b s1 _ rfl rfl rfl rfl r.1, r.2⟩
    · exact r
  · exact r

/-- Every operation keeps a cancelled task cancelled and never invokes it. -/
theorem applySchedulerOp_cancelledInv (flags : SchedulerFeatureFlags) (run : Callbacks)
    (id : Int) (b : Bool) (s : State) (op : SchedulerOp) (h : CancelledInv id b s) :
    CancelledInv id b (applySchedulerOp flags run s op) ∧
    InvokedOthers id s (applySchedulerOp flags run s op) := by
  cases op with
  | advanceTimers ct =>
    have r := advanceTimers_cancelledInv flags id b s ct h
    exact ⟨r.1, invokedOthers_of_eq id _ _ r.2⟩
  | handleTimeout ct =>
    have r := handleTimeout_cancelledInv flags id b s ct h
    exact ⟨r.1, invokedOthers_of_eq id _ _ r.2⟩
  | flushWork fuel ct => exact flushWork_cancelledInv flags run id b fuel s ct h
  | scheduleCallback p cb o =>
    exact ⟨scheduleCallback_cancelledInv flags id b s p cb o h,
      invokedOthers_of_eq id _ _ (scheduleCallback_frame flags s p cb o).1⟩
  | cancelCallback task =>
    exact ⟨cancelCallback_cancelledInv flags id b s task h, invokedOthers_of_eq id _ _ rfl⟩
  | requestPaint =>
    obtain ⟨e1, e2, e3, e4, e5⟩ := requestPaint_fields flags s
    exact ⟨cancelledInv_congr id b s _ e1 e2 e3 e4 h, invokedOthers_of_eq id _ _ e5⟩
  | elapse ms =>
    exact ⟨cancelledInv_congr id b s _ rfl rfl rfl rfl h, invokedOthers_of_eq id _ _ rfl⟩

theorem runSchedulerOps_cancelledInv (flags : SchedulerFeatureFlags) (run : Callbacks)
    (id : Int) (b : Bool) (ops : List SchedulerOp) :
    ∀ (s : State), CancelledInv id b s →
      CancelledInv id b (runSchedulerOps flags run ops s) ∧
      InvokedOthers id s (runSchedulerOps flags run ops s) := by
  induction ops with
  | nil => intro s h; exact ⟨h, invokedOthers_refl id s⟩
  | cons op ops ih =>
    intro s h
    have r := applySchedulerOp_cancelledInv flags run id b s op h
    have r2 := ih _ r.1
    exact ⟨r2.1, invokedOthers_trans id _ _ _ r.2 r2.2⟩

/-- Cancelling a task whose identifier was given out by the counter establishes
`CancelledInv`. -/
theorem cancelCallback_establishes (flags : SchedulerFeatureFlags) (s : State) (id : Int)
    (hid : id < s.taskIdCounter) (b : Bool) (hb : b = false → ∀ t ∈ s.taskQueue, t.id ≠ id) :
    CancelledInv id b (unstable_cancelCallback flags s id) := by
  have key : ∀ t : Task, (if t.id = id then
      ({ t with isQueued := if flags.enableProfiling = true ∧ t.isQueued = some true
          then some false else t.isQueued, callback := none } : Task) else t).id = id →
      (if t.id = id then
      ({ t with isQueued := if flags.enableProfiling = true ∧ t.isQueued = some true
          then some false else t.isQueued, callback := none } : Task) else t).callback = none := by
    intro t
    by_cases e : t.id = id
    · simp only [e, if_true]
      intro _
      trivial
    · simp only [e, if_false]
      intro e2
      exact e2.elim
  have keyid : ∀ t : Task, (if t.id = id then
      ({ t with isQueued := if flags.enableProfiling = true ∧ t.isQueued = some true
          then some false else t.isQueued, callback := none } : Task) else t).id = t.id := by
    intro t
    by_cases e : t.id = id
    · simp only [e, if_true]
    · simp only [e, if_false]
  unfold unstable_cancelCallback updateTask
  refine ⟨?_, ?_, ?_, hid, ?_⟩
  · intro t ht
    obtain ⟨u, _, rfl⟩ := List.mem_map.mp ht
    exact key u
  · intro t ht
    obtain ⟨u, _, rfl⟩ := List.mem_map.mp ht
    exact key u
  · intro t ht
    simp only [Option.map_eq_some'] at ht
    obtain ⟨u, _, rfl⟩ := ht
    exact key u
  · intro hb2 t ht
    obtain ⟨u, hu, rfl⟩ := List.mem_map.mp ht
    rw [keyid]
    exact hb hb2 u hu

/-- C7. A task that is cancelled (from outside a callback, its identifier having
been given out by the counter) is never invoked afterwards: for every later
sequence of `advanceTimers`, `handleTimeout`, `flushWork`,
`unstable_scheduleCallback`, `unstable_cancelCallback` calls, whatever the
callbacks do, the record of invocations is the record at the time of the
cancellation followed by invocations of other tasks only; every copy of the
task left in a queue still has a null callback, so `workLoop` and
`advanceTimers` can only pop and discard it; and a task cancelled while it was
not in the task queue never enters the task queue. -/
theorem cancelled_task_never_invoked (flags : SchedulerFeatureFlags) (run : Callbacks)
    (s : State) (id : Int) (hid : id < s.taskIdCounter) (ops : List SchedulerOp) :
    (∃ new, (runSchedulerOps flags run ops (unstable_cancelCallback flags s id)).invoked
        = s.invoked ++ new ∧ ∀ i ∈ new, i.task ≠ id) ∧
    (∀ t ∈ (runSchedulerOps flags run ops (unstable_cancelCallback flags s id)).taskQueue,
      t.id = id → t.callback = none) ∧
    (∀ t ∈ (runSchedulerOps flags run ops (unstable_cancelCallback flags s id)).timerQueue,
      t.id = id → t.callback = none) ∧
    ((∀ t ∈ s.taskQueue, t.id ≠ id) →
      ∀ t ∈ (runSchedulerOps flags run ops (unstable_cancelCallback flags s id)).taskQueue,
        t.id ≠ id) := by
  have h1 := cancelCallback_establishes flags s id hid true (by simp)
  have r := runSchedulerOps_cancelledInv flags run id true ops _ h1
  refine ⟨r.2, r.1.1, r.1.2.1, ?_⟩
  intro hnot
  have h2 := cancelCallback_establishes flags s id hid false (fun _ => hnot)
  exact (runSchedulerOps_cancelledInv flags run id false ops _ h2).1.2.2.2.2 rfl

/-- C7, at a state with a ready task 1 and a delayed task 2: task 2 is cancelled,
then the clock passes its start time and the scheduler is flushed. -/
theorem cancelled_task_never_invoked_witness :
    ∃ new, (runSchedulerOps ⟨false, 5, 250, 10000, 5000, true, false⟩
        (fun _ _ _ => ⟨[.elapse 1], .done⟩)
        [.elapse 100, .flushWork 5 100]
        (unstable_cancelCallback ⟨false, 5, 250, 10000, 5000, true, false⟩
          { init ⟨false, 5, 250, 10000, 5000, true, false⟩ 0 with
            taskQueue := [⟨1, some 7, 3, 0, 5000, 5000, none⟩],
            timerQueue := [⟨2, some 8, 3, 50, 5050, 50, none⟩],
            taskIdCounter := 3 } 2)).invoked
      = [] ++ new ∧ ∀ i ∈ new, i.task ≠ 2 :=
  (cancelled_task_never_invoked ⟨false, 5, 250, 10000, 5000, true, false⟩
    (fun _ _ _ => ⟨[.elapse 1], .done⟩)
    { init ⟨false, 5, 250, 10000, 5000, true, false⟩ 0 with
      taskQueue := [⟨1, some 7, 3, 0, 5000, 5000, none⟩],
      timerQueue := [⟨2, some 8, 3, 50, 5050, 50, none⟩],
      taskIdCounter := 3 } 2 (by decide) [.elapse 100, .flushWork 5 100]).1

end Scheduler

/-! ## The scheduler: the return value of the work loop -/

namespace Scheduler

open SchedulerMinHeap SchedulerPriorities

theorem push_ne_nil {T : Type} [Node T] (heap : Heap T) (node : T) : push heap node ≠ [] := by
  intro e
  have := (push_perm_cons heap node).length_eq
  rw [e] at this
  simp at this

theorem runStep_taskQueue_ne_nil (flags : SchedulerFeatureFlags) (s : State) (st : Step)
    (h : s.taskQueue ≠ []) : (runStep flags s st).taskQueue ≠ [] := by
  cases st with
  | elapse ms => exact h
  | scheduleCallback p cb o =>
    have hq := scheduleCallback_queues flags s p cb o
    by_cases hd : scheduleStartTime s.currentTime o > s.currentTime
    · show (unstable_scheduleCallback flags s p cb o).2.taskQueue ≠ []
      rw [(hq.1 hd).2]
      exact h
    · show (unstable_scheduleCallback flags s p cb o).2.taskQueue ≠ []
      rw [(hq.2 hd).1]
      exact push_ne_nil _ _
  | cancelCallback task =>
    show (List.map _ s.taskQueue) ≠ []
    simpa using h
  | requestPaint =>
    show (requestPaint flags s).taskQueue ≠ []
    rw [(requestPaint_fields flags s).1]
    exact h

theorem foldl_runStep_taskQueue_ne_nil (flags : SchedulerFeatureFlags) :
    ∀ (steps : List Step) (s : State), s.taskQueue ≠ [] →
      (steps.foldl (runStep flags) s).taskQueue ≠ [] := by
  intro steps
  induction steps with
  | nil => intro s h; exact h
  | cons st steps ih =>
    intro s h
    exact ih _ (runStep_taskQueue_ne_nil flags s st h)

theorem callCallback_taskQueue_ne_nil (flags : SchedulerFeatureFlags) (run : Callbacks)
    (s : State) (t : Task) (cb : Callback) (ct : Int) (h : s.taskQueue ≠ []) :
    (callCallback flags run s t cb ct).1.taskQueue ≠ [] := by
  unfold callCallback
  simp only []
  apply foldl_runStep_taskQueue_ne_nil
  show (List.map _ s.taskQueue) ≠ []
  simpa using h

theorem advanceTimers_taskQueue_ne_nil (flags : SchedulerFeatureFlags) (s : State) (ct : Int)
    (h : s.taskQueue ≠ []) : (advanceTimers flags s ct).taskQueue ≠ [] := by
  unfold advanceTimers
  obtain ⟨promoted, dropped, p1, _, _, _⟩ :=
    advanceTimersLoop_queues flags ct s.timerQueue.length s
  intro e
  have := p1.length_eq
  rw [e] at this
  have hl : 0 < s.taskQueue.length := List.length_pos.mpr h
  simp at this
  omega

theorem peek_eq_none_iff {T : Type} (heap : Heap T) : peek heap = none ↔ heap = [] := by
  rcases peek_cases heap with ⟨h1, h2⟩ | ⟨first, h1, h2⟩
  · exact ⟨fun _ => h2, fun _ => h1⟩
  · constructor
    · intro h
      rw [h1] at h
      cases h
    · intro h
      rw [h] at h2
      simp at h2

/-- The loop of `workLoop`, entered with `currentTask` the root of the task
queue, returns true exactly when it leaves the task queue non-empty. -/
theorem workLoopLoop_returns (flags : SchedulerFeatureFlags) (run : Callbacks) (fuel : Nat)
    (s : State) (ct : Int) (h : s.currentTask = peek s.taskQueue) :
    ∀ b, (workLoopLoop flags run fuel s ct).2 = Completion.returned b →
      (b = true ↔ (workLoopLoop flags run fuel s ct).1.taskQueue ≠ []) := by
  refine (workLoopLoop_induction flags run (fun s => s.currentTask = peek s.taskQueue)
    (fun _ s1 => s1.taskQueue ≠ [])
    (fun s1 c => ∀ b, c = Completion.returned b → (b = true ↔ s1.taskQueue ≠ []))
    (fun _ _ => True) (fun _ => trivial) (fun _ _ _ _ _ => trivial)
    ?_ ?_ ?_ ?_ ?_ ?_ ?_ fuel s ct h).1
  · intro s _ b hb
    cases hb
  · intro s ct hinv
    refine ⟨?_, trivial⟩
    unfold workLoopReturn
    by_cases hc : s.currentTask ≠ none
    · rw [if_pos hc]
      intro b hb
      cases hb
      simp only [true_iff]
      intro e
      rw [hinv, (peek_eq_none_iff _).mpr e] at hc
      exact hc rfl
    · rw [if_neg hc]
      have hnil : s.taskQueue = [] := by
        rw [← peek_eq_none_iff, ← hinv]
        simpa using hc
      split
      · intro b hb
        cases hb
        simp [requestHostTimeout, hnil]
      · intro b hb
        cases hb
        simp [hnil]
  · intro s t cb ct hinv hcur _
    refine ⟨callCallback_taskQueue_ne_nil flags run s t cb ct ?_, trivial⟩
    intro e
    rw [hinv, (peek_eq_none_iff _).mpr e] at hcur
    cases hcur
  · intro _ _ e _ b hb
    cases hb
  · intro t s1 c hmid
    refine ⟨?_, trivial⟩
    intro b hb
    cases hb
    simp only [true_iff]
    apply advanceTimers_taskQueue_ne_nil
    show (List.map _ s1.taskQueue) ≠ []
    simpa using hmid
  · intro t s1 _
    exact ⟨rfl, trivial⟩
  · intro s t _ _ _
    exact ⟨rfl, trivial⟩

/-- C11. Whenever `workLoop` returns normally, it returns true if and only if
the task queue is non-empty at the moment it returns, and it returns false
exactly when the task queue is empty. -/
theorem workLoop_returns_more_work (flags : SchedulerFeatureFlags) (run : Callbacks)
    (fuel : Nat) (s : State) (initialTime : Int) (b : Bool)
    (hret : (workLoop flags run fuel s initialTime).2 = Completion.returned b) :
    (b = true ↔ (workLoop flags run fuel s initialTime).1.taskQueue ≠ []) ∧
    (b = false ↔ (workLoop flags run fuel s initialTime).1.taskQueue = []) := by
  have r : b = true ↔ (workLoop flags run fuel s initialTime).1.taskQueue ≠ [] :=
    workLoopLoop_returns flags run fuel (nextTask (advanceTimers flags s initialTime))
      initialTime rfl b hret
  refine ⟨r, ?_⟩
  cases b with
  | true =>
    have := r.mp rfl
    simp [this]
  | false =>
    simp only [true_iff]
    by_contra hne
    have := r.mpr hne
    cases this

/-- C11, at a state with two ready tasks and a host that signals a yield: one
task is left and `workLoop` returns true. -/
theorem workLoop_returns_more_work_witness :
    (true = true ↔
      (workLoop ⟨false, 5, 250, 10000, 5000, true, false⟩ (fun _ _ _ => ⟨[.elapse 10], .done⟩) 5
        { init ⟨false, 5, 250, 10000, 5000, true, false⟩ 0 with
          taskQueue := [⟨1, some 7, 3, 0, 5000, 5000, none⟩, ⟨2, some 8, 3, 0, 5000, 5000, none⟩],
          startTime := 0 } 0).1.taskQueue ≠ []) :=
  (workLoop_returns_more_work ⟨false, 5, 250, 10000, 5000, true, false⟩
    (fun _ _ _ => ⟨[.elapse 10], .done⟩) 5 _ 0 true (by decide)).1

end Scheduler

/-! ## The scheduler: expired tasks -/

namespace Scheduler

open SchedulerMinHeap SchedulerPriorities

theorem runStep_invoked (flags : SchedulerFeatureFlags) (s : State) (st : Step) :
    (runStep flags s st).invoked = s.invoked := by
  cases st with
  | elapse ms => rfl
  | scheduleCallback p cb o => exact (scheduleCallback_frame flags s p cb o).1
  | cancelCallback task => rfl
  | requestPaint => exact (requestPaint_fields flags s).2.2.2.2

theorem foldl_runStep_invoked (flags : SchedulerFeatureFlags) :
    ∀ (steps : List Step) (s : State), (steps.foldl (runStep flags) s).invoked = s.invoked := by
  intro steps
  induction steps with
  | nil => intro s; rfl
  | cons st steps ih =>
    intro s
    exact (ih _).trans (runStep_invoked flags s st)

/-- The call of a callback records exactly one invocation, whatever the
callback does. -/
theorem callCallback_invoked (flags : SchedulerFeatureFlags) (run : Callbacks) (s : State)
    (t : Task) (cb : Callback) (ct : Int) :
    (callCallback flags run s t cb ct).1.invoked
      = s.invoked ++ [⟨t.id, cb, decide (t.expirationTime ≤ ct)⟩] := by
  unfold callCallback
  simp only []
  rw [foldl_runStep_invoked]
  rfl

theorem advanceTimers_invoked (flags : SchedulerFeatureFlags) (s : State) (ct : Int) :
    (advanceTimers flags s ct).invoked = s.invoked := by
  unfold advanceTimers
  rw [advanceTimersLoop_frame flags ct s.timerQueue.length s]

theorem completeTask_invoked (flags : SchedulerFeatureFlags) (s : State) (t : Task) (ct : Int) :
    (completeTask flags s t ct).invoked = s.invoked := by
  unfold completeTask
  simp only []
  rw [advanceTimers_invoked]
  split_ifs <;> rfl

/-- The loop of `workLoop` only adds to the record of invocations. -/
theorem workLoopLoop_invoked_prefix (flags : SchedulerFeatureFlags) (run : Callbacks)
    (fuel : Nat) (s : State) (ct : Int) :
    s.invoked <+: (workLoopLoop flags run fuel s ct).1.invoked := by
  refine (workLoopLoop_induction flags run (fun _ => True) (fun _ _ => True) (fun _ _ => True)
    (fun a b => a.invoked <+: b.invoked) (fun _ => List.prefix_refl _)
    (fun _ _ _ h1 h2 => h1.trans h2) (fun _ _ => trivial)
    ?_ ?_ (fun _ _ _ _ => trivial) ?_ ?_ ?_ fuel s ct trivial).2
  · intro s ct _
    refine ⟨trivial, ?_⟩
    show _ <+: _
    rw [(workLoopReturn_fields s ct).2.2.2.2]
  · intro s t cb ct _ _ _
    refine ⟨trivial, ?_⟩
    show _ <+: _
    rw [callCallback_invoked]
    exact List.prefix_append _ _
  · intro t s1 c _
    refine ⟨trivial, ?_⟩
    show _ <+: _
    rw [advanceTimers_invoked]
    exact List.prefix_refl _
  · intro t s1 _
    refine ⟨trivial, ?_⟩
    show s1.invoked <+: (completeTask flags s1 t s1.currentTime).invoked
    rw [completeTask_invoked]
  · intro s t _ _ _
    exact ⟨trivial, List.prefix_refl _⟩

/-- An iteration of `workLoop` that does not break and finds a callback. -/
theorem workLoopLoop_call (flags : SchedulerFeatureFlags) (run : Callbacks) (fuel : Nat)
    (s : State) (ct : Int) (t : Task) (cb : Callback) (hcur : s.currentTask = some t)
    (hgate : ¬ ((!flags.enableAlwaysYieldScheduler) = true ∧ t.expirationTime > ct ∧
      shouldYieldToHost flags s = true))
    (hcb : t.callback = some cb) :
    workLoopLoop flags run (fuel + 1) s ct =
      match (callCallback flags run s t cb ct).2 with
      | .throw error => ((callCallback flags run s t cb ct).1, Completion.threw error)
      | .continuation c =>
        (advanceTimers flags
          (updateTask (callCallback flags run s t cb ct).1 t.id
            (fun t => { t with callback := some c }))
          (callCallback flags run s t cb ct).1.currentTime, Completion.returned true)
      | .done =>
        if flags.enableAlwaysYieldScheduler &&
            nullOrNotExpired
              (nextTask (completeTask flags (callCallback flags run s t cb ct).1 t
                (callCallback flags run s t cb ct).1.currentTime)).currentTask
              (callCallback flags run s t cb ct).1.currentTime then
          workLoopReturn
            (nextTask (completeTask flags (callCallback flags run s t cb ct).1 t
              (callCallback flags run s t cb ct).1.currentTime))
            (callCallback flags run s t cb ct).1.currentTime
        else
          workLoopLoop flags run fuel
            (nextTask (completeTask flags (callCallback flags run s t cb ct).1 t
              (callCallback flags run s t cb ct).1.currentTime))
            (callCallback flags run s t cb ct).1.currentTime := by
  rw [workLoopLoop]
  simp only [hcur, hcb]
  rw [if_neg hgate]

/-- After an iteration that calls a callback, the record of invocations starts
with the old record and the invocation made. -/
theorem workLoopLoop_call_invoked (flags : SchedulerFeatureFlags) (run : Callbacks) (fuel : Nat)
    (s : State) (ct : Int) (t : Task) (cb : Callback) (hcur : s.currentTask = some t)
    (hgate : ¬ ((!flags.enableAlwaysYieldScheduler) = true ∧ t.expirationTime > ct ∧
      shouldYieldToHost flags s = true))
    (hcb : t.callback = some cb) :
    (s.invoked ++ [⟨t.id, cb, decide (t.expirationTime ≤ ct)⟩])
      <+: (workLoopLoop flags run (fuel + 1) s ct).1.invoked := by
  rw [workLoopLoop_call flags run fuel s ct t cb hcur hgate hcb, ← callCallback_invoked flags run]
  cases (callCallback flags run s t cb ct).2 with
  | throw e => exact List.prefix_refl _
  | continuation c =>
    simp only []
    rw [advanceTimers_invoked]
    exact List.prefix_refl _
  | done =>
    simp only []
    have h0 : (callCallback flags run s t cb ct).1.invoked
        = (nextTask (completeTask flags (callCallback flags run s t cb ct).1 t
            (callCallback flags run s t cb ct).1.currentTime)).invoked :=
      (completeTask_invoked flags _ t _).symm
    split_ifs
    · rw [(workLoopReturn_fields _ _).2.2.2.2, ← h0]
    · rw [h0]
      exact workLoopLoop_invoked_prefix flags run fuel _ _

/-- C16. Every task submitted with Immediate priority has
`expirationTime = startTime - 1 < startTime`; and, the clock having reached the
start time of such a task, whenever `workLoop` reaches it (it is the current
task at the top of an iteration, with a callback), the loop does not break
before it, whatever the host's yield signal is, and invokes its callback with
the did-timeout flag true. -/
theorem immediate_task_runs_expired (flags : SchedulerFeatureFlags) (run : Callbacks)
    (s0 : State) (callback : Callback) (options : Option Int) :
    ((unstable_scheduleCallback flags s0 ImmediatePriority callback options).1.expirationTime
      = (unstable_scheduleCallback flags s0 ImmediatePriority callback options).1.startTime - 1 ∧
     (unstable_scheduleCallback flags s0 ImmediatePriority callback options).1.expirationTime
      < (unstable_scheduleCallback flags s0 ImmediatePriority callback options).1.startTime) ∧
    (∀ (fuel : Nat) (s : State) (currentTime : Int) (t : Task) (cb : Callback),
      s.currentTask = some t → t.callback = some cb →
      t.expirationTime = t.startTime - 1 → t.startTime ≤ currentTime →
      ¬ ((!flags.enableAlwaysYieldScheduler) = true ∧ t.expirationTime > currentTime ∧
        shouldYieldToHost flags s = true) ∧
      nullOrNotExpired (some t) currentTime = false ∧
      (s.invoked ++ [⟨t.id, cb, true⟩])
        <+: (workLoopLoop flags run (fuel + 1) s currentTime).1.invoked) := by
  constructor
  · rw [scheduleCallback_fst]
    have e : scheduleTimeout flags ImmediatePriority = -1 := rfl
    simp only [scheduleNewTask, e]
    omega
  · intro fuel s ct t cb hcur hcb hexp hstart
    have hgate : ¬ ((!flags.enableAlwaysYieldScheduler) = true ∧ t.expirationTime > ct ∧
        shouldYieldToHost flags s = true) := by
      rintro ⟨_, h, _⟩
      omega
    refine ⟨hgate, ?_, ?_⟩
    · simp only [nullOrNotExpired, decide_eq_false_iff_not]
      omega
    · have r := workLoopLoop_call_invoked flags run fuel s ct t cb hcur hgate hcb
      have hd : decide (t.expirationTime ≤ ct) = true := by
        simp only [decide_eq_true_eq]
        omega
      rw [hd] at r
      exact r

end Scheduler

/-! ## The scheduler: a delayed task -/

namespace Scheduler

open SchedulerMinHeap SchedulerPriorities

/-- A write that nulls the callback of the task `id`, whose identifier was given
out by the counter, establishes `CancelledInv`. -/
theorem updateTask_null_establishes (s : State) (id : Int) (f : Task → Task)
    (hf : ∀ t, (f t).callback = none)
    (hid : id < s.taskIdCounter) : CancelledInv id true (updateTask s id f) := by
  have key : ∀ t : Task, (if t.id = id then f t else t).id = id →
      (if t.id = id then f t else t).callback = none := by
    intro t
    by_cases e : t.id = id
    · rw [if_pos e]
      intro _
      exact hf t
    · rw [if_neg e]
      intro e2
      exact absurd e2 e
  unfold updateTask
  refine ⟨?_, ?_, ?_, hid, by simp⟩
  · intro t ht
    obtain ⟨u, _, rfl⟩ := List.mem_map.mp ht
    exact key u
  · intro t ht
    obtain ⟨u, _, rfl⟩ := List.mem_map.mp ht
    exact key u
  · intro t ht
    simp only [Option.map_eq_some'] at ht
    obtain ⟨u, _, rfl⟩ := ht
    exact key u

/-- After the call of its callback, a task whose identifier was given out by the
counter has a null callback in every copy, whatever the callback did. -/
theorem callCallback_cancels_self (flags : SchedulerFeatureFlags) (run : Callbacks)
    (s : State) (t : Task) (cb : Callback) (ct : Int) (hid : t.id < s.taskIdCounter) :
    CancelledInv t.id true (callCallback flags run s t cb ct).1 := by
  have h1 : CancelledInv t.id true (updateTask s t.id (fun t => { t with callback := none })) :=
    updateTask_null_establishes s t.id _ (fun _ => rfl) hid
  unfold callCallback
  simp only []
  refine (foldl_runStep_cancelledInv flags t.id true _ _ ?_).1
  exact cancelledInv_congr t.id true _ _ rfl rfl rfl rfl h1

/-- An iteration that calls the callback of a task whose identifier was given
out by the counter: in the rest of the loop that task is not invoked again. -/
theorem workLoopLoop_call_once (flags : SchedulerFeatureFlags) (run : Callbacks) (fuel : Nat)
    (s : State) (ct : Int) (t : Task) (cb : Callback) (hcur : s.currentTask = some t)
    (hgate : ¬ ((!flags.enableAlwaysYieldScheduler) = true ∧ t.expirationTime > ct ∧
      shouldYieldToHost flags s = true))
    (hcb : t.callback = some cb) (hid : t.id < s.taskIdCounter) :
    ∃ new, (workLoopLoop flags run (fuel + 1) s ct).1.invoked
        = s.invoked ++ ⟨t.id, cb, decide (t.expirationTime ≤ ct)⟩ :: new ∧
      ∀ i ∈ new, i.task ≠ t.id := by
  have hinv := callCallback_cancels_self flags run s t cb ct hid
  have hlog := callCallback_invoked flags run s t cb ct
  rw [workLoopLoop_call flags run fuel s ct t cb hcur hgate hcb]
  cases (callCallback flags run s t cb ct).2 with
  | throw e => exact ⟨[], by simpa using hlog, by simp⟩
  | continuation c =>
    simp only []
    rw [advanceTimers_invoked]
    exact ⟨[], by simpa using hlog, by simp⟩
  | done =>
    simp only []
    have h1 := completeTask_cancelledInv flags t.id true _ t
      (callCallback flags run s t cb ct).1.currentTime hinv
    have h2 := nextTask_cancelledInv t.id true _ h1.1
    have e0 : (nextTask (completeTask flags (callCallback flags run s t cb ct).1 t
        (callCallback flags run s t cb ct).1.currentTime)).invoked
        = s.invoked ++ [⟨t.id, cb, decide (t.expirationTime ≤ ct)⟩] := h1.2.trans hlog
    split_ifs
    · refine ⟨[], ?_, by simp⟩
      rw [(workLoopReturn_fields _ _).2.2.2.2, e0]
    · obtain ⟨new, hn, hp⟩ := (workLoopLoop_cancelledInv flags run t.id true fuel _
        (callCallback flags run s t cb ct).1.currentTime h2).2
      refine ⟨new, ?_, hp⟩
      rw [hn, e0]
      simp

theorem flushWork_invoked (flags : SchedulerFeatureFlags) (run : Callbacks) (fuel : Nat)
    (s : State) (ct : Int) :
    (flushWork flags run fuel s ct).1.invoked
      = (workLoop flags run fuel (flushWorkEntry s) ct).1.invoked ∧
    (flushWork flags run fuel s ct).2 = (workLoop flags run fuel (flushWorkEntry s) ct).2 := by
  unfold flushWork
  simp only []
  generalize workLoop flags run fuel (flushWorkEntry s) ct = w
  obtain ⟨s1, c⟩ := w
  cases c with
  | outOfFuel => exact ⟨rfl, rfl⟩
  | returned b => exact ⟨rfl, rfl⟩
  | threw e =>
    simp only []
    refine ⟨?_, ?_⟩
    · split_ifs
      · split <;> rfl
      · rfl
    · first | rfl | trivial

theorem workLoopLoop_none (flags : SchedulerFeatureFlags) (run : Callbacks) (fuel : Nat)
    (s : State) (ct : Int) (h : s.currentTask = none) :
    workLoopLoop flags run (fuel + 1) s ct = workLoopReturn s ct := by
  rw [workLoopLoop]
  simp only [h]

theorem push_nil {T : Type} [Node T] (node : T) : push ([] : Heap T) node = [node] := rfl

theorem pop_singleton {T : Type} [DecidableEq T] [Node T] (a : T) : pop [a] = (some a, []) := by
  simp [pop]

/-- `advanceTimers` on a timer queue that holds one pending timer. -/
theorem advanceTimers_single_pending (flags : SchedulerFeatureFlags) (s : State) (ct : Int)
    (task : Task) (cb : Callback) (htq : s.timerQueue = [task]) (hcb : task.callback = some cb)
    (hp : ct < task.startTime) : advanceTimers flags s ct = s := by
  unfold advanceTimers
  rw [htq]
  exact advanceTimersLoop_pending flags 0 s ct task (by rw [htq]; rfl) (by rw [hcb]; simp)
    (by omega)

/-- `advanceTimers` on a timer queue that holds one due timer. -/
theorem advanceTimers_single_due (flags : SchedulerFeatureFlags) (s : State) (ct : Int)
    (task : Task) (cb : Callback) (htq : s.timerQueue = [task]) (hcb : task.callback = some cb)
    (hp : task.startTime ≤ ct) :
    advanceTimers flags s ct =
      { s with timerQueue := [], taskQueue := push s.taskQueue (promote flags task) } := by
  unfold advanceTimers
  rw [htq]
  rw [show [task].length = 0 + 1 from rfl,
    advanceTimersLoop_fired flags 0 s ct task (by rw [htq]; rfl) (by rw [hcb]; simp) hp]
  rw [htq, pop_singleton]
  rfl

/-- A flush of a scheduler whose only task is a pending timer: nothing is
invoked, a timed request is made for the remaining delay, false is returned. -/
theorem flushWork_only_pending_timer (flags : SchedulerFeatureFlags) (run : Callbacks)
    (fuel : Nat) (s : State) (now : Int) (task : Task) (cb : Callback)
    (hq : s.taskQueue = []) (htq : s.timerQueue = [task]) (hcb : task.callback = some cb)
    (hp : now < task.startTime) :
    (flushWork flags run (fuel + 1) s now).2 = Completion.returned false ∧
    (flushWork flags run (fuel + 1) s now).1.invoked = s.invoked ∧
    (flushWork flags run (fuel + 1) s now).1.hostTimeouts.getLast?
      = some ((flushWork flags run (fuel + 1) s now).1.taskTimeoutID, task.startTime - now) ∧
    (flushWork flags run (fuel + 1) s now).1.taskQueue = [] ∧
    (flushWork flags run (fuel + 1) s now).1.timerQueue = [task] ∧
    (flushWork flags run (fuel + 1) s now).1.taskIdCounter = s.taskIdCounter := by
  obtain ⟨e1, e2, e3, _, _, _, _, e4⟩ := flushWorkEntry_queues s
  have hwl : workLoop flags run (fuel + 1) (flushWorkEntry s) now =
      (requestHostTimeout (nextTask (flushWorkEntry s)) (task.startTime - now),
        Completion.returned false) := by
    unfold workLoop
    rw [advanceTimers_single_pending flags _ now task cb (e2.trans htq) hcb hp]
    rw [workLoopLoop_none flags run fuel _ now (by
      show peek (flushWorkEntry s).taskQueue = none
      rw [e1, hq]
      rfl)]
    unfold workLoopReturn
    have hc : (nextTask (flushWorkEntry s)).currentTask = none := by
      show peek (flushWorkEntry s).taskQueue = none
      rw [e1, hq]
      rfl
    have hpk : peek (nextTask (flushWorkEntry s)).timerQueue = some task := by
      show peek (flushWorkEntry s).timerQueue = some task
      rw [e2, htq]
      rfl
    rw [if_neg (by rw [hc]; simp)]
    simp only [hpk]
  rw [flushWork_returned flags run _ s _ now false hwl]
  refine ⟨rfl, e3, ?_, e1.trans hq, e2.trans htq, e4⟩
  simp [requestHostTimeout]

/-- A flush of a scheduler whose only task is a timer that is due, when the host
does not signal a yield: the callback of the task is invoked, once. -/
theorem flushWork_only_due_timer (flags : SchedulerFeatureFlags) (run : Callbacks)
    (fuel : Nat) (s : State) (now : Int) (task : Task) (cb : Callback)
    (hq : s.taskQueue = []) (htq : s.timerQueue = [task]) (hcb : task.callback = some cb)
    (hp : task.startTime ≤ now) (hid : task.id < s.taskIdCounter)
    (hy : shouldYieldToHost flags s = false) :
    ∃ new, (flushWork flags run (fuel + 1) s now).1.invoked
        = s.invoked ++ ⟨task.id, cb, decide (task.expirationTime ≤ now)⟩ :: new ∧
      ∀ i ∈ new, i.task ≠ task.id := by
  obtain ⟨e1, e2, e3, e4, e5, e6, e7, e8⟩ := flushWorkEntry_queues s
  rw [(flushWork_invoked flags run (fuel + 1) s now).1]
  unfold workLoop
  rw [advanceTimers_single_due flags _ now task cb (e2.trans htq) hcb hp]
  generalize hL : nextTask { flushWorkEntry s with
    timerQueue := [], taskQueue := push (flushWorkEntry s).taskQueue (promote flags task) } = sL
  have hcur : sL.currentTask = some (promote flags task) := by
    rw [← hL]
    show peek (push (flushWorkEntry s).taskQueue (promote flags task)) = _
    rw [e1, hq]
    rfl
  have hyL : shouldYieldToHost flags sL = false := by
    rw [← hy, ← hL]
    exact shouldYieldToHost_congr flags s _ e7 e4 e5 e6
  have hinvL : sL.invoked = s.invoked := by rw [← hL]; exact e3
  have hcL : sL.taskIdCounter = s.taskIdCounter := by rw [← hL]; exact e8
  have r := workLoopLoop_call_once flags run fuel sL now (promote flags task) cb hcur
    (by simp [hyL]) hcb (by rw [hcL]; exact hid)
  rw [hinvL] at r
  exact r

/-- C17. For every delay `D > 0`: a task is submitted with delay `D` at time `t0`
into an empty scheduler. If `flushWork` is called at a time `now` with
`t0 <= now < t0 + D`, then no callback is invoked, the flush returns false, and
a timed invocation is requested for exactly `startTime - now = t0 + D - now`
time units, which is strictly positive. A later flush at any time
`now' >= t0 + D`, started when the host does not signal a yield, invokes the
callback of the task exactly once. -/
theorem delayed_task_scenario (flags : SchedulerFeatureFlags) (run : Callbacks) (s0 : State)
    (priorityLevel : PriorityLevel) (cb : Callback) (D : Int) (hD : 0 < D)
    (hq : s0.taskQueue = []) (htq : s0.timerQueue = []) :
    (unstable_scheduleCallback flags s0 priorityLevel cb (some D)).1.startTime
      = s0.currentTime + D ∧
    ∀ (now : Int) (fuel : Nat), s0.currentTime ≤ now → now < s0.currentTime + D →
      (flushWork flags run (fuel + 1)
        { (unstable_scheduleCallback flags s0 priorityLevel cb (some D)).2 with
          currentTime := now } now).2 = Completion.returned false ∧
      (flushWork flags run (fuel + 1)
        { (unstable_scheduleCallback flags s0 priorityLevel cb (some D)).2 with
          currentTime := now } now).1.invoked = s0.invoked ∧
      (flushWork flags run (fuel + 1)
        { (unstable_scheduleCallback flags s0 priorityLevel cb (some D)).2 with
          currentTime := now } now).1.hostTimeouts.getLast?
        = some ((flushWork flags run (fuel + 1)
            { (unstable_scheduleCallback flags s0 priorityLevel cb (some D)).2 with
              currentTime := now } now).1.taskTimeoutID, s0.currentTime + D - now) ∧
      0 < s0.currentTime + D - now ∧
      ∀ (now' : Int) (fuel' : Nat) (s4 : State), s0.currentTime + D ≤ now' →
        s4.taskQueue = (flushWork flags run (fuel + 1)
          { (unstable_scheduleCallback flags s0 priorityLevel cb (some D)).2 with
            currentTime := now } now).1.taskQueue →
        s4.timerQueue = (flushWork flags run (fuel + 1)
          { (unstable_scheduleCallback flags s0 priorityLevel cb (some D)).2 with
            currentTime := now } now).1.timerQueue →
        s4.invoked = (flushWork flags run (fuel + 1)
          { (unstable_scheduleCallback flags s0 priorityLevel cb (some D)).2 with
            currentTime := now } now).1.invoked →
        s4.taskIdCounter = (flushWork flags run (fuel + 1)
          { (unstable_scheduleCallback flags s0 priorityLevel cb (some D)).2 with
            currentTime := now } now).1.taskIdCounter →
        shouldYieldToHost flags s4 = false →
        ∃ d new, (flushWork flags run (fuel' + 1) s4 now').1.invoked
            = s0.invoked ++ ⟨s0.taskIdCounter, cb, d⟩ :: new ∧
          ∀ i ∈ new, i.task ≠ s0.taskIdCounter := by
  have hst : scheduleStartTime s0.currentTime (some D) = s0.currentTime + D := by
    simp [scheduleStartTime, hD]
  have hgt : scheduleStartTime s0.currentTime (some D) > s0.currentTime := by
    rw [hst]
    omega
  have hfst := scheduleCallback_fst flags s0 priorityLevel cb (some D)
  have hqs := (scheduleCallback_queues flags s0 priorityLevel cb (some D)).1 hgt
  obtain ⟨f1, _, f3, _⟩ := scheduleCallback_frame flags s0 priorityLevel cb (some D)
  generalize unstable_scheduleCallback flags s0 priorityLevel cb (some D) = r at hfst hqs f1 f3
  obtain ⟨task, s1⟩ := r
  simp only [] at hfst hqs f1 f3 ⊢
  have htask_start : task.startTime = s0.currentTime + D := by
    rw [hfst]
    exact hst
  have htask_id : task.id = s0.taskIdCounter := by rw [hfst]; rfl
  have htask_cb : task.callback = some cb := by rw [hfst]; rfl
  have hs1q : s1.timerQueue = [task] := by
    rw [hqs.1, htq, ← hfst]
    rfl
  have hs1t : s1.taskQueue = [] := hqs.2.trans hq
  refine ⟨htask_start, ?_⟩
  intro now fuel h1 h2
  obtain ⟨r1, r2, r3, r4, r5, r6⟩ := flushWork_only_pending_timer flags run fuel
    { s1 with currentTime := now } now task cb hs1t hs1q htask_cb (by omega)
  refine ⟨r1, r2.trans f1, ?_, by omega, ?_⟩
  · rw [r3, htask_start]
  · intro now' fuel' s4 h3 g1 g2 g3 g4 hy
    obtain ⟨new, hn, hp⟩ := flushWork_only_due_timer flags run fuel' s4 now' task cb
      (g1.trans r4) (g2.trans r5) htask_cb (by omega)
      (by rw [g4, r6, htask_id]
          show s0.taskIdCounter < s1.taskIdCounter
          omega) hy
    refine ⟨decide (task.expirationTime ≤ now'), new, ?_, ?_⟩
    · rw [hn, g3, r2]
      show s1.invoked ++ _ = _
      rw [f1, htask_id]
    · rw [← htask_id]
      exact hp

/-- C17, with delay 50 submitted at time 0: the first flush, at time 0, asks for
a timed invocation after 50. -/
theorem delayed_task_scenario_witness :
    (flushWork ⟨false, 5, 250, 10000, 5000, true, false⟩ (fun _ _ _ => ⟨[], .done⟩) (0 + 1)
        { (unstable_scheduleCallback ⟨false, 5, 250, 10000, 5000, true, false⟩
            (init ⟨false, 5, 250, 10000, 5000, true, false⟩ 0) NormalPriority 7 (some 50)).2 with
          currentTime := 0 } 0).2 = Completion.returned false :=
  ((delayed_task_scenario ⟨false, 5, 250, 10000, 5000, true, false⟩ (fun _ _ _ => ⟨[], .done⟩)
    (init ⟨false, 5, 250, 10000, 5000, true, false⟩ 0) NormalPriority 7 50 (by decide) rfl rfl).2
      0 0 (by decide) (by decide)).1

end Scheduler

/-! ## The scheduler: the break of the work loop -/

namespace Scheduler

open SchedulerMinHeap SchedulerPriorities

theorem length_pop_le {T : Type} [DecidableEq T] [Node T] (heap : Heap T) :
    (pop heap).2.length ≤ heap.length ∧ (heap ≠ [] → (pop heap).2.length < heap.length) := by
  rcases peek_cases heap with ⟨_, he⟩ | ⟨first, _, h0⟩
  · rw [he]
    simp [pop_nil]
  · have := (pop_perm heap first h0).2.length_eq
    simp at this
    constructor
    · omega
    · intro _
      omega

theorem advanceTimers_queued (flags : SchedulerFeatureFlags) (s : State) (ct : Int) :
    queued (advanceTimers flags s ct) ≤ queued s := by
  unfold advanceTimers queued
  obtain ⟨promoted, dropped, p1, p2, _, _⟩ :=
    advanceTimersLoop_queues flags ct s.timerQueue.length s
  have l1 := p1.length_eq
  have l2 := p2.length_eq
  simp at l1 l2
  omega

theorem completeTask_queued (flags : SchedulerFeatureFlags) (s : State) (t : Task) (ct : Int) :
    queued (completeTask flags s t ct) ≤ queued s := by
  unfold completeTask
  simp only []
  refine le_trans (advanceTimers_queued flags _ ct) ?_
  have h1 : queued (if flags.enableProfiling = true then
      updateTask s t.id (fun t => { t with isQueued := some false }) else s) = queued s := by
    split_ifs
    · simp [queued, updateTask]
    · rfl
  generalize (if flags.enableProfiling = true then
      updateTask s t.id (fun t => { t with isQueued := some false }) else s) = s1 at h1
  split_ifs
  · have := (length_pop_le s1.taskQueue).1
    simp only [queued, popTask] at h1 ⊢
    omega
  · omega

theorem progress_refl (a : State) : Progress a a := ⟨List.prefix_refl _, fun _ => le_refl _⟩

theorem progress_trans (a b c : State) (h1 : Progress a b) (h2 : Progress b c) :
    Progress a c := by
  refine ⟨h1.1.trans h2.1, ?_⟩
  intro e
  have hl1 := h1.1.length_le
  have hl2 := h2.1.length_le
  have hb : b.invoked = a.invoked :=
    (List.IsPrefix.eq_of_length_le h1.1 (by rw [← e]; exact hl2)).symm
  have hc : c.invoked = b.invoked := e.trans hb.symm
  exact le_trans (h2.2 hc) (h1.2 hb)

theorem progress_of_eq (a b : State) (h1 : b.invoked = a.invoked) (h2 : queued b ≤ queued a) :
    Progress a b := ⟨by rw [h1], fun _ => h2⟩

theorem workLoopLoop_progress (flags : SchedulerFeatureFlags) (run : Callbacks)
    (fuel : Nat) (s : State) (ct : Int) : Progress s (workLoopLoop flags run fuel s ct).1 := by
  refine (workLoopLoop_induction flags run (fun _ => True) (fun _ _ => True) (fun _ _ => True)
    Progress progress_refl progress_trans (fun _ _ => trivial)
    ?_ ?_ (fun _ _ _ _ => trivial) ?_ ?_ ?_ fuel s ct trivial).2
  · intro s ct _
    obtain ⟨e1, e2, _, _, e5⟩ := workLoopReturn_fields s ct
    exact ⟨trivial, progress_of_eq _ _ e5 (by simp [queued, e1, e2])⟩
  · intro s t cb ct _ _ _
    refine ⟨trivial, ?_, ?_⟩
    · rw [callCallback_invoked]
      exact List.prefix_append _ _
    · intro e
      rw [callCallback_invoked] at e
      simp at e
  · intro t s1 c _
    refine ⟨trivial, progress_of_eq _ _ (advanceTimers_invoked flags _ _) ?_⟩
    refine le_trans (advanceTimers_queued flags _ _) ?_
    simp [queued, updateTask]
  · intro t s1 _
    exact ⟨trivial, progress_of_eq _ _ (completeTask_invoked flags s1 t _)
      (completeTask_queued flags s1 t _)⟩
  · intro s t _ _ _
    refine ⟨trivial, progress_of_eq _ _ rfl ?_⟩
    have := (length_pop_le s.taskQueue).1
    simp only [queued, nextTask, popTask]
    omega

/-- An iteration of `workLoop` that does not break and finds no callback: the
task is popped. -/
theorem workLoopLoop_skip (flags : SchedulerFeatureFlags) (run : Callbacks) (fuel : Nat)
    (s : State) (ct : Int) (t : Task) (hcur : s.currentTask = some t)
    (hgate : ¬ ((!flags.enableAlwaysYieldScheduler) = true ∧ t.expirationTime > ct ∧
      shouldYieldToHost flags s = true))
    (hcb : t.callback = none) :
    workLoopLoop flags run (fuel + 1) s ct =
      if flags.enableAlwaysYieldScheduler &&
          nullOrNotExpired (nextTask (popTask s)).currentTask ct then
        workLoopReturn (nextTask (popTask s)) ct
      else workLoopLoop flags run fuel (nextTask (popTask s)) ct := by
  rw [workLoopLoop]
  simp only [hcur, hcb]
  rw [if_neg hgate]

/-- An iteration of `workLoop` that breaks: nothing changes and true is
returned. -/
theorem workLoopLoop_break (flags : SchedulerFeatureFlags) (run : Callbacks) (fuel : Nat)
    (s : State) (ct : Int) (t : Task) (hcur : s.currentTask = some t)
    (hgate : (!flags.enableAlwaysYieldScheduler) = true ∧ t.expirationTime > ct ∧
      shouldYieldToHost flags s = true) :
    workLoopLoop flags run (fuel + 1) s ct = (s, Completion.returned true) := by
  rw [workLoopLoop]
  simp only [hcur]
  rw [if_pos hgate]
  unfold workLoopReturn
  rw [if_pos (by rw [hcur]; simp)]

/-- C21. With `enableAlwaysYieldScheduler` off, for every scheduler state and
every time `now` such that the task queue is non-empty when the loop of
`workLoop(now)` starts (after `advanceTimers(now)`), with root `t`: `workLoop`
stops before the root task without invoking it, leaving the state of the loop
start (so the task queue) unchanged and returning true, if and only if
`t.expirationTime > now` and the host signals that a yield is due; a root task
with `expirationTime <= now` and a callback is invoked (with the did-timeout
flag true) even when the host signals a yield. -/
theorem workLoop_breaks_iff (flags : SchedulerFeatureFlags) (run : Callbacks) (fuel : Nat)
    (s : State) (now : Int) (t : Task)
    (hflag : flags.enableAlwaysYieldScheduler = false)
    (hroot : peek (advanceTimers flags s now).taskQueue = some t) :
    (workLoop flags run (fuel + 1) s now
        = (nextTask (advanceTimers flags s now), Completion.returned true) ↔
      (t.expirationTime > now ∧
        shouldYieldToHost flags (nextTask (advanceTimers flags s now)) = true)) ∧
    (t.expirationTime ≤ now → ∀ cb, t.callback = some cb →
      ((nextTask (advanceTimers flags s now)).invoked ++ [⟨t.id, cb, true⟩])
        <+: (workLoop flags run (fuel + 1) s now).1.invoked) := by
  unfold workLoop
  generalize hs' : nextTask (advanceTimers flags s now) = s'
  have hcur : s'.currentTask = some t := by rw [← hs']; exact hroot
  have hne : s'.taskQueue ≠ [] := by
    rw [← hs']
    intro e
    have : peek (advanceTimers flags s now).taskQueue = none := (peek_eq_none_iff _).mpr e
    rw [hroot] at this
    cases this
  constructor
  · constructor
    · intro heq
      by_contra hng
      have hgate : ¬ ((!flags.enableAlwaysYieldScheduler) = true ∧ t.expirationTime > now ∧
          shouldYieldToHost flags s' = true) := fun h => hng h.2
      cases hcb : t.callback with
      | some cb =>
        have r := workLoopLoop_call_invoked flags run fuel s' now t cb hcur hgate hcb
        rw [heq] at r
        have := r.length_le
        simp at this
      | none =>
        rw [workLoopLoop_skip flags run fuel s' now t hcur hgate hcb] at heq
        simp only [hflag, Bool.false_and] at heq
        have hp := workLoopLoop_progress flags run fuel (nextTask (popTask s')) now
        rw [show (if false = true then workLoopReturn (nextTask (popTask s')) now
          else workLoopLoop flags run fuel (nextTask (popTask s')) now)
          = workLoopLoop flags run fuel (nextTask (popTask s')) now from rfl] at heq
        rw [heq] at hp
        have h1 := hp.2 rfl
        have h2 := (length_pop_le s'.taskQueue).2 hne
        simp only [queued, nextTask, popTask] at h1
        omega
    · intro hg
      exact workLoopLoop_break flags run fuel s' now t hcur ⟨by simp [hflag], hg.1, hg.2⟩
  · intro hexp cb hcb
    have hgate : ¬ ((!flags.enableAlwaysYieldScheduler) = true ∧ t.expirationTime > now ∧
        shouldYieldToHost flags s' = true) := by
      rintro ⟨_, h, _⟩
      omega
    have r := workLoopLoop_call_invoked flags run fuel s' now t cb hcur hgate hcb
    have hd : decide (t.expirationTime ≤ now) = true := by simpa using hexp
    rw [hd] at r
    exact r

/-- C21, at a state with one ready task that has not expired and a host that
signals a yield: `workLoop` returns true and invokes nothing. -/
theorem workLoop_breaks_iff_witness :
    workLoop ⟨false, 5, 250, 10000, 5000, true, false⟩ (fun _ _ _ => ⟨[], .done⟩) (0 + 1)
        { init ⟨false, 5, 250, 10000, 5000, true, false⟩ 10 with
          taskQueue := [⟨1, some 7, 3, 0, 5000, 5000, none⟩], startTime := 0 } 10
      = (nextTask (advanceTimers ⟨false, 5, 250, 10000, 5000, true, false⟩
          { init ⟨false, 5, 250, 10000, 5000, true, false⟩ 10 with
            taskQueue := [⟨1, some 7, 3, 0, 5000, 5000, none⟩], startTime := 0 } 10),
        Completion.returned true) :=
  (workLoop_breaks_iff ⟨false, 5, 250, 10000, 5000, true, false⟩ (fun _ _ _ => ⟨[], .done⟩) 0
    { init ⟨false, 5, 250, 10000, 5000, true, false⟩ 10 with
      taskQueue := [⟨1, some 7, 3, 0, 5000, 5000, none⟩], startTime := 0 } 10
    ⟨1, some 7, 3, 0, 5000, 5000, none⟩ rfl rfl).1.mpr ⟨by decide, by decide⟩

end Scheduler

/-! ## The binary heap: sorting -/

namespace SchedulerMinHeap

theorem foldl_push_spec {T : Type} [Node T] (nodes : List T) :
    ∀ (heap : Heap T), IsHeap heap →
      IsHeap (nodes.foldl push heap) ∧ List.Perm (nodes.foldl push heap) (nodes ++ heap) := by
  induction nodes with
  | nil => intro heap h; exact ⟨h, List.Perm.refl _⟩
  | cons a nodes ih =>
    intro heap h
    have r := push_perm heap a h
    have r2 := ih _ r.2
    refine ⟨r2.1, r2.2.trans ?_⟩
    refine (List.Perm.append_left nodes r.1).trans ?_
    simp

theorem pushAll_spec {T : Type} [Node T] (nodes : List T) :
    IsHeap (pushAll nodes) ∧ List.Perm (pushAll nodes) nodes := by
  have r := foldl_push_spec nodes [] isHeap_nil
  exact ⟨r.1, by simpa using r.2⟩

/-- With enough fuel the loop pops every node of a heap, in ascending order. -/
theorem popAllLoop_spec {T : Type} [DecidableEq T] [Node T] :
    ∀ (fuel : Nat) (heap : Heap T), heap.length ≤ fuel → IsHeap heap →
      List.Perm (popAllLoop fuel heap) heap ∧
      List.Pairwise (fun a b => compare a b ≤ 0) (popAllLoop fuel heap) := by
  intro fuel
  induction fuel with
  | zero =>
    intro heap hl _
    have : heap = [] := List.length_eq_zero.mp (by omega)
    subst this
    exact ⟨List.Perm.refl _, List.Pairwise.nil⟩
  | succ fuel ih =>
    intro heap hl hh
    cases h0 : heap[0]? with
    | none =>
      have : heap = [] := by
        cases heap with
        | nil => rfl
        | cons a l => simp at h0
      subst this
      simp [popAllLoop, pop_nil]
    | some first =>
      obtain ⟨r1, r2, r3⟩ := pop_spec heap first h0 hh
      have hlen : (pop heap).2.length ≤ fuel := by
        have := r2.length_eq
        simp at this
        omega
      obtain ⟨p1, p2⟩ := ih (pop heap).2 hlen r3
      have hpop : pop heap = (some first, (pop heap).2) := by
        rw [← r1]
      rw [popAllLoop, hpop]
      simp only []
      refine ⟨(List.Perm.cons first p1).trans r2, List.pairwise_cons.mpr ⟨?_, p2⟩⟩
      intro b hb
      have hb1 : b ∈ (pop heap).2 := p1.mem_iff.mp hb
      have hb2 : b ∈ heap := r2.mem_iff.mp (List.mem_cons_of_mem _ hb1)
      exact root_le_mem heap hh first b h0 hb2

theorem compare_lt_of_le_of_id_ne {T : Type} [Node T] {a b : T} (h : compare a b ≤ 0)
    (hid : Node.id a ≠ Node.id b) : compare a b < 0 := by
  rw [compare_le_iff] at h
  rw [compare_lt_iff]
  omega

theorem compare_lt_antisymm {T : Type} [Node T] (a b : T) (h1 : compare a b < 0)
    (h2 : compare b a < 0) : a = b := by
  rw [compare_lt_iff] at h1 h2
  omega

/-- Pushing nodes with distinct ids and popping them all gives the nodes in
strictly ascending order. -/
theorem popAll_pushAll_sorted {T : Type} [DecidableEq T] [Node T] (nodes : List T)
    (hid : (nodes.map Node.id).Nodup) :
    List.Perm (popAll (pushAll nodes)) nodes ∧
    List.Pairwise (fun a b => compare a b < 0) (popAll (pushAll nodes)) := by
  obtain ⟨h1, h2⟩ := pushAll_spec nodes
  obtain ⟨p1, p2⟩ := popAllLoop_spec (pushAll nodes).length (pushAll nodes) (le_refl _) h1
  have hperm : List.Perm (popAll (pushAll nodes)) nodes := p1.trans h2
  refine ⟨hperm, ?_⟩
  have hnd : ((popAll (pushAll nodes)).map Node.id).Nodup :=
    ((hperm.map Node.id).nodup_iff).mpr hid
  have hpw : List.Pairwise (fun a b : T => Node.id a ≠ Node.id b) (popAll (pushAll nodes)) :=
    List.pairwise_map.mp hnd
  have hboth := List.Pairwise.and p2 hpw
  exact hboth.imp (fun h => compare_lt_of_le_of_id_ne h.1 h.2)

/-- C22. For every finite list of nodes with pairwise distinct ids, pushing
them one by one into an empty heap and then popping until `pop` returns null
yields a permutation of the pushed nodes that is strictly ascending in
(sortIndex, id); hence the pop order is the same for every insertion order of
the same nodes, and nodes with equal sortIndex come out in ascending id
order. -/
theorem heap_sort_order {T : Type} [DecidableEq T] [Node T] (nodes : List T)
    (hid : (nodes.map Node.id).Nodup) :
    List.Perm (popAll (pushAll nodes)) nodes ∧
    List.Pairwise (fun a b => compare a b < 0) (popAll (pushAll nodes)) ∧
    (∀ nodes' : List T, List.Perm nodes' nodes →
      popAll (pushAll nodes') = popAll (pushAll nodes)) ∧
    List.Pairwise (fun a b => Node.sortIndex a ≤ Node.sortIndex b ∧
      (Node.sortIndex a = Node.sortIndex b → Node.id a < Node.id b))
      (popAll (pushAll nodes)) := by
  obtain ⟨h1, h2⟩ := popAll_pushAll_sorted nodes hid
  refine ⟨h1, h2, ?_, ?_⟩
  · intro nodes' hp
    have hid' : (nodes'.map Node.id).Nodup := ((hp.map Node.id).nodup_iff).mpr hid
    obtain ⟨g1, g2⟩ := popAll_pushAll_sorted nodes' hid'
    haveI : IsAntisymm T (fun a b => compare a b < 0) := ⟨compare_lt_antisymm⟩
    exact List.eq_of_perm_of_sorted ((g1.trans hp).trans h1.symm) g2 h2
  · refine h2.imp ?_
    intro a b h
    rw [compare_lt_iff] at h
    constructor
    · omega
    · intro e
      omega

/-- C22, with three plain nodes, two of them with the same sortIndex. -/
theorem heap_sort_order_witness :
    popAll (pushAll ([⟨3, 5, 0⟩, ⟨2, 4, 0⟩, ⟨1, 5, 0⟩] : List PlainNode))
      = [⟨2, 4, 0⟩, ⟨1, 5, 0⟩, ⟨3, 5, 0⟩] ∧
    List.Perm (popAll (pushAll ([⟨3, 5, 0⟩, ⟨2, 4, 0⟩, ⟨1, 5, 0⟩] : List PlainNode)))
      [⟨3, 5, 0⟩, ⟨2, 4, 0⟩, ⟨1, 5, 0⟩] :=
  ⟨by decide, (heap_sort_order _ (by decide)).1⟩

end SchedulerMinHeap


/-! ## The scheduler: a task whose callback throws -/

namespace Scheduler

open SchedulerMinHeap SchedulerPriorities

theorem idsBelow_congr (s s' : State) (h1 : s'.taskQueue = s.taskQueue)
    (h2 : s'.timerQueue = s.timerQueue) (h4 : s'.taskIdCounter = s.taskIdCounter)
    (h : IdsBelow s) : IdsBelow s' := by
  unfold IdsBelow at h ⊢
  rw [h1, h2, h4]
  exact h

theorem idsBelowCurrent_congr (s s' : State) (h1 : s'.taskQueue = s.taskQueue)
    (h2 : s'.timerQueue = s.timerQueue) (h3 : s'.currentTask = s.currentTask)
    (h4 : s'.taskIdCounter = s.taskIdCounter)
    (h : IdsBelowCurrent s) : IdsBelowCurrent s' := by
  unfold IdsBelowCurrent at h ⊢
  rw [h3, h4]
  exact ⟨idsBelow_congr s s' h1 h2 h4 h.1, h.2⟩

/-- New queues made of tasks whose identifiers were in the old queues. -/
theorem idsBelow_of_ids (s s' : State)
    (hq : ∀ t ∈ s'.taskQueue ++ s'.timerQueue, ∃ u ∈ s.taskQueue ++ s.timerQueue, u.id = t.id)
    (hn : s.taskIdCounter ≤ s'.taskIdCounter) (h : IdsBelow s) : IdsBelow s' := by
  intro t ht
  obtain ⟨u, hu, e⟩ := hq t ht
  have := h u hu
  omega

theorem updateTask_idsBelowCurrent (s : State) (id' : Int) (f : Task → Task)
    (hfid : ∀ t, (f t).id = t.id) (h : IdsBelowCurrent s) :
    IdsBelowCurrent (updateTask s id' f) := by
  have keyid : ∀ t : Task, (if t.id = id' then f t else t).id = t.id := by
    intro t
    by_cases e : t.id = id'
    · simp only [e, if_true, hfid]
    · simp only [e, if_false]
  constructor
  · refine idsBelow_of_ids s (updateTask s id' f) ?_ (le_refl _) h.1
    intro t ht
    rcases List.mem_append.mp ht with hm | hm
    · obtain ⟨u, hu, rfl⟩ := List.mem_map.mp hm
      exact ⟨u, List.mem_append_left _ hu, (keyid u).symm⟩
    · obtain ⟨u, hu, rfl⟩ := List.mem_map.mp hm
      exact ⟨u, List.mem_append_right _ hu, (keyid u).symm⟩
  · intro t ht
    simp only [updateTask, Option.map_eq_some'] at ht
    obtain ⟨u, hu, rfl⟩ := ht
    rw [keyid]
    exact h.2 u hu

theorem scheduleCallback_idsBelowCurrent (flags : SchedulerFeatureFlags) (s : State)
    (p : PriorityLevel) (cb : Callback) (o : Option Int) (h : IdsBelowCurrent s) :
    IdsBelowCurrent (unstable_scheduleCallback flags s p cb o).2 := by
  obtain ⟨_, f2, f3, _⟩ := scheduleCallback_frame flags s p cb o
  have hq := scheduleCallback_queues flags s p cb o
  have hnew : (scheduleNewTask flags s p cb o).id = s.taskIdCounter := rfl
  constructor
  · intro t ht
    rw [f3]
    by_cases hd : scheduleStartTime s.currentTime o > s.currentTime
    · rw [(hq.1 hd).1, (hq.1 hd).2] at ht
      rcases List.mem_append.mp ht with hm | hm
      · have := h.1 t (List.mem_append_left _ hm)
        omega
      · rcases List.mem_cons.mp ((push_perm_cons _ _).mem_iff.mp hm) with e | e
        · rw [e, hnew]
          omega
        · have := h.1 t (List.mem_append_right _ e)
          omega
    · rw [(hq.2 hd).1, (hq.2 hd).2] at ht
      rcases List.mem_append.mp ht with hm | hm
      · rcases List.mem_cons.mp ((push_perm_cons _ _).mem_iff.mp hm) with e | e
        · rw [e, hnew]
          omega
        · have := h.1 t (List.mem_append_left _ e)
          omega
      · have := h.1 t (List.mem_append_right _ hm)
        omega
  · intro t ht
    rw [f2] at ht
    rw [f3]
    have := h.2 t ht
    omega

theorem promote_id (flags : SchedulerFeatureFlags) (t : Task) : (promote flags t).id = t.id := rfl

theorem advanceTimers_idsBelow (flags : SchedulerFeatureFlags) (s : State) (ct : Int)
    (h : IdsBelow s) : IdsBelow (advanceTimers flags s ct) := by
  unfold advanceTimers
  obtain ⟨promoted, dropped, p1, p2, _, _⟩ :=
    advanceTimersLoop_queues flags ct s.timerQueue.length s
  have hfr := advanceTimersLoop_frame flags ct s.timerQueue.length s
  refine idsBelow_of_ids s _ ?_ (by rw [hfr]) h
  intro t ht
  rcases List.mem_append.mp ht with hm | hm
  · rcases List.mem_append.mp (p1.mem_iff.mp hm) with e | e
    · obtain ⟨u, hu, rfl⟩ := List.mem_map.mp e
      exact ⟨u, List.mem_append_right _ (p2.mem_iff.mpr (List.mem_append_left _ hu)), rfl⟩
    · exact ⟨t, List.mem_append_left _ e, rfl⟩
  · exact ⟨t, List.mem_append_right _
      (p2.mem_iff.mpr (List.mem_append_right _ (List.mem_append_right _ hm))), rfl⟩

theorem advanceTimers_idsBelowCurrent (flags : SchedulerFeatureFlags) (s : State) (ct : Int)
    (h : IdsBelowCurrent s) : IdsBelowCurrent (advanceTimers flags s ct) := by
  refine ⟨advanceTimers_idsBelow flags s ct h.1, ?_⟩
  unfold advanceTimers
  rw [advanceTimersLoop_frame flags ct s.timerQueue.length s]
  exact h.2

theorem runStep_idsBelowCurrent (flags : SchedulerFeatureFlags) (s : State) (st : Step)
    (h : IdsBelowCurrent s) : IdsBelowCurrent (runStep flags s st) := by
  cases st with
  | elapse ms => exact idsBelowCurrent_congr s _ rfl rfl rfl rfl h
  | scheduleCallback p cb o => exact scheduleCallback_idsBelowCurrent flags s p cb o h
  | cancelCallback task => exact updateTask_idsBelowCurrent s task _ (fun _ => rfl) h
  | requestPaint =>
    obtain ⟨e1, e2, e3, e4, _⟩ := requestPaint_fields flags s
    exact idsBelowCurrent_congr s _ e1 e2 e3 e4 h

theorem foldl_runStep_idsBelowCurrent (flags : SchedulerFeatureFlags) :
    ∀ (steps : List Step) (s : State), IdsBelowCurrent s →
      IdsBelowCurrent (steps.foldl (runStep flags) s) := by
  intro steps
  induction steps with
  | nil => intro s h; exact h
  | cons st steps ih =>
    intro s h
    exact ih _ (runStep_idsBelowCurrent flags s st h)

theorem callCallback_idsBelowCurrent (flags : SchedulerFeatureFlags) (run : Callbacks)
    (s : State) (t : Task) (cb : Callback) (ct : Int) (h : IdsBelowCurrent s) :
    IdsBelowCurrent (callCallback flags run s t cb ct).1 := by
  unfold callCallback
  simp only []
  refine foldl_runStep_idsBelowCurrent flags _ _ ?_
  exact idsBelowCurrent_congr _ _ rfl rfl rfl rfl
    (updateTask_idsBelowCurrent s t.id _ (fun _ => rfl) h)

theorem popTask_idsBelowCurrent (s : State) (h : IdsBelowCurrent s) :
    IdsBelowCurrent (popTask s) := by
  refine ⟨idsBelow_of_ids s (popTask s) ?_ (le_refl _) h.1, h.2⟩
  intro t ht
  rcases List.mem_append.mp ht with hm | hm
  · exact ⟨t, List.mem_append_left _ (mem_pop _ t hm), rfl⟩
  · exact ⟨t, List.mem_append_right _ hm, rfl⟩

theorem nextTask_idsBelowCurrent (s : State) (h : IdsBelow s) :
    IdsBelowCurrent (nextTask s) := by
  refine ⟨h, ?_⟩
  intro t ht
  exact h t (List.mem_append_left _ (mem_of_peek _ t ht))

theorem completeTask_idsBelowCurrent (flags : SchedulerFeatureFlags) (s : State) (t : Task)
    (ct : Int) (h : IdsBelowCurrent s) : IdsBelowCurrent (completeTask flags s t ct) := by
  unfold completeTask
  simp only []
  apply advanceTimers_idsBelowCurrent
  have h1 : IdsBelowCurrent (if flags.enableProfiling = true then
      updateTask s t.id (fun t => { t with isQueued := some false }) else s) := by
    split_ifs
    · exact updateTask_idsBelowCurrent s t.id _ (fun _ => rfl) h
    · exact h
  generalize (if flags.enableProfiling = true then
      updateTask s t.id (fun t => { t with isQueued := some false }) else s) = s1 at h1
  split_ifs
  · exact popTask_idsBelowCurrent s1 h1
  · exact h1

/-- When the loop of `workLoop` ends with a thrown error, the task invoked last
is the one whose callback threw, and every copy of it has a null callback. -/
theorem workLoopLoop_threw (flags : SchedulerFeatureFlags) (run : Callbacks) (fuel : Nat)
    (s : State) (ct : Int) (h : IdsBelowCurrent s) :
    ∀ e, (workLoopLoop flags run fuel s ct).2 = Completion.threw e →
      ∃ inv, (workLoopLoop flags run fuel s ct).1.invoked.getLast? = some inv ∧
        CancelledInv inv.task true (workLoopLoop flags run fuel s ct).1 := by
  refine (workLoopLoop_induction flags run IdsBelowCurrent
    (fun t s1 => IdsBelowCurrent s1 ∧
      ∃ inv, s1.invoked.getLast? = some inv ∧ CancelledInv inv.task true s1)
    (fun s1 c => ∀ e, c = Completion.threw e →
      ∃ inv, s1.invoked.getLast? = some inv ∧ CancelledInv inv.task true s1)
    (fun _ _ => True) (fun _ => trivial) (fun _ _ _ _ _ => trivial)
    ?_ ?_ ?_ ?_ ?_ ?_ ?_ fuel s ct h).1
  · intro s _ e he
    cases he
  · intro s ct _
    refine ⟨?_, trivial⟩
    intro e he
    have hr : ∀ c, (workLoopReturn s ct).2 = c → ∀ e, c ≠ Completion.threw e := by
      unfold workLoopReturn
      split_ifs
      · intro c hc e; rw [← hc]; simp
      · split <;> (intro c hc e; rw [← hc]; simp)
    exact absurd he (hr _ rfl e)
  · intro s t cb ct hinv hcur hcb
    refine ⟨⟨callCallback_idsBelowCurrent flags run s t cb ct hinv, ?_⟩, trivial⟩
    refine ⟨⟨t.id, cb, decide (t.expirationTime ≤ ct)⟩, ?_, ?_⟩
    · rw [callCallback_invoked]
      simp
    · exact callCallback_cancels_self flags run s t cb ct (hinv.2 t hcur)
  · intro t s1 e hmid e' _
    exact hmid.2
  · intro t s1 c _
    refine ⟨?_, trivial⟩
    intro e he
    cases he
  · intro t s1 hmid
    exact ⟨nextTask_idsBelowCurrent _ (completeTask_idsBelowCurrent flags s1 t _ hmid.1).1,
      trivial⟩
  · intro s t hinv _ _
    exact ⟨nextTask_idsBelowCurrent _ (popTask_idsBelowCurrent s hinv).1, trivial⟩


/-- A flush that ends with a thrown error leaves the task invoked last, the one
whose callback threw, with a null callback in every copy. -/
theorem flushWork_threw (flags : SchedulerFeatureFlags) (run : Callbacks) (fuel : Nat)
    (s : State) (ct : Int) (e : Nat) (h : IdsBelow s)
    (hthrow : (flushWork flags run fuel s ct).2 = Completion.threw e) :
    ∃ inv, (flushWork flags run fuel s ct).1.invoked.getLast? = some inv ∧
      CancelledInv inv.task true (flushWork flags run fuel s ct).1 := by
  obtain ⟨e1, e2, _, _, _, _, _, e4⟩ := flushWorkEntry_queues s
  have h0 : IdsBelow (flushWorkEntry s) := idsBelow_congr s _ e1 e2 e4 h
  have h1 := nextTask_idsBelowCurrent _ (advanceTimers_idsBelow flags _ ct h0)
  have r := workLoopLoop_threw flags run fuel _ ct h1
  have hi := flushWork_invoked flags run fuel s ct
  rw [hi.2] at hthrow
  rw [hi.1]
  clear hi
  unfold flushWork
  simp only []
  unfold workLoop at hthrow ⊢
  generalize workLoopLoop flags run fuel
    (nextTask (advanceTimers flags (flushWorkEntry s) ct)) ct = w at r hthrow
  obtain ⟨s1, c⟩ := w
  simp only [] at hthrow
  subst hthrow
  obtain ⟨inv, hl, hc⟩ := r e rfl
  refine ⟨inv, hl, ?_⟩
  simp only [] at hc ⊢
  have h3 : CancelledInv inv.task true (if flags.enableProfiling = true then
      match s1.currentTask with
      | some t => updateTask s1 t.id (fun t => { t with isQueued := some false })
      | none => s1
    else s1) := by
    split_ifs
    · split
      · exact updateTask_cancelledInv inv.task true s1 _ _ (fun _ => rfl) (fun _ _ _ hc => hc) hc
      · exact hc
    · exact hc
  obtain ⟨a1, a2, _, a4, a5⟩ := h3
  exact ⟨a1, a2, (fun t ht => (by cases ht)), a4, a5⟩

/-- C14. If a flush ends with a thrown error, the task that threw, which is the
task invoked last, has a null callback after the flush in every queue; whatever
the scheduler is asked to do afterwards, later flushes included, the callbacks
invoked are those of other tasks and the callback field stays null; and a later
`workLoop` that finds the task at the root of the ready queue, and does not break
before looking at it, pops it and goes on without invoking anything. The
identifiers of the queued tasks are taken to be below the task counter. -/
theorem thrown_task_not_retried (flags : SchedulerFeatureFlags) (run : Callbacks) (fuel : Nat)
    (s : State) (initialTime : Int) (e : Nat) (h : IdsBelow s)
    (hthrow : (flushWork flags run fuel s initialTime).2 = Completion.threw e) :
    ∃ inv, (flushWork flags run fuel s initialTime).1.invoked.getLast? = some inv ∧
      (∀ t ∈ (flushWork flags run fuel s initialTime).1.taskQueue ++
          (flushWork flags run fuel s initialTime).1.timerQueue,
        t.id = inv.task → t.callback = none) ∧
      ∀ ops : List SchedulerOp,
        (∃ new, (runSchedulerOps flags run ops (flushWork flags run fuel s initialTime).1).invoked
            = (flushWork flags run fuel s initialTime).1.invoked ++ new ∧
          ∀ i ∈ new, i.task ≠ inv.task) ∧
        (∀ t ∈ (runSchedulerOps flags run ops (flushWork flags run fuel s initialTime).1).taskQueue
            ++ (runSchedulerOps flags run ops (flushWork flags run fuel s initialTime).1).timerQueue,
          t.id = inv.task → t.callback = none) ∧
        ∀ (fuel2 : Nat) (ct : Int) (t : Task),
          peek (advanceTimers flags
            (runSchedulerOps flags run ops (flushWork flags run fuel s initialTime).1)
            ct).taskQueue = some t →
          t.id = inv.task →
          ¬ ((!flags.enableAlwaysYieldScheduler) = true ∧ t.expirationTime > ct ∧
            shouldYieldToHost flags (nextTask (advanceTimers flags
              (runSchedulerOps flags run ops (flushWork flags run fuel s initialTime).1) ct))
              = true) →
          (workLoop flags run (fuel2 + 1)
              (runSchedulerOps flags run ops (flushWork flags run fuel s initialTime).1) ct
            = if flags.enableAlwaysYieldScheduler &&
                nullOrNotExpired (nextTask (popTask (nextTask (advanceTimers flags
                  (runSchedulerOps flags run ops (flushWork flags run fuel s initialTime).1)
                  ct)))).currentTask ct then
              workLoopReturn (nextTask (popTask (nextTask (advanceTimers flags
                (runSchedulerOps flags run ops (flushWork flags run fuel s initialTime).1)
                ct)))) ct
            else workLoopLoop flags run fuel2 (nextTask (popTask (nextTask (advanceTimers flags
                (runSchedulerOps flags run ops (flushWork flags run fuel s initialTime).1)
                ct)))) ct) ∧
          (nextTask (popTask (nextTask (advanceTimers flags
              (runSchedulerOps flags run ops (flushWork flags run fuel s initialTime).1)
              ct)))).invoked
            = (runSchedulerOps flags run ops (flushWork flags run fuel s initialTime).1).invoked
          := by
  obtain ⟨inv, hl, hc⟩ := flushWork_threw flags run fuel s initialTime e h hthrow
  refine ⟨inv, hl, ?_, ?_⟩
  · intro t ht
    rcases List.mem_append.mp ht with hm | hm
    · exact hc.1 t hm
    · exact hc.2.1 t hm
  · intro ops
    have r := runSchedulerOps_cancelledInv flags run inv.task true ops _ hc
    generalize runSchedulerOps flags run ops (flushWork flags run fuel s initialTime).1 = s2 at r
    refine ⟨r.2, ?_, ?_⟩
    · intro t ht
      rcases List.mem_append.mp ht with hm | hm
      · exact r.1.1 t hm
      · exact r.1.2.1 t hm
    · intro fuel2 ct t hpeek hid hgate
      have r3 := advanceTimers_cancelledInv flags inv.task true s2 ct r.1
      have hcb : t.callback = none := r3.1.1 t (mem_of_peek _ t hpeek) hid
      refine ⟨?_, ?_⟩
      · unfold workLoop
        exact workLoopLoop_skip flags run fuel2 _ ct t hpeek hgate hcb
      · show (advanceTimers flags s2 ct).invoked = s2.invoked
        exact advanceTimers_invoked flags s2 ct

/-- C14, at a state with one ready task whose callback throws: after the flush
the task invoked last has number 1, and a second flush invokes nothing. -/
theorem thrown_task_not_retried_witness :
    ∃ inv, (flushWork ⟨false, 5, 250, 10000, 5000, true, false⟩
        (fun _ _ _ => ⟨[.elapse 1], .throw 9⟩) 5
        { init ⟨false, 5, 250, 10000, 5000, true, false⟩ 0 with
          taskQueue := [⟨1, some 7, 3, 0, 5000, 5000, none⟩],
          taskIdCounter := 2 } 0).1.invoked.getLast? = some inv :=
  (thrown_task_not_retried ⟨false, 5, 250, 10000, 5000, true, false⟩
    (fun _ _ _ => ⟨[.elapse 1], .throw 9⟩) 5
    { init ⟨false, 5, 250, 10000, 5000, true, false⟩ 0 with
      taskQueue := [⟨1, some 7, 3, 0, 5000, 5000, none⟩],
      taskIdCounter := 2 } 0 9 (by unfold IdsBelow; decide) (by decide)).imp (fun _ h => h.1)

end Scheduler


/-! ## The scheduler: the invariant of the queues -/

namespace Scheduler

open SchedulerMinHeap SchedulerPriorities

theorem wellFormed_congr (s s' : State) (h1 : s'.taskQueue = s.taskQueue)
    (h2 : s'.timerQueue = s.timerQueue) (h : WellFormed s) : WellFormed s' := by
  unfold WellFormed at h ⊢
  rw [h1, h2]
  exact h

theorem schedulerInv_congr (s s' : State) (h1 : s'.taskQueue = s.taskQueue)
    (h2 : s'.timerQueue = s.timerQueue) (h4 : s'.taskIdCounter = s.taskIdCounter)
    (h : SchedulerInv s) : SchedulerInv s' :=
  ⟨wellFormed_congr s s' h1 h2 h.1, idsBelow_congr s s' h1 h2 h4 h.2⟩

theorem compare_congr (a b a' b' : Task) (h1 : a'.sortIndex = a.sortIndex) (h2 : a'.id = a.id)
    (h3 : b'.sortIndex = b.sortIndex) (h4 : b'.id = b.id) :
    SchedulerMinHeap.compare a' b' = SchedulerMinHeap.compare a b := by
  unfold SchedulerMinHeap.compare
  show (if a'.sortIndex - b'.sortIndex ≠ 0 then a'.sortIndex - b'.sortIndex else a'.id - b'.id)
    = (if a.sortIndex - b.sortIndex ≠ 0 then a.sortIndex - b.sortIndex else a.id - b.id)
  rw [h1, h2, h3, h4]

/-- A write to fields other than `sortIndex` and `id` keeps a heap a heap. -/
theorem isHeap_map (heap : Heap Task) (g : Task → Task)
    (hg : ∀ t, (g t).sortIndex = t.sortIndex ∧ (g t).id = t.id) (h : IsHeap heap) :
    IsHeap (heap.map g) := by
  have key : ∀ i j, LeAt heap i j → LeAt (heap.map g) i j := by
    intro i j hle a b ha hb
    rw [List.getElem?_map] at ha hb
    obtain ⟨a0, ha0, rfl⟩ := Option.map_eq_some'.mp ha
    obtain ⟨b0, hb0, rfl⟩ := Option.map_eq_some'.mp hb
    rw [compare_congr a0 b0 _ _ (hg a0).1 (hg a0).2 (hg b0).1 (hg b0).2]
    exact hle a0 b0 ha0 hb0
  intro i hi
  rw [List.length_map] at hi
  exact ⟨key _ _ (h i hi).1, key _ _ (h i hi).2⟩

theorem updateTask_wellFormed (s : State) (id' : Int) (f : Task → Task)
    (hf : ∀ t, (f t).id = t.id ∧ (f t).sortIndex = t.sortIndex ∧ (f t).startTime = t.startTime ∧
      (f t).expirationTime = t.expirationTime) (h : WellFormed s) :
    WellFormed (updateTask s id' f) := by
  have key : ∀ t : Task, (if t.id = id' then f t else t).id = t.id ∧
      (if t.id = id' then f t else t).sortIndex = t.sortIndex ∧
      (if t.id = id' then f t else t).startTime = t.startTime ∧
      (if t.id = id' then f t else t).expirationTime = t.expirationTime := by
    intro t
    by_cases e : t.id = id'
    · simp only [e, if_true]
      rw [← e]
      exact hf t
    · simp only [e, if_false]
      exact ⟨trivial, trivial, trivial, trivial⟩
  obtain ⟨h1, h2, h3, h4, h5⟩ := h
  have hids : ∀ l : List Task,
      (l.map (fun t => if t.id = id' then f t else t)).map Task.id = l.map Task.id := by
    intro l
    rw [List.map_map]
    apply List.map_congr_left
    intro t _
    exact (key t).1
  refine ⟨?_, ?_, ?_, ?_, ?_⟩
  · intro t ht
    obtain ⟨u, hu, rfl⟩ := List.mem_map.mp ht
    rw [(key u).2.1, (key u).2.2.1]
    exact h1 u hu
  · intro t ht
    obtain ⟨u, hu, rfl⟩ := List.mem_map.mp ht
    rw [(key u).2.1, (key u).2.2.2]
    exact h2 u hu
  · show ((s.taskQueue.map _ ++ s.timerQueue.map _).map Task.id).Nodup
    rw [List.map_append, hids, hids, ← List.map_append]
    exact h3
  · exact isHeap_map _ _ (fun t => ⟨(key t).2.1, (key t).1⟩) h4
  · exact isHeap_map _ _ (fun t => ⟨(key t).2.1, (key t).1⟩) h5

theorem updateTask_schedulerInv (s : State) (id' : Int) (f : Task → Task)
    (hf : ∀ t, (f t).id = t.id ∧ (f t).sortIndex = t.sortIndex ∧ (f t).startTime = t.startTime ∧
      (f t).expirationTime = t.expirationTime) (h : SchedulerInv s) :
    SchedulerInv (updateTask s id' f) := by
  refine ⟨updateTask_wellFormed s id' f hf h.1, ?_⟩
  refine idsBelow_of_ids s (updateTask s id' f) ?_ (le_refl _) h.2
  have keyid : ∀ t : Task, (if t.id = id' then f t else t).id = t.id := by
    intro t
    by_cases e : t.id = id'
    · simp only [e, if_true]
      rw [← e]
      exact (hf t).1
    · simp only [e, if_false]
  intro t ht
  rcases List.mem_append.mp ht with hm | hm
  · obtain ⟨u, hu, rfl⟩ := List.mem_map.mp hm
    exact ⟨u, List.mem_append_left _ hu, (keyid u).symm⟩
  · obtain ⟨u, hu, rfl⟩ := List.mem_map.mp hm
    exact ⟨u, List.mem_append_right _ hu, (keyid u).symm⟩

theorem scheduleCallback_idsBelow (flags : SchedulerFeatureFlags) (s : State)
    (p : PriorityLevel) (cb : Callback) (o : Option Int) (h : IdsBelow s) :
    IdsBelow (unstable_scheduleCallback flags s p cb o).2 := by
  obtain ⟨_, f2, f3, _⟩ := scheduleCallback_frame flags s p cb o
  have hq := scheduleCallback_queues flags s p cb o
  have hnew : (scheduleNewTask flags s p cb o).id = s.taskIdCounter := rfl
  intro t ht
  rw [f3]
  by_cases hd : scheduleStartTime s.currentTime o > s.currentTime
  · rw [(hq.1 hd).1, (hq.1 hd).2] at ht
    rcases List.mem_append.mp ht with hm | hm
    · have := h t (List.mem_append_left _ hm)
      omega
    · rcases List.mem_cons.mp ((push_perm_cons _ _).mem_iff.mp hm) with e | e
      · rw [e, hnew]
        omega
      · have := h t (List.mem_append_right _ e)
        omega
  · rw [(hq.2 hd).1, (hq.2 hd).2] at ht
    rcases List.mem_append.mp ht with hm | hm
    · rcases List.mem_cons.mp ((push_perm_cons _ _).mem_iff.mp hm) with e | e
      · rw [e, hnew]
        omega
      · have := h t (List.mem_append_left _ e)
        omega
    · have := h t (List.mem_append_right _ hm)
      omega

theorem scheduleCallback_schedulerInv (flags : SchedulerFeatureFlags) (s : State)
    (p : PriorityLevel) (cb : Callback) (o : Option Int) (h : SchedulerInv s) :
    SchedulerInv (unstable_scheduleCallback flags s p cb o).2 := by
  refine ⟨?_, scheduleCallback_idsBelow flags s p cb o h.2⟩
  have hq := scheduleCallback_queues flags s p cb o
  have hnew : (scheduleNewTask flags s p cb o).id = s.taskIdCounter := rfl
  obtain ⟨⟨h1, h2, h3, h4, h5⟩, hb⟩ := h
  have hfresh : s.taskIdCounter ∉ (s.taskQueue ++ s.timerQueue).map Task.id := by
    intro hm
    obtain ⟨u, hu, e⟩ := List.mem_map.mp hm
    have := hb u hu
    omega
  have hnd : ((scheduleNewTask flags s p cb o :: (s.taskQueue ++ s.timerQueue)).map
      Task.id).Nodup := by
    rw [List.map_cons, hnew]
    exact List.nodup_cons.mpr ⟨hfresh, h3⟩
  unfold WellFormed
  by_cases hd : scheduleStartTime s.currentTime o > s.currentTime
  · rw [(hq.1 hd).1, (hq.1 hd).2]
    have hp := push_perm s.timerQueue (scheduleNewTask flags s p cb o) h5
    refine ⟨?_, h2, ?_, h4, hp.2⟩
    · intro t ht
      rcases List.mem_cons.mp (hp.1.mem_iff.mp ht) with e | e
      · rw [e]
        simp only [scheduleNewTask, hd, if_true]
      · exact h1 t e
    · refine (List.Perm.nodup_iff (List.Perm.map Task.id ?_)).mpr hnd
      exact (List.Perm.append_left _ hp.1).trans List.perm_middle
  · rw [(hq.2 hd).1, (hq.2 hd).2]
    have hp := push_perm s.taskQueue (scheduleNewTask flags s p cb o) h4
    refine ⟨h1, ?_, ?_, hp.2, h5⟩
    · intro t ht
      rcases List.mem_cons.mp (hp.1.mem_iff.mp ht) with e | e
      · rw [e]
        simp only [scheduleNewTask, hd, if_false]
      · exact h2 t e
    · refine (List.Perm.nodup_iff (List.Perm.map Task.id ?_)).mpr hnd
      exact List.Perm.append_right _ hp.1

theorem advanceTimers_schedulerInv (flags : SchedulerFeatureFlags) (s : State) (ct : Int)
    (h : SchedulerInv s) : SchedulerInv (advanceTimers flags s ct) := by
  refine ⟨?_, advanceTimers_idsBelow flags s ct h.2⟩
  obtain ⟨⟨h1, h2, h3, h4, h5⟩, _⟩ := h
  unfold advanceTimers
  obtain ⟨promoted, dropped, p1, p2, _, _⟩ :=
    advanceTimersLoop_queues flags ct s.timerQueue.length s
  have hh := advanceTimersLoop_isHeap flags ct s.timerQueue.length s
  refine ⟨?_, ?_, ?_, hh.1 h4, hh.2 h5⟩
  · intro t ht
    exact h1 t (p2.mem_iff.mpr (List.mem_append_right _ (List.mem_append_right _ ht)))
  · intro t ht
    rcases List.mem_append.mp (p1.mem_iff.mp ht) with e | e
    · obtain ⟨u, _, rfl⟩ := List.mem_map.mp e
      rfl
    · exact h2 t e
  · have hpm : (promoted.map (promote flags)).map Task.id = promoted.map Task.id := by
      rw [List.map_map]
      rfl
    have e1 : List.Perm
        (((advanceTimersLoop flags s.timerQueue.length s ct).taskQueue ++
          (advanceTimersLoop flags s.timerQueue.length s ct).timerQueue).map Task.id)
        (promoted.map Task.id ++ (s.taskQueue.map Task.id ++
          (advanceTimersLoop flags s.timerQueue.length s ct).timerQueue.map Task.id)) := by
      rw [List.map_append]
      refine (List.Perm.append_right _ (List.Perm.map Task.id p1)).trans ?_
      rw [List.map_append, hpm, List.append_assoc]
    have e2 : List.Perm ((s.taskQueue ++ s.timerQueue).map Task.id)
        (dropped.map Task.id ++ (promoted.map Task.id ++ (s.taskQueue.map Task.id ++
          (advanceTimersLoop flags s.timerQueue.length s ct).timerQueue.map Task.id))) := by
      rw [List.map_append]
      refine (List.Perm.append_left _ (List.Perm.map Task.id p2)).trans ?_
      simp only [List.map_append]
      generalize promoted.map Task.id = a
      generalize dropped.map Task.id = b
      generalize s.taskQueue.map Task.id = c
      generalize (advanceTimersLoop flags s.timerQueue.length s ct).timerQueue.map Task.id = d
      refine List.perm_iff_count.mpr ?_
      intro x
      simp only [List.count_append]
      omega
    have n2 := (List.Perm.nodup_iff e2).mp h3
    exact (List.Perm.nodup_iff e1).mpr (List.Nodup.of_append_right n2)

theorem popTask_schedulerInv (s : State) (h : SchedulerInv s) : SchedulerInv (popTask s) := by
  obtain ⟨⟨h1, h2, h3, h4, h5⟩, hb⟩ := h
  have hb2 : IdsBelow (popTask s) := by
    refine idsBelow_of_ids s (popTask s) ?_ (le_refl _) hb
    intro t ht
    rcases List.mem_append.mp ht with hm | hm
    · exact ⟨t, List.mem_append_left _ (mem_pop _ t hm), rfl⟩
    · exact ⟨t, List.mem_append_right _ hm, rfl⟩
  refine ⟨⟨h1, ?_, ?_, pop_isHeap _ h4, h5⟩, hb2⟩
  · intro t ht
    exact h2 t (mem_pop _ t ht)
  · show (((pop s.taskQueue).2 ++ s.timerQueue).map Task.id).Nodup
    rcases peek_cases s.taskQueue with ⟨_, he⟩ | ⟨first, _, h0⟩
    · rw [he] at h3 ⊢
      rw [pop_nil]
      exact h3
    · have hp := (pop_perm s.taskQueue first h0).2
      have n2 := (List.Perm.nodup_iff
        (List.Perm.map Task.id (List.Perm.append_right s.timerQueue hp))).mpr h3
      rw [List.cons_append, List.map_cons] at n2
      exact (List.nodup_cons.mp n2).2

theorem runStep_schedulerInv (flags : SchedulerFeatureFlags) (s : State) (st : Step)
    (h : SchedulerInv s) : SchedulerInv (runStep flags s st) := by
  cases st with
  | elapse ms => exact schedulerInv_congr s _ rfl rfl rfl h
  | scheduleCallback p cb o => exact scheduleCallback_schedulerInv flags s p cb o h
  | cancelCallback task =>
    exact updateTask_schedulerInv s task _ (fun _ => ⟨rfl, rfl, rfl, rfl⟩) h
  | requestPaint =>
    obtain ⟨e1, e2, _, e4, _⟩ := requestPaint_fields flags s
    exact schedulerInv_congr s _ e1 e2 e4 h

theorem foldl_runStep_schedulerInv (flags : SchedulerFeatureFlags) :
    ∀ (steps : List Step) (s : State), SchedulerInv s →
      SchedulerInv (steps.foldl (runStep flags) s) := by
  intro steps
  induction steps with
  | nil => intro s h; exact h
  | cons st steps ih =>
    intro s h
    exact ih _ (runStep_schedulerInv flags s st h)

theorem callCallback_schedulerInv (flags : SchedulerFeatureFlags) (run : Callbacks)
    (s : State) (t : Task) (cb : Callback) (ct : Int) (h : SchedulerInv s) :
    SchedulerInv (callCallback flags run s t cb ct).1 := by
  unfold callCallback
  simp only []
  refine foldl_runStep_schedulerInv flags _ _ ?_
  exact schedulerInv_congr _ _ rfl rfl rfl
    (updateTask_schedulerInv s t.id _ (fun _ => ⟨rfl, rfl, rfl, rfl⟩) h)

theorem completeTask_schedulerInv (flags : SchedulerFeatureFlags) (s : State) (t : Task)
    (ct : Int) (h : SchedulerInv s) : SchedulerInv (completeTask flags s t ct) := by
  unfold completeTask
  simp only []
  apply advanceTimers_schedulerInv
  have h1 : SchedulerInv (if flags.enableProfiling = true then
      updateTask s t.id (fun t => { t with isQueued := some false }) else s) := by
    split_ifs
    · exact updateTask_schedulerInv s t.id _ (fun _ => ⟨rfl, rfl, rfl, rfl⟩) h
    · exact h
  generalize (if flags.enableProfiling = true then
      updateTask s t.id (fun t => { t with isQueued := some false }) else s) = s1 at h1
  split_ifs
  · exact popTask_schedulerInv s1 h1
  · exact h1

/-- The loop of `workLoop` keeps the invariant of the queues, whatever the
callbacks do and whatever the fuel. -/
theorem workLoopLoop_schedulerInv (flags : SchedulerFeatureFlags) (run : Callbacks) (fuel : Nat)
    (s : State) (ct : Int) (h : SchedulerInv s) :
    SchedulerInv (workLoopLoop flags run fuel s ct).1 := by
  refine (workLoopLoop_induction flags run SchedulerInv (fun _ s1 => SchedulerInv s1)
    (fun s1 _ => SchedulerInv s1) (fun _ _ => True) (fun _ => trivial)
    (fun _ _ _ _ _ => trivial) (fun _ h => h) ?_ ?_ (fun _ _ _ h => h) ?_ ?_ ?_ fuel s ct h).1
  · intro s ct h
    obtain ⟨e1, e2, _, e4, _⟩ := workLoopReturn_fields s ct
    exact ⟨schedulerInv_congr s _ e1 e2 e4 h, trivial⟩
  · intro s t cb ct h _ _
    exact ⟨callCallback_schedulerInv flags run s t cb ct h, trivial⟩
  · intro t s1 c h
    exact ⟨advanceTimers_schedulerInv flags _ _
      (updateTask_schedulerInv s1 t.id _ (fun _ => ⟨rfl, rfl, rfl, rfl⟩) h), trivial⟩
  · intro t s1 h
    exact ⟨schedulerInv_congr _ _ rfl rfl rfl (completeTask_schedulerInv flags s1 t _ h),
      trivial⟩
  · intro s t h _ _
    exact ⟨schedulerInv_congr _ _ rfl rfl rfl (popTask_schedulerInv s h), trivial⟩

theorem flushWork_schedulerInv (flags : SchedulerFeatureFlags) (run : Callbacks) (fuel : Nat)
    (s : State) (ct : Int) (h : SchedulerInv s) :
    SchedulerInv (flushWork flags run fuel s ct).1 := by
  obtain ⟨e1, e2, _, _, _, _, _, e4⟩ := flushWorkEntry_queues s
  have h0 : SchedulerInv (flushWorkEntry s) := schedulerInv_congr s _ e1 e2 e4 h
  have r := workLoopLoop_schedulerInv flags run fuel
    (nextTask (advanceTimers flags (flushWorkEntry s) ct)) ct
    (schedulerInv_congr _ _ rfl rfl rfl (advanceTimers_schedulerInv flags _ ct h0))
  unfold flushWork
  simp only []
  unfold workLoop
  generalize workLoopLoop flags run fuel
    (nextTask (advanceTimers flags (flushWorkEntry s) ct)) ct = w at r
  obtain ⟨s1, c⟩ := w
  cases c with
  | outOfFuel => exact r
  | returned hasMore => exact schedulerInv_congr s1 _ rfl rfl rfl r
  | threw e =>
    simp only [] at r ⊢
    have h3 : SchedulerInv (if flags.enableProfiling = true then
        match s1.currentTask with
        | some t => updateTask s1 t.id (fun t => { t with isQueued := some false })
        | none => s1
      else s1) := by
      split_ifs
      · split
        · exact updateTask_schedulerInv s1 _ _ (fun _ => ⟨rfl, rfl, rfl, rfl⟩) r
        · exact r
      · exact r
    exact schedulerInv_congr _ _ rfl rfl rfl h3

theorem handleTimeout_schedulerInv (flags : SchedulerFeatureFlags) (s : State) (ct : Int)
    (h : SchedulerInv s) : SchedulerInv (handleTimeout flags s ct) := by
  have r := advanceTimers_schedulerInv flags { s with isHostTimeoutScheduled := false } ct
    (schedulerInv_congr s _ rfl rfl rfl h)
  unfold handleTimeout
  simp only []
  generalize advanceTimers flags { s with isHostTimeoutScheduled := false } ct = s1 at r
  unfold requestHostCallback requestHostTimeout
  split_ifs
  · exact schedulerInv_congr s1 _ rfl rfl rfl r
  · exact schedulerInv_congr s1 _ rfl rfl rfl r
  · split
    · exact schedulerInv_congr s1 _ rfl rfl rfl r
    · exact r
  · exact r

theorem applySchedulerOp_schedulerInv (flags : SchedulerFeatureFlags) (run : Callbacks)
    (s : State) (op : SchedulerOp) (h : SchedulerInv s) :
    SchedulerInv (applySchedulerOp flags run s op) := by
  cases op with
  | advanceTimers ct => exact advanceTimers_schedulerInv flags s ct h
  | handleTimeout ct => exact handleTimeout_schedulerInv flags s ct h
  | flushWork fuel ct => exact flushWork_schedulerInv flags run fuel s ct h
  | scheduleCallback p cb o => exact scheduleCallback_schedulerInv flags s p cb o h
  | cancelCallback task =>
    exact updateTask_schedulerInv s task _ (fun _ => ⟨rfl, rfl, rfl, rfl⟩) h
  | requestPaint =>
    obtain ⟨e1, e2, _, e4, _⟩ := requestPaint_fields flags s
    exact schedulerInv_congr s _ e1 e2 e4 h
  | elapse ms => exact schedulerInv_congr s _ rfl rfl rfl h

theorem runSchedulerOps_schedulerInv (flags : SchedulerFeatureFlags) (run : Callbacks)
    (ops : List SchedulerOp) :
    ∀ (s : State), SchedulerInv s → SchedulerInv (runSchedulerOps flags run ops s) := by
  induction ops with
  | nil => intro s h; exact h
  | cons op ops ih =>
    intro s h
    exact ih _ (applySchedulerOp_schedulerInv flags run s op h)

theorem init_schedulerInv (flags : SchedulerFeatureFlags) (now : Int) :
    SchedulerInv (init flags now) := by
  refine ⟨⟨?_, ?_, ?_, isHeap_nil, isHeap_nil⟩, ?_⟩
  · intro t ht; cases ht
  · intro t ht; cases ht
  · exact List.nodup_nil
  · intro t ht; cases ht

/-- C23. In every state reached from the initial, empty state by calls of
submit, cancel, `advanceTimers`, `handleTimeout`, `requestPaint` and flush in
any order, with any callbacks and with time passing in between, every task in
the timer queue has `sortIndex = startTime`, every task in the task queue has
`sortIndex = expirationTime`, no task identifier occurs in both queues or twice
in one queue, and both queues satisfy the heap invariant under `compare`. -/
theorem reachable_queues_wellFormed (flags : SchedulerFeatureFlags) (run : Callbacks)
    (now : Int) (ops : List SchedulerOp) :
    (∀ t ∈ (runSchedulerOps flags run ops (init flags now)).timerQueue,
      t.sortIndex = t.startTime) ∧
    (∀ t ∈ (runSchedulerOps flags run ops (init flags now)).taskQueue,
      t.sortIndex = t.expirationTime) ∧
    (((runSchedulerOps flags run ops (init flags now)).taskQueue ++
      (runSchedulerOps flags run ops (init flags now)).timerQueue).map Task.id).Nodup ∧
    IsHeap (runSchedulerOps flags run ops (init flags now)).taskQueue ∧
    IsHeap (runSchedulerOps flags run ops (init flags now)).timerQueue :=
  (runSchedulerOps_schedulerInv flags run ops _ (init_schedulerInv flags now)).1

end Scheduler


/-! ## The scheduler: the order of a run -/

namespace Scheduler

open SchedulerMinHeap SchedulerPriorities

theorem map_update_fix (l : List Task) (i : Int) (f : Task → Task)
    (h : ∀ x ∈ l, x.id ≠ i) : l.map (fun x => if x.id = i then f x else x) = l := by
  conv_rhs => rw [← List.map_id l]
  apply List.map_congr_left
  intro x hx
  rw [if_neg (h x hx)]
  rfl

/-- A write to the root of the task queue through its identifier, when no other
queued task has that identifier. -/
theorem map_update_root (l R : List Task) (x : Task) (f : Task → Task)
    (h0 : l[0]? = some x) (hp : List.Perm l (x :: R))
    (hR : ∀ y ∈ R, y.id ≠ x.id) :
    (l.map (fun y => if y.id = x.id then f y else y))[0]? = some (f x) ∧
    List.Perm (l.map (fun y => if y.id = x.id then f y else y)) (f x :: R) := by
  constructor
  · rw [List.getElem?_map, h0]
    simp
  · have := hp.map (fun y => if y.id = x.id then f y else y)
    rw [List.map_cons, map_update_fix R x.id f hR] at this
    simpa using this

theorem pop_root_perm (l R : List Task) (x : Task) (h0 : l[0]? = some x)
    (hp : List.Perm l (x :: R)) : List.Perm (pop l).2 R :=
  List.Perm.cons_inv (((pop_perm l x h0).2).trans hp)

theorem completeTask_fields (flags : SchedulerFeatureFlags) (s : State) (t : Task) (ct : Int) :
    (completeTask flags s t ct).currentTime = s.currentTime ∧
    (completeTask flags s t ct).startTime = s.startTime ∧
    (completeTask flags s t ct).frameInterval = s.frameInterval ∧
    (completeTask flags s t ct).needsPaint = s.needsPaint ∧
    (completeTask flags s t ct).taskIdCounter = s.taskIdCounter := by
  unfold completeTask advanceTimers
  simp only []
  rw [advanceTimersLoop_frame]
  split_ifs <;> exact ⟨rfl, rfl, rfl, rfl, rfl⟩

/-- The clock after a callback call that makes no call to the scheduler and
takes at most `d` milliseconds. -/
theorem callCallback_clock (flags : SchedulerFeatureFlags) (run : Callbacks) (d : Nat)
    (hrun : ∀ c b st, (run c b st).Quiet) (hd : ∀ c b st, (run c b st).elapsed ≤ d)
    (s : State) (t : Task) (cb : Callback) (ct : Int) :
    ∃ n : Nat, n ≤ d ∧ (callCallback flags run s t cb ct).1.currentTime = s.currentTime + n := by
  unfold callCallback
  simp only []
  rw [foldl_runStep_quiet flags _ _ (hrun _ _ _)]
  exact ⟨_, hd _ _ _, rfl⟩

/-- The queues after an iteration of `workLoop` that calls the callback of the
root `t` of the task queue, when the callback makes no call to the scheduler:
`t` has left the task queue, the timers `P` have been promoted into it and the
cancelled timers `D` have been dropped. -/
theorem iteration_queues (flags : SchedulerFeatureFlags) (run : Callbacks)
    (hrun : ∀ c b st, (run c b st).Quiet) (s : State) (t : Task) (cb : Callback)
    (ct ct1 : Int) (h0 : s.taskQueue[0]? = some t)
    (hnd : ((s.taskQueue ++ s.timerQueue).map Task.id).Nodup) :
    ∃ P D R : List Task,
      List.Perm (t :: R) s.taskQueue ∧
      List.Perm (completeTask flags (callCallback flags run s t cb ct).1 t ct1).taskQueue
        (P.map (promote flags) ++ R) ∧
      List.Perm s.timerQueue
        (P ++ (D ++ (completeTask flags (callCallback flags run s t cb ct).1 t ct1).timerQueue)) ∧
      (∀ p ∈ P, p.callback ≠ none) := by
  have hpt := (pop_perm s.taskQueue t h0).2
  have hnd2 : (((t :: (pop s.taskQueue).2) ++ s.timerQueue).map Task.id).Nodup :=
    (List.Perm.nodup_iff ((List.Perm.append_right _ hpt).map Task.id)).mpr hnd
  rw [List.cons_append, List.map_cons, List.nodup_cons, List.map_append, List.mem_append] at hnd2
  have hR : ∀ y ∈ (pop s.taskQueue).2, y.id ≠ t.id := by
    intro y hy e
    exact hnd2.1 (Or.inl (List.mem_map.mpr ⟨y, hy, e⟩))
  have hT : ∀ y ∈ s.timerQueue, y.id ≠ t.id := by
    intro y hy e
    exact hnd2.1 (Or.inr (List.mem_map.mpr ⟨y, hy, e⟩))
  obtain ⟨q1, q2, _⟩ := callCallback_quiet flags run hrun s t cb ct
  generalize (callCallback flags run s t cb ct).1 = s1 at q1 q2
  have a1 := map_update_root s.taskQueue (pop s.taskQueue).2 t
    (fun t => { t with callback := none }) h0 hpt.symm hR
  have b1 : s1.timerQueue = s.timerQueue := by
    rw [q2]
    exact map_update_fix s.timerQueue t.id _ hT
  have c1 : ∃ x, x.id = t.id ∧ s1.taskQueue[0]? = some x ∧
      List.Perm s1.taskQueue (x :: (pop s.taskQueue).2) :=
    ⟨{ t with callback := none }, rfl, by rw [q1]; exact a1.1, by rw [q1]; exact a1.2⟩
  clear q1 q2 a1
  -- the write of `isQueued` under profiling
  have c2 : ∃ s2 : State, (if flags.enableProfiling = true then
        updateTask s1 t.id (fun t => { t with isQueued := some false }) else s1) = s2 ∧
      s2.timerQueue = s.timerQueue ∧
      ∃ x, x.id = t.id ∧ s2.taskQueue[0]? = some x ∧
        List.Perm s2.taskQueue (x :: (pop s.taskQueue).2) := by
    refine ⟨_, rfl, ?_, ?_⟩
    · split_ifs
      · show s1.timerQueue.map _ = _
        rw [b1]
        exact map_update_fix s.timerQueue t.id _ hT
      · exact b1
    · split_ifs
      · obtain ⟨x, hx, hx0, hxp⟩ := c1
        have a2 := map_update_root s1.taskQueue (pop s.taskQueue).2 x
          (fun t => { t with isQueued := some false }) hx0 hxp
          (by rw [hx]; exact hR)
        rw [hx] at a2
        exact ⟨{ x with isQueued := some false }, hx, a2.1, a2.2⟩
      · exact c1
  obtain ⟨s2, hs2, b2, x, hx, hx0, hxp⟩ := c2
  unfold completeTask
  simp only []
  rw [hs2]
  have hpk : (peek s2.taskQueue).map Task.id = some t.id := by
    rw [peek_eq, hx0]
    simp [hx]
  rw [if_pos hpk]
  unfold advanceTimers
  obtain ⟨P, D, p1, p2, p3, _⟩ :=
    advanceTimersLoop_queues flags ct1 (popTask s2).timerQueue.length (popTask s2)
  refine ⟨P, D, (pop s.taskQueue).2, hpt, ?_, ?_, fun p hp => (p3 p hp).1⟩
  · refine p1.trans (List.Perm.append_left _ ?_)
    exact pop_root_perm s2.taskQueue _ x hx0 hxp
  · rw [← b2]
    exact p2


/-- An iteration of `workLoop` that calls the callback of the root of the task
queue keeps the invariant of the run and takes a task off the queues. -/
theorem iteration_runInv (flags : SchedulerFeatureFlags) (run : Callbacks) (d : Nat)
    (hrun : ∀ c b st, (run c b st).Quiet) (hd : ∀ c b st, (run c b st).elapsed ≤ d)
    (ready : List Task) (all : List Int) (base : List Invocation) (done : List Task)
    (s : State) (t : Task) (cb : Callback) (ct : Int)
    (h : RunInv flags d ready all base done s) (h0 : s.taskQueue[0]? = some t)
    (hcb : t.callback = some cb) :
    (∃ done1, RunInv flags d ready all base done1
      (nextTask (completeTask flags (callCallback flags run s t cb ct).1 t
        (callCallback flags run s t cb ct).1.currentTime))) ∧
    queued (nextTask (completeTask flags (callCallback flags run s t cb ct).1 t
        (callCallback flags run s t cb ct).1.currentTime)) < queued s := by
  obtain ⟨hinv, hcur, hlive, hperm, htim, hall, hpw, hlt, ⟨new, hlog, hnall, hfil⟩, hpaint, hbud⟩ := h
  obtain ⟨_, _, _, _, k2, k3, k4, _⟩ := callCallback_quiet flags run hrun s t cb ct
  obtain ⟨n, hn, k1⟩ := callCallback_clock flags run d hrun hd s t cb ct
  rw [k1]
  have F1 : SchedulerInv (nextTask (completeTask flags (callCallback flags run s t cb ct).1 t
      (s.currentTime + n))) :=
    schedulerInv_congr _ _ rfl rfl rfl (completeTask_schedulerInv flags _ t _
      (callCallback_schedulerInv flags run s t cb ct hinv))
  obtain ⟨P, D, R, pR, pT, pTim, hP⟩ := iteration_queues flags run hrun s t cb ct
    (s.currentTime + n) h0 hinv.1.2.2.1
  have F3 : (completeTask flags (callCallback flags run s t cb ct).1 t
      (s.currentTime + n)).invoked
      = s.invoked ++ [⟨t.id, cb, decide (t.expirationTime ≤ ct)⟩] := by
    rw [completeTask_invoked, callCallback_invoked]
  obtain ⟨g1, g2, g3, g4, _⟩ := completeTask_fields flags (callCallback flags run s t cb ct).1 t
    (s.currentTime + n)
  rw [k1] at g1
  rw [k2] at g2
  rw [k3] at g3
  rw [k4] at g4
  generalize completeTask flags (callCallback flags run s t cb ct).1 t (s.currentTime + ↑n) = s7
    at F1 F3 pT pTim g1 g2 g3 g4 ⊢
  have ht : t ∈ s.taskQueue := List.getElem?_mem h0
  have hRsub : ∀ r ∈ R, r ∈ s.taskQueue := fun r hr => pR.mem_iff.mp (List.mem_cons_of_mem _ hr)
  have hPsub : ∀ p ∈ P, p ∈ s.timerQueue := fun p hp => pTim.mem_iff.mpr (List.mem_append_left _ hp)
  have hTsub : ∀ x ∈ s7.timerQueue, x ∈ s.timerQueue := fun x hx =>
    pTim.mem_iff.mpr (List.mem_append_right _ (List.mem_append_right _ hx))
  have hmem7 : ∀ r ∈ s7.taskQueue, (∃ p ∈ P, r = promote flags p) ∨ r ∈ R := by
    intro r hr
    rcases List.mem_append.mp (pT.mem_iff.mp hr) with e | e
    · obtain ⟨p, hp, rfl⟩ := List.mem_map.mp e
      exact Or.inl ⟨p, hp, rfl⟩
    · exact Or.inr e
  have hndR : ∀ r ∈ R, r.id ≠ t.id := by
    have nd : ((s.taskQueue).map Task.id).Nodup := by
      have := hinv.1.2.2.1
      rw [List.map_append] at this
      exact List.Nodup.of_append_left this
    have nd2 := (List.Perm.nodup_iff (pR.map Task.id)).mpr nd
    rw [List.map_cons, List.nodup_cons] at nd2
    intro r hr e
    exact nd2.1 (List.mem_map.mpr ⟨r, hr, e⟩)
  have hfil7 : List.Perm (s7.taskQueue.filter (fun t => decide (t.id ∈ ready.map Task.id)))
      (R.filter (fun t => decide (t.id ∈ ready.map Task.id))) := by
    refine (pT.filter _).trans ?_
    rw [List.filter_append]
    have : (P.map (promote flags)).filter (fun t => decide (t.id ∈ ready.map Task.id)) = [] := by
      rw [List.filter_eq_nil_iff]
      intro x hx
      obtain ⟨p, hp, rfl⟩ := List.mem_map.mp hx
      have := htim p (hPsub p hp)
      simpa using this
    rw [this]
    exact List.Perm.refl _
  have hfil0 : List.Perm (s.taskQueue.filter (fun t => decide (t.id ∈ ready.map Task.id)))
      ((t :: R).filter (fun t => decide (t.id ∈ ready.map Task.id))) := (pR.filter _).symm
  have hlive7 : ∀ x ∈ s7.taskQueue, x.callback ≠ none := by
    intro x hx
    rcases hmem7 x hx with ⟨p, hp, rfl⟩ | e
    · exact hP p hp
    · exact hlive x (hRsub x e)
  have htim7 : ∀ x ∈ s7.timerQueue, x.id ∉ ready.map Task.id := fun x hx => htim x (hTsub x hx)
  have hall7 : ∀ x ∈ s7.taskQueue ++ s7.timerQueue, x.id ∈ all := by
    intro x hx
    rcases List.mem_append.mp hx with e | e
    · rcases hmem7 x e with ⟨p, hp, rfl⟩ | e2
      · exact hall p (List.mem_append_right _ (hPsub p hp))
      · exact hall x (List.mem_append_left _ (hRsub x e2))
    · exact hall x (List.mem_append_right _ (hTsub x e))
  have hq7 : queued s7 < queued s := by
    have l1 := pR.length_eq
    have l2 := pT.length_eq
    have l3 := pTim.length_eq
    simp only [List.length_cons, List.length_append, List.length_map] at l1 l2 l3
    unfold queued
    omega
  have hbud7 : s7.currentTime + ((d * queued s7 : Nat) : Int) < s7.startTime + s7.frameInterval := by
    rw [g1, g2, g3]
    have hmul : d * queued s7 + d ≤ d * queued s := by
      have : d * (queued s7 + 1) ≤ d * queued s := Nat.mul_le_mul_left d hq7
      rw [Nat.mul_add, Nat.mul_one] at this
      exact this
    have : ((d * queued s7 : Nat) : Int) + (n : Int) ≤ ((d * queued s : Nat) : Int) := by
      have h2 : d * queued s7 + n ≤ d * queued s := by omega
      exact_mod_cast h2
    omega
  have hpaint7 : ¬ (flags.enableRequestPaint = true ∧ s7.needsPaint = true) := by
    rw [g4]
    exact hpaint
  have hall_t : t.id ∈ all := hall t (List.mem_append_left _ ht)
  refine ⟨?_, hq7⟩
  by_cases hmem : t.id ∈ ready.map Task.id
  · refine ⟨done ++ [t], F1, rfl, hlive7, ?_, htim7, hall7, ?_, ?_, ?_, hpaint7, hbud7⟩
    · show List.Perm ready ((done ++ [t]) ++
        s7.taskQueue.filter (fun t => decide (t.id ∈ ready.map Task.id)))
      refine hperm.trans ?_
      rw [List.append_assoc]
      refine List.Perm.append_left _ ?_
      refine hfil0.trans ?_
      rw [List.filter_cons_of_pos (by simpa using hmem)]
      exact List.Perm.cons _ hfil7.symm
    · rw [List.pairwise_append]
      refine ⟨hpw, List.pairwise_singleton _ _, ?_⟩
      intro a ha b hb
      rw [List.mem_singleton] at hb
      rw [hb]
      exact hlt a ha t ht hmem
    · intro a ha r hr hrm
      have hrR : r ∈ R := by
        rcases hmem7 r hr with ⟨p, hp, rfl⟩ | e
        · exact absurd hrm (htim p (hPsub p hp))
        · exact e
      rcases List.mem_append.mp ha with e | e
      · exact hlt a e r (hRsub r hrR) hrm
      · rw [List.mem_singleton] at e
        rw [e]
        exact compare_lt_of_le_of_id_ne
          (root_le_mem s.taskQueue hinv.1.2.2.2.1 t r h0 (hRsub r hrR))
          (fun e2 => hndR r hrR e2.symm)
    · refine ⟨new ++ [⟨t.id, cb, decide (t.expirationTime ≤ ct)⟩], ?_, ?_, ?_⟩
      · show s7.invoked = _
        rw [F3, hlog, List.append_assoc]
      · intro i hi
        rcases List.mem_append.mp hi with e | e
        · exact hnall i e
        · rw [List.mem_singleton] at e
          rw [e]
          exact hall_t
      · rw [List.filter_append, List.map_append, hfil, List.map_append]
        congr 1
        rw [List.filter_cons_of_pos (by simpa using hmem)]
        simp [hcb]
  · refine ⟨done, F1, rfl, hlive7, ?_, htim7, hall7, hpw, ?_, ?_, hpaint7, hbud7⟩
    · show List.Perm ready (done ++
        s7.taskQueue.filter (fun t => decide (t.id ∈ ready.map Task.id)))
      refine hperm.trans (List.Perm.append_left _ ?_)
      refine hfil0.trans ?_
      rw [List.filter_cons_of_neg (by simpa using hmem)]
      exact hfil7.symm
    · intro a ha r hr hrm
      have hrR : r ∈ R := by
        rcases hmem7 r hr with ⟨p, hp, rfl⟩ | e
        · exact absurd hrm (htim p (hPsub p hp))
        · exact e
      exact hlt a ha r (hRsub r hrR) hrm
    · refine ⟨new ++ [⟨t.id, cb, decide (t.expirationTime ≤ ct)⟩], ?_, ?_, ?_⟩
      · show s7.invoked = _
        rw [F3, hlog, List.append_assoc]
      · intro i hi
        rcases List.mem_append.mp hi with e | e
        · exact hnall i e
        · rw [List.mem_singleton] at e
          rw [e]
          exact hall_t
      · rw [List.filter_append, List.filter_cons_of_neg (by simpa using hmem)]
        simpa using hfil


/-- An iteration of `workLoop` that calls a callback which returns no
continuation, with `enableAlwaysYieldScheduler` off. -/
theorem workLoopLoop_done (flags : SchedulerFeatureFlags) (run : Callbacks) (fuel : Nat)
    (s : State) (ct : Int) (t : Task) (cb : Callback) (hcur : s.currentTask = some t)
    (hgate : ¬ ((!flags.enableAlwaysYieldScheduler) = true ∧ t.expirationTime > ct ∧
      shouldYieldToHost flags s = true))
    (hcb : t.callback = some cb)
    (hres : (callCallback flags run s t cb ct).2 = CallbackResult.done)
    (hflag : flags.enableAlwaysYieldScheduler = false) :
    workLoopLoop flags run (fuel + 1) s ct =
      workLoopLoop flags run fuel
        (nextTask (completeTask flags (callCallback flags run s t cb ct).1 t
          (callCallback flags run s t cb ct).1.currentTime))
        (callCallback flags run s t cb ct).1.currentTime := by
  rw [workLoopLoop_call flags run fuel s ct t cb hcur hgate hcb, hres]
  simp only [hflag, Bool.false_and]
  rfl

theorem callCallback_result (flags : SchedulerFeatureFlags) (run : Callbacks)
    (hdone : ∀ c b st, (run c b st).result = CallbackResult.done) (s : State) (t : Task)
    (cb : Callback) (ct : Int) : (callCallback flags run s t cb ct).2 = CallbackResult.done := by
  unfold callCallback
  exact hdone _ _ _

/-- With callbacks that make no call to the scheduler, return no continuation
and take at most `d` milliseconds, and with fuel for every queued task, the loop
of `workLoop` runs until the task queue is empty and returns false; the
invariant of the run holds at the end. -/
theorem workLoopLoop_ordered (flags : SchedulerFeatureFlags) (run : Callbacks) (d : Nat)
    (hrun : ∀ c b st, (run c b st).Quiet) (hd : ∀ c b st, (run c b st).elapsed ≤ d)
    (hdone : ∀ c b st, (run c b st).result = CallbackResult.done)
    (hflag : flags.enableAlwaysYieldScheduler = false)
    (ready : List Task) (all : List Int) (base : List Invocation) :
    ∀ (fuel : Nat) (done : List Task) (s : State) (ct : Int),
      RunInv flags d ready all base done s → queued s < fuel →
      (workLoopLoop flags run fuel s ct).2 = Completion.returned false ∧
      (workLoopLoop flags run fuel s ct).1.taskQueue = [] ∧
      ∃ done1 new, List.Perm ready done1 ∧
        done1.Pairwise (fun a b => SchedulerMinHeap.compare a b < 0) ∧
        (workLoopLoop flags run fuel s ct).1.invoked = base ++ new ∧
        (∀ i ∈ new, i.task ∈ all) ∧
        (new.filter (fun i => decide (i.task ∈ ready.map Task.id))).map
            (fun i => (i.task, some i.callback))
          = done1.map (fun t => (t.id, t.callback)) := by
  intro fuel
  induction fuel with
  | zero => intro done s ct _ hq; omega
  | succ fuel ih =>
    intro done s ct h hq
    rcases peek_cases s.taskQueue with ⟨hp, he⟩ | ⟨t, hp, h0⟩
    · obtain ⟨_, hcur, _, hperm, _, _, hpw, _, ⟨new, hlog, hnall, hfil⟩, _, _⟩ := h
      rw [hp] at hcur
      rw [workLoopLoop_none flags run fuel s ct hcur]
      obtain ⟨e1, _, _, _, e5⟩ := workLoopReturn_fields s ct
      refine ⟨?_, by rw [e1, he], done, new, ?_, hpw, by rw [e5, hlog], hnall, hfil⟩
      · unfold workLoopReturn
        rw [if_neg (by rw [hcur]; simp)]
        split <;> rfl
      · rw [he] at hperm
        simpa using hperm
    · have hcur : s.currentTask = some t := by rw [h.2.1, hp]
      have hlive := h.2.2.1 t (List.getElem?_mem h0)
      obtain ⟨cb, hcb⟩ := Option.ne_none_iff_exists'.mp hlive
      have hy : shouldYieldToHost flags s = false := by
        obtain ⟨_, _, _, _, _, _, _, _, _, hpaint, hbud⟩ := h
        unfold shouldYieldToHost
        rw [hflag]
        have hc : ¬ ((!false && flags.enableRequestPaint && s.needsPaint) = true) := by
          intro hc
          simp only [Bool.not_false, Bool.true_and, Bool.and_eq_true] at hc
          exact hpaint hc
        rw [if_neg hc]
        simp only []
        have hnn : (0 : Int) ≤ ((d * queued s : Nat) : Int) := Int.natCast_nonneg _
        rw [if_pos (by omega)]
      have hgate : ¬ ((!flags.enableAlwaysYieldScheduler) = true ∧ t.expirationTime > ct ∧
          shouldYieldToHost flags s = true) := by
        rw [hy]
        simp
      rw [workLoopLoop_done flags run fuel s ct t cb hcur hgate hcb
        (callCallback_result flags run hdone s t cb ct) hflag]
      obtain ⟨⟨done1, hinv1⟩, hq1⟩ :=
        iteration_runInv flags run d hrun hd ready all base done s t cb ct h h0 hcb
      exact ih done1 _ _ hinv1 (by omega)


/-- The invariant of the run holds when the loop of `workLoop` starts. -/
theorem workLoop_runInv (flags : SchedulerFeatureFlags) (d : Nat) (s : State) (ct : Int)
    (hinv : SchedulerInv s) (hlive : ∀ t ∈ s.taskQueue, t.callback ≠ none)
    (hpaint : ¬ (flags.enableRequestPaint = true ∧ s.needsPaint = true))
    (hbud : s.currentTime + ((d * queued s : Nat) : Int) < s.startTime + s.frameInterval) :
    RunInv flags d s.taskQueue ((s.taskQueue ++ s.timerQueue).map Task.id) s.invoked []
      (nextTask (advanceTimers flags s ct)) ∧
    queued (nextTask (advanceTimers flags s ct)) ≤ queued s := by
  have hq := advanceTimers_queued flags s ct
  have F1 := advanceTimers_schedulerInv flags s ct hinv
  have F2 := advanceTimers_invoked flags s ct
  have hnd := hinv.1.2.2.1
  rw [List.map_append] at hnd
  have hdis := (List.nodup_append.mp hnd).2.2
  unfold advanceTimers at F1 F2 hq ⊢
  obtain ⟨P, D, p1, p2, p3, _⟩ := advanceTimersLoop_queues flags ct s.timerQueue.length s
  have hfr := advanceTimersLoop_frame flags ct s.timerQueue.length s
  have hTsub : ∀ x ∈ (advanceTimersLoop flags s.timerQueue.length s ct).timerQueue,
      x ∈ s.timerQueue := fun x hx =>
    p2.mem_iff.mpr (List.mem_append_right _ (List.mem_append_right _ hx))
  have hPsub : ∀ p ∈ P, p ∈ s.timerQueue := fun p hp => p2.mem_iff.mpr (List.mem_append_left _ hp)
  have htimer : ∀ x ∈ s.timerQueue, x.id ∉ s.taskQueue.map Task.id := by
    intro x hx hm
    exact hdis hm (List.mem_map.mpr ⟨x, hx, rfl⟩)
  refine ⟨⟨schedulerInv_congr _ _ rfl rfl rfl F1, rfl, ?_, ?_, ?_, ?_, List.Pairwise.nil, ?_, ?_,
    ?_, ?_⟩, hq⟩
  · intro x hx
    rcases List.mem_append.mp (p1.mem_iff.mp hx) with e | e
    · obtain ⟨p, hp, rfl⟩ := List.mem_map.mp e
      exact (p3 p hp).1
    · exact hlive x e
  · show List.Perm s.taskQueue ([] ++
      (advanceTimersLoop flags s.timerQueue.length s ct).taskQueue.filter
        (fun t => decide (t.id ∈ s.taskQueue.map Task.id)))
    rw [List.nil_append]
    refine List.Perm.symm ((p1.filter _).trans ?_)
    rw [List.filter_append]
    have e1 : (P.map (promote flags)).filter (fun t => decide (t.id ∈ s.taskQueue.map Task.id))
        = [] := by
      rw [List.filter_eq_nil_iff]
      intro x hx
      obtain ⟨p, hp, rfl⟩ := List.mem_map.mp hx
      have := htimer p (hPsub p hp)
      simpa using this
    have e2 : s.taskQueue.filter (fun t => decide (t.id ∈ s.taskQueue.map Task.id))
        = s.taskQueue := by
      rw [List.filter_eq_self]
      intro x hx
      simpa using ⟨x, hx, rfl⟩
    rw [e1, e2]
    exact List.Perm.refl _
  · intro x hx
    exact htimer x (hTsub x hx)
  · intro x hx
    rcases List.mem_append.mp hx with e | e
    · rcases List.mem_append.mp (p1.mem_iff.mp e) with e2 | e2
      · obtain ⟨p, hp, rfl⟩ := List.mem_map.mp e2
        exact List.mem_map.mpr ⟨p, List.mem_append_right _ (hPsub p hp), rfl⟩
      · exact List.mem_map.mpr ⟨x, List.mem_append_left _ e2, rfl⟩
    · exact List.mem_map.mpr ⟨x, List.mem_append_right _ (hTsub x e), rfl⟩
  · intro a ha
    cases ha
  · exact ⟨[], by rw [List.append_nil]; exact F2, fun i hi => (by cases hi), rfl⟩
  · have : (nextTask (advanceTimersLoop flags s.timerQueue.length s ct)).needsPaint
        = s.needsPaint := by
      rw [hfr]
      rfl
    rw [this]
    exact hpaint
  · have e1 : (nextTask (advanceTimersLoop flags s.timerQueue.length s ct)).currentTime
        = s.currentTime := by
      rw [hfr]
      rfl
    have e2 : (nextTask (advanceTimersLoop flags s.timerQueue.length s ct)).startTime
        = s.startTime := by
      rw [hfr]
      rfl
    have e3 : (nextTask (advanceTimersLoop flags s.timerQueue.length s ct)).frameInterval
        = s.frameInterval := by
      rw [hfr]
      rfl
    rw [e1, e2, e3]
    have hq2 : queued (nextTask (advanceTimersLoop flags s.timerQueue.length s ct))
        ≤ queued s := hq
    have : ((d * queued (nextTask (advanceTimersLoop flags s.timerQueue.length s ct)) : Nat) : Int)
        ≤ ((d * queued s : Nat) : Int) := by
      exact_mod_cast Nat.mul_le_mul_left d hq2
    omega

/-- The run of `workLoop` over a well-formed state whose task queue holds live
callbacks, when nothing makes the loop stop early: it returns false, and the
record of the invocations of the tasks of the task queue is the list of these
tasks in strictly ascending order under `compare`. -/
theorem workLoop_sorted_run (flags : SchedulerFeatureFlags) (run : Callbacks) (d fuel : Nat)
    (s : State) (initialTime : Int)
    (hinv : SchedulerInv s) (hlive : ∀ t ∈ s.taskQueue, t.callback ≠ none)
    (hflag : flags.enableAlwaysYieldScheduler = false)
    (hpaint : ¬ (flags.enableRequestPaint = true ∧ s.needsPaint = true))
    (hbud : s.currentTime + ((d * queued s : Nat) : Int) < s.startTime + s.frameInterval)
    (hrun : ∀ c b st, (run c b st).Quiet) (hd : ∀ c b st, (run c b st).elapsed ≤ d)
    (hdone : ∀ c b st, (run c b st).result = CallbackResult.done)
    (hfuel : queued s < fuel) :
    ∃ done new,
      (workLoop flags run fuel s initialTime).2 = Completion.returned false ∧
      (workLoop flags run fuel s initialTime).1.invoked = s.invoked ++ new ∧
      List.Perm done s.taskQueue ∧
      done.Pairwise (fun a b => SchedulerMinHeap.compare a b < 0) ∧
      (new.filter (fun i => decide (i.task ∈ s.taskQueue.map Task.id))).map
          (fun i => (i.task, some i.callback))
        = done.map (fun t => (t.id, t.callback)) ∧
      (s.timerQueue = [] →
        new.map (fun i => (i.task, some i.callback)) = done.map (fun t => (t.id, t.callback))) := by
  obtain ⟨h1, hq1⟩ := workLoop_runInv flags d s initialTime hinv hlive hpaint hbud
  obtain ⟨r1, _, done, new, pd, pw, hlog, hnall, hfil⟩ :=
    workLoopLoop_ordered flags run d hrun hd hdone hflag s.taskQueue
      ((s.taskQueue ++ s.timerQueue).map Task.id) s.invoked fuel [] _ initialTime h1 (by omega)
  refine ⟨done, new, r1, hlog, pd.symm, pw, hfil, ?_⟩
  intro htq
  rw [← hfil]
  congr 1
  symm
  rw [List.filter_eq_self]
  intro i hi
  have := hnall i hi
  rw [htq, List.append_nil] at this
  simpa using this

/-- C3. Take a scheduler state whose queues are well formed (as in every
reachable state) and whose task queue holds tasks with live callbacks, callbacks
that make no call to the scheduler, return no continuation and take at most `d`
milliseconds, a frame that leaves `d` milliseconds to every queued task and no
pending paint, so that the host never signals a yield, and
`enableAlwaysYieldScheduler` off. Then `workLoop`, given fuel for every queued
task, returns false, and it invokes the callbacks of the tasks of the task
queue, each once, in ascending order of (expirationTime, id): the record of the
invocations of these tasks is the list of the tasks sorted in that order, and
when the timer queue is empty nothing else is invoked. -/
theorem workLoop_runs_in_order (flags : SchedulerFeatureFlags) (run : Callbacks) (d fuel : Nat)
    (s : State) (initialTime : Int)
    (hinv : SchedulerInv s) (hlive : ∀ t ∈ s.taskQueue, t.callback ≠ none)
    (hflag : flags.enableAlwaysYieldScheduler = false)
    (hpaint : ¬ (flags.enableRequestPaint = true ∧ s.needsPaint = true))
    (hbud : s.currentTime + ((d * queued s : Nat) : Int) < s.startTime + s.frameInterval)
    (hrun : ∀ c b st, (run c b st).Quiet) (hd : ∀ c b st, (run c b st).elapsed ≤ d)
    (hdone : ∀ c b st, (run c b st).result = CallbackResult.done)
    (hfuel : queued s < fuel) :
    ∃ done new,
      (workLoop flags run fuel s initialTime).2 = Completion.returned false ∧
      (workLoop flags run fuel s initialTime).1.invoked = s.invoked ++ new ∧
      List.Perm done s.taskQueue ∧
      done.Pairwise (fun a b => a.expirationTime < b.expirationTime ∨
        (a.expirationTime = b.expirationTime ∧ a.id < b.id)) ∧
      (new.filter (fun i => decide (i.task ∈ s.taskQueue.map Task.id))).map
          (fun i => (i.task, some i.callback))
        = done.map (fun t => (t.id, t.callback)) ∧
      (s.timerQueue = [] →
        new.map (fun i => (i.task, some i.callback)) = done.map (fun t => (t.id, t.callback))) := by
  obtain ⟨done, new, r1, hlog, pd, pw, hfil, hall⟩ :=
    workLoop_sorted_run flags run d fuel s initialTime hinv hlive hflag hpaint hbud hrun hd hdone
      hfuel
  refine ⟨done, new, r1, hlog, pd, ?_, hfil, hall⟩
  refine pw.imp_of_mem ?_
  intro a b ha hb hab
  have ka := hinv.1.2.1 a (pd.mem_iff.mp ha)
  have kb := hinv.1.2.1 b (pd.mem_iff.mp hb)
  have := (compare_lt_iff a b).mp hab
  rw [← ka, ← kb]
  exact this

/-- C3, for an Idle task submitted before an Immediate task: `workLoop` runs
both and returns false. -/
theorem workLoop_runs_in_order_witness :
    ∃ (done : List Task) (new : List Invocation),
      done.Pairwise (fun a b => a.expirationTime < b.expirationTime ∨
        (a.expirationTime = b.expirationTime ∧ a.id < b.id)) ∧
      new.map (fun i => (i.task, some i.callback)) = done.map (fun t => (t.id, t.callback)) ∧
      (workLoop ⟨false, 5, 250, 10000, 5000, true, false⟩ (fun _ _ _ => ⟨[], .done⟩) 3
        (unstable_scheduleCallback ⟨false, 5, 250, 10000, 5000, true, false⟩
          (unstable_scheduleCallback ⟨false, 5, 250, 10000, 5000, true, false⟩
            (init ⟨false, 5, 250, 10000, 5000, true, false⟩ 0) IdlePriority 7 none).2
          ImmediatePriority 8 none).2 0).1.invoked = [] ++ new := by
  obtain ⟨done, new, _, h2, _, h4, _, h6⟩ :=
    workLoop_runs_in_order ⟨false, 5, 250, 10000, 5000, true, false⟩
      (fun _ _ _ => ⟨[], .done⟩) 0 3
      (unstable_scheduleCallback ⟨false, 5, 250, 10000, 5000, true, false⟩
          (unstable_scheduleCallback ⟨false, 5, 250, 10000, 5000, true, false⟩
            (init ⟨false, 5, 250, 10000, 5000, true, false⟩ 0) IdlePriority 7 none).2
          ImmediatePriority 8 none).2 0
      (by unfold SchedulerInv WellFormed IdsBelow; decide) (by decide) rfl (by decide) (by decide)
      (fun _ _ _ x hx => (by cases hx)) (fun _ _ _ => le_refl _) (fun _ _ _ => rfl) (by decide)
  exact ⟨done, new, h4, h6 rfl, h2⟩

end Scheduler


/-! ## The scheduler: tasks of the same priority -/

namespace Scheduler

open SchedulerMinHeap SchedulerPriorities

theorem scheduleCallback_host (flags : SchedulerFeatureFlags) (s : State)
    (priorityLevel : PriorityLevel) (callback : Callback) (options : Option Int) :
    (unstable_scheduleCallback flags s priorityLevel callback options).2.needsPaint
      = s.needsPaint ∧
    (unstable_scheduleCallback flags s priorityLevel callback options).2.frameInterval
      = s.frameInterval ∧
    (unstable_scheduleCallback flags s priorityLevel callback options).2.startTime
      = s.startTime := by
  unfold unstable_scheduleCallback requestHostTimeout cancelHostTimeout requestHostCallback
  simp only []
  split_ifs <;> exact ⟨rfl, rfl, rfl⟩

theorem submitAll_cons (flags : SchedulerFeatureFlags) (p : PriorityLevel) (ms : Nat)
    (cb : Callback) (rest : List (Nat × Callback)) (s : State) :
    submitAll flags p ((ms, cb) :: rest) s =
      submitAll flags p rest
        (unstable_scheduleCallback flags { s with currentTime := s.currentTime + ms } p cb
          none).2 := rfl

/-- The effect of `submitAll`: the tasks `L` created, in the order of
submission, have joined the task queue; they are in strictly ascending order
under `compare`, with consecutive identifiers. -/
theorem submitAll_spec (flags : SchedulerFeatureFlags) (p : PriorityLevel) :
    ∀ (tasks : List (Nat × Callback)) (s : State), ∃ L : List Task,
      List.Perm (submitAll flags p tasks s).taskQueue (L ++ s.taskQueue) ∧
      (submitAll flags p tasks s).timerQueue = s.timerQueue ∧
      (submitAll flags p tasks s).invoked = s.invoked ∧
      (submitAll flags p tasks s).needsPaint = s.needsPaint ∧
      (submitAll flags p tasks s).frameInterval = s.frameInterval ∧
      s.currentTime ≤ (submitAll flags p tasks s).currentTime ∧
      L.map Task.id = (List.range tasks.length).map (fun i : Nat => s.taskIdCounter + (i : Int)) ∧
      L.map Task.callback = tasks.map (fun x => some x.2) ∧
      L.Pairwise (fun a b => SchedulerMinHeap.compare a b < 0) ∧
      ∀ x ∈ L, s.currentTime + scheduleTimeout flags p ≤ x.sortIndex ∧ s.taskIdCounter ≤ x.id := by
  intro tasks
  induction tasks with
  | nil =>
    intro s
    exact ⟨[], List.Perm.refl _, rfl, rfl, rfl, rfl, le_refl _, rfl, rfl, List.Pairwise.nil,
      fun x hx => (by cases hx)⟩
  | cons a rest ih =>
    intro s
    obtain ⟨ms, cb⟩ := a
    have hq := (scheduleCallback_queues flags { s with currentTime := s.currentTime + ms } p cb
      none).2 (by simp [scheduleStartTime])
    obtain ⟨f1, _, f3, f4⟩ :=
      scheduleCallback_frame flags { s with currentTime := s.currentTime + ms } p cb none
    obtain ⟨f5, f6, _⟩ :=
      scheduleCallback_host flags { s with currentTime := s.currentTime + ms } p cb none
    have hid : (scheduleNewTask flags { s with currentTime := s.currentTime + ms } p cb none).id
        = s.taskIdCounter := rfl
    have hcb : (scheduleNewTask flags { s with currentTime := s.currentTime + ms } p cb
        none).callback = some cb := rfl
    have hsi : (scheduleNewTask flags { s with currentTime := s.currentTime + ms } p cb
        none).sortIndex = s.currentTime + ms + scheduleTimeout flags p := by
      simp [scheduleNewTask, scheduleStartTime]
    generalize scheduleNewTask flags { s with currentTime := s.currentTime + ms } p cb none = nt
      at hq hid hcb hsi
    obtain ⟨L, h1, h2, h3, h4, h5, h6, h7, h8, h9, h10⟩ := ih
      (unstable_scheduleCallback flags { s with currentTime := s.currentTime + ms } p cb none).2
    rw [submitAll_cons]
    generalize submitAll flags p rest
      (unstable_scheduleCallback flags { s with currentTime := s.currentTime + ms } p cb none).2
      = S at h1 h2 h3 h4 h5 h6 ⊢
    generalize (unstable_scheduleCallback flags { s with currentTime := s.currentTime + ms } p cb
      none).2 = s1 at hq f1 f3 f4 f5 f6 h1 h2 h3 h4 h5 h6 h7 h10
    simp only [] at hq f1 f3 f4 f5 f6
    refine ⟨nt :: L, ?_, by rw [h2, hq.2], by rw [h3, f1], by rw [h4, f5], by rw [h5, f6], ?_, ?_,
      ?_, ?_, ?_⟩
    · refine h1.trans ?_
      rw [hq.1]
      refine (List.Perm.append_left L (push_perm_cons s.taskQueue nt)).trans ?_
      exact List.perm_middle
    · rw [f4] at h6
      omega
    · rw [List.map_cons, h7, hid, f3, List.length_cons, List.range_succ_eq_map]
      simp only [List.map_cons, List.map_map, Nat.cast_zero, add_zero]
      congr 1
      apply List.map_congr_left
      intro i _
      simp only [Function.comp, Nat.succ_eq_add_one, Nat.cast_add, Nat.cast_one]
      omega
    · rw [List.map_cons, List.map_cons, h8, hcb]
    · rw [List.pairwise_cons]
      refine ⟨?_, h9⟩
      intro y hy
      obtain ⟨b1, b2⟩ := h10 y hy
      rw [f4] at b1
      rw [f3] at b2
      rw [compare_lt_iff]
      show nt.sortIndex < y.sortIndex ∨ (nt.sortIndex = y.sortIndex ∧ nt.id < y.id)
      rw [hsi, hid]
      omega
    · intro x hx
      rcases List.mem_cons.mp hx with e | e
      · rw [e, hsi, hid]
        omega
      · obtain ⟨b1, b2⟩ := h10 x e
        rw [f4] at b1
        rw [f3] at b2
        omega

theorem submitAll_schedulerInv (flags : SchedulerFeatureFlags) (p : PriorityLevel) :
    ∀ (tasks : List (Nat × Callback)) (s : State), SchedulerInv s →
      SchedulerInv (submitAll flags p tasks s) := by
  intro tasks
  induction tasks with
  | nil => intro s h; exact h
  | cons a rest ih =>
    intro s h
    obtain ⟨ms, cb⟩ := a
    exact ih _ (scheduleCallback_schedulerInv flags _ p cb none
      (schedulerInv_congr s _ rfl rfl rfl h))


/-- C4. For every list of callbacks and every priority level: the callbacks are
submitted with that priority and no delay, time passing in between, to the
initial scheduler; the scheduler is then flushed in a frame that starts at
`frameStart` and leaves `d` milliseconds to each task, the callbacks taking at
most `d` milliseconds, making no call to the scheduler and returning no
continuation, with `enableAlwaysYieldScheduler` off and fuel for every task.
Then the flush returns false and it invokes the callbacks once each in the order
of submission: the record of invocations lists the callbacks submitted, in that
order, for the tasks 1, 2, ... in that order. -/
theorem submission_order_flush (flags : SchedulerFeatureFlags) (run : Callbacks) (d fuel : Nat)
    (now : Int) (p : PriorityLevel) (tasks : List (Nat × Callback))
    (frameStart initialTime : Int)
    (hflag : flags.enableAlwaysYieldScheduler = false)
    (hrun : ∀ c b st, (run c b st).Quiet) (hd : ∀ c b st, (run c b st).elapsed ≤ d)
    (hdone : ∀ c b st, (run c b st).result = CallbackResult.done)
    (hbud : (submitAll flags p tasks (init flags now)).currentTime
      + ((d * tasks.length : Nat) : Int) < frameStart + flags.frameYieldMs)
    (hfuel : tasks.length < fuel) :
    (flushWork flags run fuel
      { submitAll flags p tasks (init flags now) with startTime := frameStart } initialTime).2
      = Completion.returned false ∧
    (flushWork flags run fuel
      { submitAll flags p tasks (init flags now) with startTime := frameStart }
      initialTime).1.invoked.map Invocation.callback = tasks.map Prod.snd ∧
    (flushWork flags run fuel
      { submitAll flags p tasks (init flags now) with startTime := frameStart }
      initialTime).1.invoked.map Invocation.task
      = (List.range tasks.length).map (fun i : Nat => (i : Int) + 1) := by
  obtain ⟨L, h1, h2, h3, h4, h5, _, h7, h8, h9, _⟩ := submitAll_spec flags p tasks (init flags now)
  have hS := submitAll_schedulerInv flags p tasks _ (init_schedulerInv flags now)
  generalize submitAll flags p tasks (init flags now) = S at h1 h2 h3 h4 h5 hS hbud ⊢
  have i1 : (init flags now).taskQueue = [] := rfl
  have i2 : (init flags now).timerQueue = [] := rfl
  have i3 : (init flags now).invoked = [] := rfl
  have i4 : (init flags now).needsPaint = false := rfl
  have i5 : (init flags now).frameInterval = flags.frameYieldMs := rfl
  have i6 : (init flags now).taskIdCounter = 1 := rfl
  rw [i1, List.append_nil] at h1
  rw [i2] at h2
  rw [i3] at h3
  rw [i4] at h4
  rw [i5] at h5
  rw [i6] at h7
  obtain ⟨e1, e2, e3, e4, e5, e6, e7, e8⟩ :=
    flushWorkEntry_queues { S with startTime := frameStart }
  obtain ⟨w1, w2⟩ := flushWork_invoked flags run fuel { S with startTime := frameStart }
    initialTime
  rw [w1, w2]
  clear w1 w2
  have hE : SchedulerInv (flushWorkEntry { S with startTime := frameStart }) :=
    schedulerInv_congr S _ e1 e2 e8 hS
  have hlen : L.length = tasks.length := by
    have := congrArg List.length h7
    simpa using this
  have hlive : ∀ t ∈ (flushWorkEntry { S with startTime := frameStart }).taskQueue,
      t.callback ≠ none := by
    intro t ht
    rw [e1] at ht
    have hm : t.callback ∈ L.map Task.callback :=
      List.mem_map.mpr ⟨t, h1.mem_iff.mp ht, rfl⟩
    rw [h8] at hm
    obtain ⟨x, _, hx⟩ := List.mem_map.mp hm
    rw [← hx]
    simp
  have hq : queued (flushWorkEntry { S with startTime := frameStart }) = tasks.length := by
    unfold queued
    rw [e1, e2]
    show S.taskQueue.length + S.timerQueue.length = _
    rw [h2, h1.length_eq, hlen]
    rfl
  obtain ⟨done, new, r1, hlog, pd, pw, _, hall⟩ :=
    workLoop_sorted_run flags run d fuel (flushWorkEntry { S with startTime := frameStart })
      initialTime hE hlive hflag
      (by rw [e7]; show ¬ (_ ∧ S.needsPaint = true); rw [h4]; simp)
      (by
        rw [hq, e4, e5, e6]
        show S.currentTime + _ < frameStart + S.frameInterval
        rw [h5]
        exact hbud)
      hrun hd hdone (by rw [hq]; exact hfuel)
  have hmap := hall (by rw [e2]; exact h2)
  have hdoneL : done = L := by
    haveI : IsAntisymm Task (fun a b => SchedulerMinHeap.compare a b < 0) :=
      ⟨fun a b => compare_lt_antisymm a b⟩
    refine List.eq_of_perm_of_sorted ?_ pw h9
    rw [e1] at pd
    exact pd.trans h1
  rw [hdoneL] at hmap
  have hinvk : (workLoop flags run fuel (flushWorkEntry { S with startTime := frameStart })
      initialTime).1.invoked = new := by
    rw [hlog, e3]
    show S.invoked ++ new = new
    rw [h3]
    rfl
  rw [hinvk]
  refine ⟨r1, ?_, ?_⟩
  · have c2 := congrArg (List.map Prod.snd) hmap
    simp only [List.map_map] at c2
    have c3 : List.map some (new.map Invocation.callback) = List.map some (tasks.map Prod.snd) := by
      rw [List.map_map, List.map_map]
      refine c2.trans ?_
      show L.map Task.callback = _
      rw [h8]
      rfl
    exact List.map_injective_iff.mpr (Option.some_injective _) c3
  · have c1 := congrArg (List.map Prod.fst) hmap
    simp only [List.map_map] at c1
    refine c1.trans ?_
    show L.map Task.id = _
    rw [h7]
    apply List.map_congr_left
    intro i _
    omega

/-- C4, for three Normal-priority tasks: the flush returns false. -/
theorem submission_order_flush_witness :
    (flushWork ⟨false, 5, 250, 10000, 5000, true, false⟩ (fun _ _ _ => ⟨[.elapse 1], .done⟩) 4
      { submitAll ⟨false, 5, 250, 10000, 5000, true, false⟩ NormalPriority
          [(0, 7), (2, 8), (0, 9)] (init ⟨false, 5, 250, 10000, 5000, true, false⟩ 0)
        with startTime := 2 } 2).1.invoked.map Invocation.callback = [7, 8, 9] :=
  (submission_order_flush ⟨false, 5, 250, 10000, 5000, true, false⟩
    (fun _ _ _ => ⟨[.elapse 1], .done⟩) 1 4 0 NormalPriority [(0, 7), (2, 8), (0, 9)] 2 2 rfl
    (fun _ _ _ x hx => ⟨1, List.mem_singleton.mp hx⟩) (fun _ _ _ => le_refl _) (fun _ _ _ => rfl)
    (by decide) (by decide)).2.1

end Scheduler
